import Mathlib


/-!
# cavOS ext2 driver: embedding of `ext2_controller.c`

A shallow embedding of the mount, open, read, write and seek entry points of
`src/kernel/filesystems/ext2/ext2_controller.c`, with the properties of the
driver stated and proved over it.

Conventions.
* Memory (caller buffers, staging buffers, the disk) is a map from byte
  addresses to byte values.
* A C function that may call `panic()` or fail an `assert` has outcome
  `Run.halt` there; `Run.done r` is a normal return.
* `size_t` values are natural numbers; the places where the source narrows a
  value (`uint32_t` inode fields, the `int` in `ext2Seek`) are narrowed
  explicitly.
* A C string is the `String` of its bytes, one character per byte.
* The inode table of the device holds the inode records; a descriptor carries
  a copy of its inode, which `ext2CachePush` brings up to date at the start of
  every read and write.
-/

namespace CavOS

/-! ## Outcomes and memory -/

/-- Outcome of a driver call: a normal return, or the kernel halting in
`panic()` or in a failed `assert`. `spin` is an exhausted loop budget. -/
inductive Run (α : Type) where
  | done : α → Run α
  | halt : Run α
  | spin : Run α
  deriving DecidableEq

/-- Observation of an outcome through `f`. -/
def Run.map {α β : Type} (f : α → β) : Run α → Run β
  | .done a => .done (f a)
  | .halt => .halt
  | .spin => .spin

/-- Sequencing of two calls: the second runs when the first returned. -/
def Run.bind {α β : Type} (r : Run α) (f : α → Run β) : Run β :=
  match r with
  | .done a => f a
  | .halt => .halt
  | .spin => .spin

/-- The value a call returned, `d` when it did not return. -/
def Run.getD {α : Type} (r : Run α) (d : α) : α :=
  match r with
  | .done a => a
  | _ => d

/-- Byte-addressed memory. -/
abbrev Mem := Nat → Nat

/-- C `memcpy(&dst[d], &src[s], n)`. -/
def memcpy (dst : Mem) (d : Nat) (src : Mem) (s : Nat) (n : Nat) : Mem :=
  fun a => if d ≤ a ∧ a < d + n then src (a - d + s) else dst a

/-- C `MIN(a, b)`. -/
def MIN (a b : Nat) : Nat := if a < b then a else b

/-- Modelled from the spec: the macro `DivRoundUp` lives in a header that is not
among the sources; the spec writes it `ceil(a/b)`. -/
def DivRoundUp (number divisor : Nat) : Nat := (number + divisor - 1) / divisor

/-! ## Constants of headers that are not among the sources -/

/-- Modelled from the spec: sector size of the block device (`num_sectors` counts
512-byte units, `ext2_controller.c` line 878). -/
def SECTOR_SIZE : Nat := 512

/-- Modelled from the spec: error numbers of §7, with their POSIX values. -/
def EPERM : Nat := 1
/-- Modelled from the spec: POSIX `ENOENT`. -/
def ENOENT : Nat := 2
/-- Modelled from the spec: POSIX `EACCES`. -/
def EACCES : Nat := 13
/-- Modelled from the spec: POSIX `EEXIST`. -/
def EEXIST : Nat := 17
/-- Modelled from the spec: POSIX `ENOTDIR`. -/
def ENOTDIR : Nat := 20
/-- Modelled from the spec: POSIX `EISDIR`. -/
def EISDIR : Nat := 21
/-- Modelled from the spec: POSIX `EINVAL`. -/
def EINVAL : Nat := 22
/-- Modelled from the spec: POSIX `ENOSPC`. -/
def ENOSPC : Nat := 28
/-- Modelled from the spec: POSIX `ELOOP`. -/
def ELOOP : Nat := 40

/-- Modelled from the spec: "error returns via small negative integers"; `ERR(e)`
is `-e` seen as a `size_t`. -/
def ERR (e : Nat) : Nat := 2 ^ 64 - e

/-- Modelled from the spec: `RET_IS_ERR` recognises the small negative integers
(the last 4095 values of `size_t`). -/
def RET_IS_ERR (ret : Nat) : Bool := decide (2 ^ 64 - 4096 < ret)

/-- Modelled from the spec: open flags of §6, with the Linux x86-64 values. -/
def O_WRONLY : Nat := 0o1
/-- Modelled from the spec: `O_RDWR`. -/
def O_RDWR : Nat := 0o2
/-- Modelled from the spec: `O_CREAT`. -/
def O_CREAT : Nat := 0o100
/-- Modelled from the spec: `O_EXCL`. -/
def O_EXCL : Nat := 0o200
/-- Modelled from the spec: `O_TRUNC`. -/
def O_TRUNC : Nat := 0o1000
/-- Modelled from the spec: `O_APPEND`. -/
def O_APPEND : Nat := 0o2000
/-- Modelled from the spec: `O_DIRECTORY`. -/
def O_DIRECTORY : Nat := 0o200000
/-- Modelled from the spec: `O_NOFOLLOW`. -/
def O_NOFOLLOW : Nat := 0o400000

/-- Modelled from the spec: `whence` values of §6. -/
def SEEK_SET : Nat := 0
/-- Modelled from the spec: `SEEK_CURR`. -/
def SEEK_CURR : Nat := 1

/-- Modelled from the spec: POSIX file-type bits of the mode word (type nibble
`0xF000`); `S_IFDIR` is the directory type `0x4000`. -/
def S_IFDIR : Nat := 0x4000
/-- Modelled from the spec: regular-file type `0x8000`. -/
def S_IFREG : Nat := 0x8000
/-- Modelled from the spec: the ext2 name of the directory type. -/
def EXT2_S_IFDIR : Nat := 0x4000

/-- Modelled from the spec: required-feature bits of the ext2 superblock. -/
def EXT2_R_F_COMPRESSION : Nat := 0x1
/-- Modelled from the spec: required feature `FILETYPE`. -/
def EXT2_R_F_TYPE_FIELD : Nat := 0x2
/-- Modelled from the spec: required feature "journal device". -/
def EXT2_R_F_JOURNAL_DEVICE : Nat := 0x8

/-- Modelled from the spec: filesystem state "clean" of the ext2 superblock. -/
def EXT2_FS_S_CLEAN : Nat := 1
/-- Modelled from the spec: filesystem state "has errors". -/
def EXT2_FS_S_ERROR : Nat := 2
/-- Modelled from the spec: error policy "ignore and continue". -/
def EXT2_FS_E_IGNORE : Nat := 1
/-- Modelled from the spec: error policy "remount read-only". -/
def EXT2_FS_E_REMOUNT_RO : Nat := 2
/-- Modelled from the spec: error policy "kernel panic". -/
def EXT2_FS_E_KPANIC : Nat := 3

/-- Modelled from the spec: root inode of §4.9. -/
def EXT2_ROOT_INODE : Nat := 2

/-- Modelled from the spec: `COMBINE_64(high, low)` joins the two 32-bit halves of
the file size. -/
def COMBINE_64 (higher lower : Nat) : Nat := higher * 2 ^ 32 + lower

/-! ## Data model -/

/-- Fields of the on-disk superblock that the driver reads. -/
structure Ext2Superblock where
  total_inodes : Nat
  total_blocks : Nat
  superblock_idx : Nat
  log2block_size : Nat
  blocks_per_group : Nat
  inodes_per_group : Nat
  ext2_magic : Nat
  fs_state : Nat
  err : Nat
  major : Nat
  required_feature : Nat
  inode_size : Nat

/-- Inode record. `blocks` stands for the whole block chain of the inode (the 12
direct pointers and the three indirect trees): file block index to absolute
block number, `0` for a hole. `indirect` holds the three indirect pointers
themselves, the words 12, 13 and 14 of the block-pointer region. -/
structure Ext2Inode where
  permission : Nat
  size : Nat
  size_high : Nat
  num_sectors : Nat
  hard_links : Nat
  dtime : Nat
  blocks : Nat → Nat
  indirect : Nat → Nat := fun _ => 0

/-- Cache entry of an open object: `blocks` blocks starting at file block
`blockIndex`, held in `buff`. -/
structure Ext2CacheObject where
  blockIndex : Nat
  blocks : Nat
  buff : Mem

/-- Shared per-inode open object. The list `firstCacheObj` is the linked list
hanging off the field of that name. -/
structure Ext2FoundObject where
  inode : Nat
  openFds : Int
  firstCacheObj : List Ext2CacheObject

/-- Per-descriptor state. `globalObject` points at the shared object; the
pointer is represented by the inode number the object was created for. -/
structure Ext2OpenFd where
  inodeNum : Nat
  inode : Ext2Inode
  ptr : Nat
  globalObject : Nat

/-- VFS descriptor: open flags, the driver state `dir` (absent until `ext2Open`
succeeds) and the owned directory name. -/
structure OpenFile where
  flags : Nat
  dir : Option Ext2OpenFd
  dirname : Option String

/-- Block device and the on-disk structures kept on it: raw bytes, the block
bitmap (absolute block number to "in use"), the inode table, `heap`, the
contents that freshly allocated staging memory happens to hold, and the inode
bitmap (inode number to "in use"). -/
structure Device where
  bytes : Mem
  blockBitmap : Nat → Bool
  inodes : Nat → Ext2Inode
  heap : Mem
  inodeBitmap : Nat → Bool := fun _ => true

/-- Mounted volume (`Ext2` in the source). -/
structure Ext2 where
  offsetBase : Nat
  offsetSuperblock : Nat
  offsetBGDT : Nat
  superblock : Ext2Superblock
  blockSize : Nat
  blockGroups : Nat
  inodeSize : Nat
  inodeSizeRounded : Nat
  firstObject : List Ext2FoundObject
  dev : Device

/-- Modelled from the spec: `BLOCK_TO_LBA` (§4.1),
`lba = partitionBase + block*blockSize/sectorSize`. The second argument of the
source macro is `0` at every call of this file and is left out. -/
def BLOCK_TO_LBA (ext2 : Ext2) (block : Nat) : Nat :=
  ext2.offsetBase + block * ext2.blockSize / SECTOR_SIZE

/-- Modelled from the spec: `INODE_TO_BLOCK_GROUP` (§4.4),
`group = (inode-1) / inodes_per_group`. -/
def INODE_TO_BLOCK_GROUP (ext2 : Ext2) (inode : Nat) : Nat :=
  (inode - 1) / ext2.superblock.inodes_per_group

/-! ## `ext2Mount` -/

/-- The macro `DivRoundUp` on the `uint32_t` operands of lines 84-87 of
`ext2Mount`: the sum `number + divisor - 1` is taken modulo `2^32` before the
division. -/
def DivRoundUp32 (number divisor : Nat) : Nat :=
  (number + divisor + (2 ^ 32 - 1)) % 2 ^ 32 / divisor

/-- `ext2Mount` (lines 13-122). `sb` is the superblock found in sector 2 of the
partition that starts at `lba_first_sector`. `Run.done none` is `return false`,
`Run.done (some v)` is `return true` with `mount->fsInfo = v`. The shift of
line 75 is carried out in the 32-bit `int` of the literal `1024`: the block
size is the low 32 bits of `1024 * 2^log2block_size`, which is that product for
every count up to 20 (beyond, the shift overflows the `int`). The two group
counts are computed on `uint32_t` operands. A zero divisor in `DivRoundUp`
faults the CPU and is a halt. -/
def ext2Mount (dev : Device) (lba_first_sector : Nat) (sb : Ext2Superblock) :
    Run (Option Ext2) :=
  if sb.ext2_magic ≠ 0xEF53 then .done none
  else if sb.major < 1 then .done none
  else if sb.required_feature ≠ EXT2_R_F_TYPE_FIELD then .done none
  else if sb.fs_state ≠ EXT2_FS_S_CLEAN ∧ sb.err = EXT2_FS_E_REMOUNT_RO then .done none
  else if sb.fs_state ≠ EXT2_FS_S_CLEAN ∧ sb.err = EXT2_FS_E_KPANIC then .halt
  else
    let blockSize := (1024 <<< sb.log2block_size) % 2 ^ 32
    if blockSize % SECTOR_SIZE ≠ 0 then .done none
    else if sb.blocks_per_group = 0 ∨ sb.inodes_per_group = 0 then .halt
    else
      let blockGroups1 := DivRoundUp32 sb.total_blocks sb.blocks_per_group
      let blockGroups2 := DivRoundUp32 sb.total_inodes sb.inodes_per_group
      if blockGroups1 ≠ blockGroups2 then .done none
      else
        .done (some
          { offsetBase := lba_first_sector
            offsetSuperblock := lba_first_sector + 2
            offsetBGDT :=
              lba_first_sector + (sb.superblock_idx + 1) % 2 ^ 32 * blockSize / SECTOR_SIZE
            superblock := sb
            blockSize := blockSize
            blockGroups := blockGroups1
            inodeSize := sb.inode_size
            inodeSizeRounded := DivRoundUp sb.inode_size SECTOR_SIZE * SECTOR_SIZE
            firstObject := []
            dev := dev })

/-! ## Helpers of the driver that are not among the sources -/

/-- Modelled from the spec: `getDiskBytes` (§4.1 `readBytes(dst, lba,
sectorCount)`) copies `sectors` sectors starting at sector `lba` to `&dst[d]`. -/
def getDiskBytes (ext2 : Ext2) (dst : Mem) (d : Nat) (lba sectors : Nat) : Mem :=
  memcpy dst d ext2.dev.bytes (lba * SECTOR_SIZE) (sectors * SECTOR_SIZE)

/-- Modelled from the spec: `setDiskBytes` (§4.1 `writeBytes(src, lba,
sectorCount)`) copies `sectors` sectors from `&src[s]` to sector `lba`. -/
def setDiskBytes (ext2 : Ext2) (src : Mem) (s : Nat) (lba sectors : Nat) : Ext2 :=
  { ext2 with dev := { ext2.dev with
      bytes := memcpy ext2.dev.bytes (lba * SECTOR_SIZE) src s (sectors * SECTOR_SIZE) } }

/-- Modelled from the spec: `ext2InodeFetch` (§4.4 `fetch(inode)`) reads the
record out of the inode table. -/
def ext2InodeFetch (ext2 : Ext2) (inode : Nat) : Ext2Inode := ext2.dev.inodes inode

/-- Modelled from the spec: `ext2InodeModifyM` (§4.4 `modify(inode, record)`)
writes the record back to the inode table. -/
def ext2InodeModifyM (ext2 : Ext2) (inode : Nat) (record : Ext2Inode) : Ext2 :=
  { ext2 with dev := { ext2.dev with
      inodes := fun n => if n = inode then record else ext2.dev.inodes n } }

/-- Modelled from the spec: `ext2BlockFetch` (§4.5) resolves a file block index
to the absolute block number, `0` for a hole. -/
def ext2BlockFetch (inode : Ext2Inode) (index : Nat) : Nat := inode.blocks index

/-- The block chain of `inode` with the slot of file block `index` set to
`val`. -/
def setSlot (inode : Ext2Inode) (index val : Nat) : Ext2Inode :=
  { inode with blocks := fun k => if k = index then val else inode.blocks k }

/-- Modelled from the spec: `ext2BlockAssign (ext2, inode, inodeNum, index,
val)` (§4.5 `assign(inode, fileBlockIndex, absBlock)`) sets the slot of file
block `index` to `val`: in the inode copy it is handed, and in the block chain
of inode `inodeNum` on the device, where a later `open` and `read` find the
write (§8). Returns the volume and the inode copy. In `ext2Write`, its one
caller, the copy is the record of the device (line 373), so that writing the
slot and writing the whole copy back are the same. -/
def ext2BlockAssign (ext2 : Ext2) (inode : Ext2Inode) (inodeNum index val : Nat) :
    Ext2 × Ext2Inode :=
  (ext2InodeModifyM ext2 inodeNum (setSlot (ext2InodeFetch ext2 inodeNum) index val),
    setSlot inode index val)

/-- Modelled from the spec: `ext2BlockChain` (§4.5 `chain(inode, from, count)`)
resolves a contiguous range, zeros for holes. Its callers index the entries
`0 .. blocks` of the result, so it carries `blocks + 1` entries. -/
def ext2BlockChain (dir : Ext2OpenFd) (curr blocks : Nat) : List Nat :=
  (List.range (blocks + 1)).map (fun k => ext2BlockFetch dir.inode (curr + k))

/-- Array read `blocks[i]`; an index past the end of the array reads `0`. -/
def blockAt (blocks : List Nat) (i : Nat) : Nat := blocks.getD i 0

/-- Modelled from the spec: are the `n` bits from absolute block `base` clear
in the block bitmap (§4.3). -/
def runClear (bitmap : Nat → Bool) (base n : Nat) : Bool :=
  (List.range n).all (fun k => !bitmap (base + k))

/-- Modelled from the spec: first bit index of `group` that starts a run of `n`
clear bits (§4.3 `findBlocks`, the scan of one group). -/
def ext2BlockFindL (ext2 : Ext2) (group n : Nat) : Option Nat :=
  (List.range (ext2.superblock.blocks_per_group + 1 - n)).find?
    (fun j => runClear ext2.dev.blockBitmap (group * ext2.superblock.blocks_per_group + j) n)

/-- Modelled from the spec: `ext2BlockFind` (§4.3 `findBlocks(group, n)`) scans
`group`, then the subsequent groups modulo `blockGroups`, for the first run of
`n` clear bits, sets them and returns the absolute block number
`group*blocks_per_group + firstBitIndex`; it fails with `ENOSPC` when no group
has such a run. The free-block counters are not part of the embedding. -/
def ext2BlockFind (ext2 : Ext2) (group n : Nat) : Except Nat (Nat × Ext2) :=
  match (List.range ext2.blockGroups).findSome? (fun k =>
      let g := (group + k) % ext2.blockGroups
      (ext2BlockFindL ext2 g n).map (fun j => g * ext2.superblock.blocks_per_group + j)) with
  | none => .error ENOSPC
  | some first => .ok (first, { ext2 with dev := { ext2.dev with
      blockBitmap := fun b =>
        if first ≤ b ∧ b < first + n then true else ext2.dev.blockBitmap b } })

/-- Modelled from the spec: `ext2CachePush (ext2, dir)`, the first call of
`read` and `write` on a descriptor, brings the inode copy of the descriptor up
to date from the inode store: §5 has "a reader that acquires [the file lock]
afterwards read the new size" that a writer persisted, and the size a read
clamps to is the one of the copy (`ext2GetFilesize`). -/
def ext2CachePush (ext2 : Ext2) (dir : Ext2OpenFd) : Ext2OpenFd :=
  { dir with inode := ext2InodeFetch ext2 dir.inodeNum }

/-- The shared object a `globalObject` pointer designates: the first object of
the list created for that inode. -/
def findObject (objs : List Ext2FoundObject) (inode : Nat) : Option Ext2FoundObject :=
  objs.find? (fun o => o.inode = inode)

/-- Store through a `globalObject` pointer. -/
def updateObject (objs : List Ext2FoundObject) (inode : Nat)
    (f : Ext2FoundObject → Ext2FoundObject) : List Ext2FoundObject :=
  match objs with
  | [] => []
  | o :: rest => if o.inode = inode then f o :: rest else o :: updateObject rest inode f

/-- Cache list `obj->firstCacheObj` seen through a `globalObject` pointer. -/
def cacheOf (ext2 : Ext2) (obj : Nat) : List Ext2CacheObject :=
  match findObject ext2.firstObject obj with
  | some o => o.firstCacheObj
  | none => []

/-- Modelled from the spec: ordered insertion into a cache list (§3: "entries
are non-overlapping and ordered by `blockIndex` ascending"); an entry that
would overlap an existing one is not inserted. -/
def cacheInsert (e : Ext2CacheObject) : List Ext2CacheObject → List Ext2CacheObject
  | [] => [e]
  | c :: rest =>
    if e.blockIndex + e.blocks ≤ c.blockIndex then e :: c :: rest
    else if c.blockIndex + c.blocks ≤ e.blockIndex then c :: cacheInsert e rest
    else c :: rest

/-- Modelled from the spec: `ext2CacheAddSecurely` (§4.6 step 5) publishes the
staging buffer as a new cache entry of the object. -/
def ext2CacheAddSecurely (ext2 : Ext2) (obj : Nat) (buff : Mem) (blockIndex blocks : Nat) :
    Ext2 :=
  { ext2 with firstObject := updateObject ext2.firstObject obj (fun o =>
      { o with firstCacheObj :=
          (cacheInsert { blockIndex := blockIndex, blocks := blocks, buff := buff }
            o.firstCacheObj) }) }

/-! ## `ext2GetFilesize`, `ext2ReadInner`, `ext2Read` -/

/-- `ext2GetFilesize` (lines 573-576). -/
def ext2GetFilesize (dir : Ext2OpenFd) : Nat :=
  COMBINE_64 dir.inode.size_high dir.inode.size

/-- Loop variables of the run-coalescing loops of `ext2ReadInner` and
`ext2Write`; `stop` records that `break` was taken. -/
structure Consec where
  stop : Bool
  consecStart : Int
  consecEnd : Nat
  currBlock : Nat

/-- Loop variables at loop entry (lines 301-305, 460-464). -/
def Consec.init : Consec :=
  { stop := false, consecStart := -1, consecEnd := 0, currBlock := 0 }

/-- Block I/O of one iteration of the loop of `ext2ReadInner` (lines 327-343):
one `getDiskBytes` for the run `consecStart .. consecEnd`, or for block `i`
alone, into the staging buffer; then the loop variables are reset. -/
def ext2ReadInnerIo (ext2 : Ext2) (blocks : List Nat) (c : Consec) (tmp : Mem) (i : Nat) :
    Consec × Mem :=
  if c.consecEnd ≠ 0 then
    let needed := ((c.consecEnd : Int) - c.consecStart + 1).toNat
    ({ stop := false, consecStart := -1, consecEnd := 0, currBlock := c.currBlock + needed },
      getDiskBytes ext2 tmp (c.currBlock * ext2.blockSize)
        (BLOCK_TO_LBA ext2 (blockAt blocks c.consecStart.toNat))
        (needed * ext2.blockSize / SECTOR_SIZE))
  else
    ({ stop := false, consecStart := -1, consecEnd := 0, currBlock := c.currBlock + 1 },
      getDiskBytes ext2 tmp (c.currBlock * ext2.blockSize)
        (BLOCK_TO_LBA ext2 (blockAt blocks i)) (ext2.blockSize / SECTOR_SIZE))

/-- One iteration of the loop of `ext2ReadInner` (lines 308-344) for index `i`.
`i == blocksRequired - 1` is written `i + 1 = blocksRequired`; `blocks[i] + 1`
is `uint32_t` arithmetic. Returning the state without block I/O is `continue`. -/
def ext2ReadInnerStep (ext2 : Ext2) (blocks : List Nat) (blocksRequired : Nat)
    (st : Consec × Mem) (i : Nat) : Consec × Mem :=
  if st.1.stop then st
  else if blockAt blocks i = 0 then ({ st.1 with stop := true }, st.2)
  else if st.1.consecStart < 0 then
    if ¬ (i + 1 = blocksRequired) ∧ blockAt blocks (i + 1) = (blockAt blocks i + 1) % 2 ^ 32 then
      ({ st.1 with consecStart := i }, st.2)
    else ext2ReadInnerIo ext2 blocks st.1 st.2 i
  else
    if i + 1 = blocksRequired ∨ blockAt blocks (i + 1) ≠ (blockAt blocks i + 1) % 2 ^ 32 then
      ext2ReadInnerIo ext2 blocks { st.1 with consecEnd := i } st.2 i
    else st

/-- The loop of `ext2ReadInner` (lines 301-344) over the indices
`0 .. blocksRequired`: the staging buffer it fills, starting from freshly
allocated memory. -/
def ext2ReadInnerLoop (ext2 : Ext2) (blocks : List Nat) (blocksRequired : Nat) : Mem :=
  ((List.range (blocksRequired + 1)).foldl
    (ext2ReadInnerStep ext2 blocks blocksRequired) (Consec.init, ext2.dev.heap)).2

/-- `ext2ReadInner` (lines 291-367), reading `limit` bytes to `&buff[off]`.
Returns the return value, the volume (its cache grew), the descriptor and the
caller buffer. -/
def ext2ReadInner (ext2 : Ext2) (dir : Ext2OpenFd) (buff : Mem) (off limit : Nat) :
    Nat × Ext2 × Ext2OpenFd × Mem :=
  let blocksRequired := DivRoundUp limit ext2.blockSize
  let blocks := ext2BlockChain dir (dir.ptr / ext2.blockSize) blocksRequired
  let tmp := ext2ReadInnerLoop ext2 blocks blocksRequired
  let offsetStarting := dir.ptr % ext2.blockSize
  let headtoCopy := MIN (ext2.blockSize - offsetStarting) limit
  let buff1 := memcpy buff off tmp offsetStarting headtoCopy
  let buff2 :=
    if limit > headtoCopy then
      memcpy buff1 (off + headtoCopy) tmp ext2.blockSize (limit - headtoCopy)
    else buff1
  let ext2a := ext2CacheAddSecurely ext2 dir.globalObject tmp
    (dir.ptr / ext2.blockSize) blocksRequired
  (limit, ext2a, { dir with ptr := dir.ptr + limit }, buff2)

/-- Cache lookup of `ext2Read` (lines 246-252): the list from the first entry
whose `blockIndex` lies in the wanted block range. -/
def cacheSeek (blockIndexStart blocksRequired : Nat) :
    List Ext2CacheObject → List Ext2CacheObject
  | [] => []
  | c :: rest =>
    if c.blockIndex ≥ blockIndexStart ∧ c.blockIndex < blockIndexStart + blocksRequired then
      c :: rest
    else cacheSeek blockIndexStart blocksRequired rest

/-- The `for` loop of `ext2Read` (lines 256-284) followed by `assert(left ==
0)`. `i` is the loop counter at the loop test, `cacheObj` the list from the
current cache entry. The body adds `n - 1` to `i` and the loop header adds 1;
the next counter is written `i + n`. Every iteration advances `i` or
`cacheObj`, which bounds the iterations by the first argument. The `size_t`
differences are natural-number differences: on a cache list ordered by
`blockIndex` the current entry is never behind the cursor
(`ext2ReadLoop_count` carries that invariant), so none of them wraps there. -/
def ext2ReadLoop (limit blocksRequired blockIndexStart : Nat) :
    Nat → Nat → List Ext2CacheObject → Nat → Ext2 → Ext2OpenFd → Mem →
      Run (Ext2 × Ext2OpenFd × Mem)
  | 0, _, _, _, _, _, _ => .spin
  | fuel + 1, i, cacheObj, left, ext2, dir, buff =>
    if ¬ (i < blocksRequired + 1) then
      if left = 0 then .done (ext2, dir, buff) else .halt
    else
      let hit : Option (Ext2CacheObject × List Ext2CacheObject) :=
        match cacheObj with
        | c :: next => if c.blockIndex = blockIndexStart + i then some (c, next) else none
        | [] => none
      match hit with
      | some (c, next) =>
        let rem := dir.ptr % ext2.blockSize
        let toCopy := MIN left (c.blocks * ext2.blockSize - rem)
        let buff1 := memcpy buff (limit - left) c.buff rem toCopy
        let left1 := left - toCopy
        let dir1 := { dir with ptr := dir.ptr + toCopy }
        if left1 = 0 then .done (ext2, dir1, buff1)
        else ext2ReadLoop limit blocksRequired blockIndexStart fuel (i + c.blocks) next left1
          ext2 dir1 buff1
      | none =>
        let blocksToScan0 := if blocksRequired - i = 0 then 1 else blocksRequired - i
        let blocksToScan :=
          match cacheObj with
          | c :: _ => c.blockIndex - dir.ptr / ext2.blockSize
          | [] => blocksToScan0
        let rem := dir.ptr % ext2.blockSize
        let toCopy := MIN left (blocksToScan * ext2.blockSize - rem)
        let r := ext2ReadInner ext2 dir buff (limit - left) toCopy
        if r.1 ≠ toCopy then .halt
        else
          let left1 := left - toCopy
          if left1 = 0 then .done (r.2.1, r.2.2.1, r.2.2.2)
          else ext2ReadLoop limit blocksRequired blockIndexStart fuel (i + blocksToScan)
            cacheObj left1 r.2.1 r.2.2.1 r.2.2.2

/-- `ext2Read` (lines 222-289). Returns the return value, the volume, the
descriptor and the caller buffer. A descriptor without driver state is a null
dereference. -/
def ext2Read (ext2 : Ext2) (fd : OpenFile) (buff : Mem) (naiveLimit : Nat) :
    Run (Nat × Ext2 × OpenFile × Mem) :=
  match fd.dir with
  | none => .halt
  | some dir0 =>
    if dir0.inode.permission &&& S_IFDIR ≠ 0 then .done (ERR EISDIR, ext2, fd, buff)
    else
      let dir := ext2CachePush ext2 dir0
      let filesize := ext2GetFilesize dir
      if dir.ptr ≥ filesize then .done (0, ext2, { fd with dir := some dir }, buff)
      else
        let limit := if naiveLimit > filesize - dir.ptr then filesize - dir.ptr else naiveLimit
        let blocksRequired := DivRoundUp limit ext2.blockSize
        let blockIndexStart := dir.ptr / ext2.blockSize
        let cacheObj := cacheSeek blockIndexStart blocksRequired (cacheOf ext2 dir.globalObject)
        (ext2ReadLoop limit blocksRequired blockIndexStart
            (blocksRequired + 1 + cacheObj.length + 1) 0 cacheObj limit ext2 dir buff).map
          fun r => (limit, r.1, { fd with dir := some r.2.1 }, r.2.2)

/-! ## `ext2Write` -/

/-- Block I/O of one iteration of the emission loop of `ext2Write` (lines
489-505): one `setDiskBytes` for the run `consecStart .. consecEnd`, or for
block `i` alone, out of the staging buffer; then the loop variables are
reset. -/
def ext2WriteIo (blocks : List Nat) (tmp : Mem) (c : Consec) (ext2 : Ext2) (i : Nat) :
    Consec × Ext2 :=
  if c.consecEnd ≠ 0 then
    let needed := ((c.consecEnd : Int) - c.consecStart + 1).toNat
    ({ stop := false, consecStart := -1, consecEnd := 0, currBlock := c.currBlock + needed },
      setDiskBytes ext2 tmp (c.currBlock * ext2.blockSize)
        (BLOCK_TO_LBA ext2 (blockAt blocks c.consecStart.toNat))
        (needed * ext2.blockSize / SECTOR_SIZE))
  else
    ({ stop := false, consecStart := -1, consecEnd := 0, currBlock := c.currBlock + 1 },
      setDiskBytes ext2 tmp (c.currBlock * ext2.blockSize)
        (BLOCK_TO_LBA ext2 (blockAt blocks i)) (ext2.blockSize / SECTOR_SIZE))

/-- One iteration of the emission loop of `ext2Write` (lines 467-506) for index
`i`; a zero block number is the "Out of sync" panic. -/
def ext2WriteStep (blocks : List Nat) (blocksRequired : Nat) (tmp : Mem)
    (st : Run (Consec × Ext2)) (i : Nat) : Run (Consec × Ext2) :=
  match st with
  | .halt => .halt
  | .spin => .spin
  | .done (c, ext2) =>
    if blockAt blocks i = 0 then .halt
    else if c.consecStart < 0 then
      if ¬ (i + 1 = blocksRequired) ∧ blockAt blocks (i + 1) = (blockAt blocks i + 1) % 2 ^ 32 then
        .done ({ c with consecStart := i }, ext2)
      else .done (ext2WriteIo blocks tmp c ext2 i)
    else
      if i + 1 = blocksRequired ∨ blockAt blocks (i + 1) ≠ (blockAt blocks i + 1) % 2 ^ 32 then
        .done (ext2WriteIo blocks tmp { c with consecEnd := i } ext2 i)
      else .done (c, ext2)

/-- The emission loop of `ext2Write` (lines 460-506): the staging buffer `tmp`
goes out to the blocks `blocks[0 .. blocksRequired)`. -/
def ext2WriteEmit (ext2 : Ext2) (blocks : List Nat) (blocksRequired : Nat) (tmp : Mem) :
    Run Ext2 :=
  ((List.range blocksRequired).foldl (ext2WriteStep blocks blocksRequired tmp)
    (.done (Consec.init, ext2))).map (fun st => st.2)

/-- Search of lines 424-430: index of the first zero entry among the first
`blocksRequired` entries, if any (`startsAt`, `-1` when there is none). -/
def firstHole (blocks : List Nat) (blocksRequired : Nat) : Option Nat :=
  (List.range blocksRequired).find? (fun i => blockAt blocks i = 0)

/-- One iteration of the loop of lines 436-441: assign `freeBlocks + i` to file
block `ptrIgnoredBlocks + startsAt + i` of inode `inodeNum` and to
`blocks[startsAt + i]` (`uint32_t` arithmetic). The state is the volume, the
inode copy of the descriptor and the array `blocks`. -/
def assignRun (inodeNum ptrIgnoredBlocks startsAt freeBlocks : Nat)
    (st : Ext2 × Ext2Inode × List Nat) (i : Nat) : Ext2 × Ext2Inode × List Nat :=
  let a := ext2BlockAssign st.1 st.2.1 inodeNum (ptrIgnoredBlocks + startsAt + i)
    ((freeBlocks + i) % 2 ^ 32)
  (a.1, a.2, st.2.2.set (startsAt + i) ((freeBlocks + i) % 2 ^ 32))

/-- Lines 397-414 of `ext2Write`: read-modify-write of the head block when the
cursor is not block-aligned. Returns the volume and `left`. -/
def ext2WriteHead (ext2 : Ext2) (dir : Ext2OpenFd) (buff : Mem) (limit : Nat) : Ext2 × Nat :=
  let ptrIgnoredBlocks := dir.ptr / ext2.blockSize
  let ptrIgnoredBytes := dir.ptr % ext2.blockSize
  if ptrIgnoredBytes > 0 then
    let left := MIN (ext2.blockSize - ptrIgnoredBytes) limit
    let block := ext2BlockFetch dir.inode ptrIgnoredBlocks
    let tmp := getDiskBytes ext2 ext2.dev.heap 0 (BLOCK_TO_LBA ext2 block)
      (ext2.blockSize / SECTOR_SIZE)
    let tmp1 := memcpy tmp ptrIgnoredBytes buff 0 left
    (setDiskBytes ext2 tmp1 0 (BLOCK_TO_LBA ext2 block) (ext2.blockSize / SECTOR_SIZE), left)
  else (ext2, 0)

/-- Lines 418-442 of `ext2Write`: resolve the chain of the aligned region and
allocate one run for everything from the first hole on. Returns the volume,
the inode and `blocks`. The value a failed `ext2BlockFind` hands back is the
error code narrowed to the `uint32_t` it is stored in. -/
def ext2WriteAlloc (ext2 : Ext2) (dir : Ext2OpenFd) (ptrIgnoredBlocks blocksRequired : Nat) :
    Ext2 × Ext2Inode × List Nat :=
  let blocks := ext2BlockChain dir ptrIgnoredBlocks (blocksRequired - 1)
  let group := INODE_TO_BLOCK_GROUP ext2 dir.inodeNum
  match firstHole blocks blocksRequired with
  | none => (ext2, dir.inode, blocks)
  | some startsAt =>
    let needed := blocksRequired - startsAt
    let found : Nat × Ext2 :=
      match ext2BlockFind ext2 group needed with
      | .ok r => r
      | .error e => (ERR e % 2 ^ 32, ext2)
    (List.range needed).foldl
      (assignRun dir.inodeNum ptrIgnoredBlocks startsAt found.1) (found.2, dir.inode, blocks)

/-- Lines 444-458 of `ext2Write`: the staging buffer, with the first and the
last block of the region read in and the payload `buff[left ..]` laid over
them. -/
def ext2WriteStage (ext2 : Ext2) (blocks : List Nat) (blocksRequired : Nat) (buff : Mem)
    (left remainder : Nat) : Mem :=
  let tmp0 := getDiskBytes ext2 ext2.dev.heap 0 (BLOCK_TO_LBA ext2 (blockAt blocks 0))
    (ext2.blockSize / SECTOR_SIZE)
  let target := blocksRequired - 1
  let tmp1 :=
    if target > 0 then
      getDiskBytes ext2 tmp0 (target * ext2.blockSize)
        (BLOCK_TO_LBA ext2 (blockAt blocks target)) (ext2.blockSize / SECTOR_SIZE)
    else tmp0
  memcpy tmp1 0 buff left remainder

/-- Lines 416-513 of `ext2Write`: the aligned/tail region of `remainder` bytes,
the first `left` bytes of `buff` being written already; `dir.ptr` is the
block-aligned cursor and `ptrIgnoredBlocks` its block. -/
def ext2WriteAligned (ext2 : Ext2) (dir : Ext2OpenFd) (buff : Mem)
    (left remainder ptrIgnoredBlocks : Nat) : Run (Ext2 × Ext2OpenFd) :=
  if remainder > 0 then
    let blocksRequired := DivRoundUp remainder ext2.blockSize
    let alloc := ext2WriteAlloc ext2 dir ptrIgnoredBlocks blocksRequired
    let tmp := ext2WriteStage alloc.1 alloc.2.2 blocksRequired buff left remainder
    (ext2WriteEmit alloc.1 alloc.2.2 blocksRequired tmp).map fun ext2w =>
      (ext2w, { dir with inode := alloc.2.1, ptr := dir.ptr + remainder })
  else .done (ext2, dir)

/-- Lines 515-523 of `ext2Write`: the size update. The comparison and the store
go through the `uint32_t` field `size`; `size_high` is not written. -/
def ext2WriteSize (ext2 : Ext2) (dir : Ext2OpenFd) : Ext2 × Ext2OpenFd :=
  if dir.ptr > dir.inode.size then
    let size := dir.ptr % 2 ^ 32
    let inode := { dir.inode with
      size := size
      num_sectors := DivRoundUp size ext2.blockSize * ext2.blockSize / SECTOR_SIZE }
    (ext2InodeModifyM ext2 dir.inodeNum inode, { dir with inode := inode })
  else (ext2, dir)

/-- Lines 391-523 of `ext2Write`: the head block, the aligned/tail region and
the size update, for the cursor `dir.ptr`. Returns the volume and the
descriptor. -/
def ext2WriteBody (ext2 : Ext2) (dir : Ext2OpenFd) (buff : Mem) (limit : Nat) :
    Run (Ext2 × Ext2OpenFd) :=
  let ptrIgnoredBlocks := dir.ptr / ext2.blockSize
  let ptrIgnoredBytes := dir.ptr % ext2.blockSize
  let head := ext2WriteHead ext2 dir buff limit
  let left := head.2
  (ext2WriteAligned head.1 { dir with ptr := dir.ptr + left } buff left (limit - left)
      (if ptrIgnoredBytes > 0 then ptrIgnoredBlocks + 1 else ptrIgnoredBlocks)).map
    fun w => ext2WriteSize w.1 w.2

/-- Lines 376-378 of `ext2Write`: `dir->globalObject->firstCacheObj = 0`. -/
def cacheInvalidate (ext2 : Ext2) (obj : Nat) : Ext2 :=
  { ext2 with firstObject :=
      updateObject ext2.firstObject obj (fun o => { o with firstCacheObj := [] }) }

/-- `ext2Write` (lines 369-533). Returns the return value, the volume and the
descriptor. -/
def ext2Write (ext2 : Ext2) (fd : OpenFile) (buff : Mem) (limit : Nat) :
    Run (Nat × Ext2 × OpenFile) :=
  match fd.dir with
  | none => .halt
  | some dir0 =>
    let dir := ext2CachePush ext2 dir0
    let ext2c := cacheInvalidate ext2 dir.globalObject
    if dir.inode.permission &&& S_IFDIR ≠ 0 then
      .done (ERR EISDIR, ext2c, { fd with dir := some dir })
    else
      let appendCursor := dir.ptr
      let dira :=
        if fd.flags &&& O_APPEND ≠ 0 then
          { dir with ptr := COMBINE_64 dir.inode.size_high dir.inode.size }
        else dir
      (ext2WriteBody ext2c dira buff limit).map fun w =>
        let dirr := if fd.flags &&& O_APPEND ≠ 0 then { w.2 with ptr := appendCursor } else w.2
        (limit, w.1, { fd with dir := some dirr })

/-! ## `ext2Seek` -/

/-- The conversions around `int written = ext2Write(...)` and `written !=
remainder` (lines 555-556): the `size_t` is narrowed to a 32-bit `int`, and the
`int` is widened back (sign-extended) for the comparison. -/
def intToSize (ret : Nat) : Nat :=
  if ret % 2 ^ 32 < 2 ^ 31 then ret % 2 ^ 32 else 2 ^ 64 - 2 ^ 32 + ret % 2 ^ 32

/-- `ext2Seek` (lines 535-571). Returns the return value, the volume and the
descriptor. `target += dir->ptr` is `size_t` arithmetic. -/
def ext2Seek (ext2 : Ext2) (fd : OpenFile) (target : Nat) (_offset : Int) (whence : Nat) :
    Run (Nat × Ext2 × OpenFile) :=
  match fd.dir with
  | none => .halt
  | some dir =>
    let target1 := if whence = SEEK_CURR then (target + dir.ptr) % 2 ^ 64 else target
    let filesize := ext2GetFilesize dir
    if target1 > filesize then
      if fd.flags &&& O_RDWR = 0 ∧ fd.flags &&& O_WRONLY = 0 then
        .done (ERR EINVAL, ext2, fd)
      else
        let remainder := target1 - filesize
        let bytePlacement : Mem := fun _ => 0
        (ext2Write ext2 { fd with dir := some { dir with ptr := filesize } }
            bytePlacement remainder).bind fun w =>
          match w.2.2.dir with
          | none => .halt
          | some dirw =>
            if intToSize w.1 ≠ remainder then .halt
            else if dirw.ptr ≠ target1 then .halt
            else .done (target1, w.2.1, { w.2.2 with dir := some { dirw with ptr := target1 } })
    else .done (target1, ext2, { fd with dir := some { dir with ptr := target1 } })

/-! ## `ext2Open` -/

/-- The path layer of the driver, which is not among the sources:
`ext2TraversePath (ext2, path, start inode, followFinal, *symlinkResolve)` hands
back the inode (`0`: not found) and what it leaves in `*symlinkResolve`;
`ext2Touch (ext2, path, mode, *symlinkResolve)` hands back its return value, the
volume and `*symlinkResolve`. -/
structure PathLayer where
  ext2TraversePath : Ext2 → String → Nat → Bool → Option String → Nat × Option String
  ext2Touch : Ext2 → String → Nat → Option String → Nat × Ext2 × Option String

/-- Lines 172-196 of `ext2Open`: find the shared object of `inode`, creating and
prepending a zeroed one when there is none, and count the new descriptor. -/
def objectAcquire (ext2 : Ext2) (inode : Nat) : Ext2 :=
  let objs :=
    match findObject ext2.firstObject inode with
    | some _ => ext2.firstObject
    | none => { inode := inode, openFds := 0, firstCacheObj := [] } :: ext2.firstObject
  { ext2 with firstObject := updateObject objs inode (fun o => { o with openFds := o.openFds + 1 }) }

/-- Lines 158-219 of `ext2Open`, once the inode number is settled. -/
def ext2OpenInode (ext2 : Ext2) (filename : String) (flags : Nat) (fd : OpenFile)
    (inode : Nat) : Nat × Ext2 × OpenFile :=
  let inodeFetched := ext2InodeFetch ext2 inode
  if flags &&& O_DIRECTORY ≠ 0 ∧ ¬ (inodeFetched.permission &&& S_IFDIR ≠ 0) then
    (ERR ENOTDIR, ext2, fd)
  else
    let inodeT : Ext2Inode :=
      if flags &&& O_TRUNC ≠ 0 then
        { inodeFetched with size := 0, size_high := 0, num_sectors := 0 }
      else inodeFetched
    let ext2t := if flags &&& O_TRUNC ≠ 0 then ext2InodeModifyM ext2 inode inodeT else ext2
    let ext2o := objectAcquire ext2t inode
    let dir : Ext2OpenFd := { inodeNum := inode, inode := inodeT, ptr := 0, globalObject := inode }
    let dirname :=
      if inodeT.permission &&& 0xF000 = EXT2_S_IFDIR then some filename else fd.dirname
    (0, ext2o, { fd with dir := some dir, dirname := dirname })

/-- `ext2Open` (lines 124-220). Returns the return value, the volume, the
descriptor and `*symlinkResolve`. -/
def ext2Open (pl : PathLayer) (ext2 : Ext2) (filename : String) (flags mode : Nat)
    (fd : OpenFile) (symlinkResolve : Option String) :
    Nat × Ext2 × OpenFile × Option String :=
  let t := pl.ext2TraversePath ext2 filename EXT2_ROOT_INODE true symlinkResolve
  if t.1 = 0 ∧ t.2.isSome then
    if flags &&& O_NOFOLLOW ≠ 0 then (ERR ELOOP, ext2, fd, t.2)
    else (ERR ENOENT, ext2, fd, t.2)
  else if t.1 ≠ 0 ∧ flags &&& O_EXCL ≠ 0 ∧ flags &&& O_CREAT ≠ 0 then
    (ERR EEXIST, ext2, fd, t.2)
  else if t.1 = 0 then
    if flags &&& O_CREAT ≠ 0 then
      let c := pl.ext2Touch ext2 filename mode t.2
      if RET_IS_ERR c.1 then (c.1, c.2.1, fd, c.2.2)
      else
        let t2 := pl.ext2TraversePath c.2.1 filename EXT2_ROOT_INODE true c.2.2
        let r := ext2OpenInode c.2.1 filename flags fd t2.1
        (r.1, r.2.1, r.2.2, t2.2)
    else (ERR ENOENT, ext2, fd, t.2)
  else
    let r := ext2OpenInode ext2 filename flags fd t.1
    (r.1, r.2.1, r.2.2, t.2)

/-! ## Scenarios and concrete volumes -/

/-- The descriptor with its cursor set to `ptr` (`dir->ptr = ptr`). -/
def setCursor (fd : OpenFile) (ptr : Nat) : OpenFile :=
  { fd with dir := fd.dir.map (fun d => { d with ptr := ptr }) }

/-- File size seen through a descriptor, `0` without driver state. -/
def fileSizeOf (fd : OpenFile) : Nat :=
  match fd.dir with
  | some d => ext2GetFilesize d
  | none => 0

/-- Cursor of a descriptor, `0` without driver state. -/
def cursorOf (fd : OpenFile) : Nat :=
  match fd.dir with
  | some d => d.ptr
  | none => 0

/-- The round trip of §8: seek to `O`, write `N` bytes of `data`, put the cursor
back at `O`, read with limit `limit` into a blank buffer. Yields what the read
returned and the buffer it filled. -/
def roundTrip (ext2 : Ext2) (fd : OpenFile) (O : Nat) (data : Mem) (N limit : Nat) :
    Run (Nat × Mem) :=
  (ext2Seek ext2 fd O 0 SEEK_SET).bind fun s =>
  (ext2Write s.2.1 s.2.2 data N).bind fun w =>
  (ext2Read w.2.1 (setCursor w.2.2 O) (fun _ => 0) limit).map fun r => (r.1, r.2.2.2)

/-- Superblock of a 4 KiB-block volume with 8192 blocks and 2000 inodes per
group (scenario 1 of §8). -/
def demoSuperblock : Ext2Superblock :=
  { total_inodes := 4000, total_blocks := 16384, superblock_idx := 0, log2block_size := 2
    blocks_per_group := 8192, inodes_per_group := 2000, ext2_magic := 0xEF53
    fs_state := EXT2_FS_S_CLEAN, err := EXT2_FS_E_IGNORE, major := 1
    required_feature := EXT2_R_F_TYPE_FIELD, inode_size := 256 }

/-- An inode of mode `perm` without data. -/
def emptyInode (perm : Nat) : Ext2Inode :=
  { permission := perm, size := 0, size_high := 0, num_sectors := 0, hard_links := 1
    dtime := 0, blocks := fun _ => 0 }

/-- A zeroed device whose first 100 blocks are in use. -/
def demoDevice : Device :=
  { bytes := fun _ => 0, blockBitmap := fun b => decide (b < 100)
    inodes := fun _ => emptyInode 0x81A4, heap := fun _ => 0xAA }

/-- The volume `ext2Mount` builds from `demoSuperblock` at sector 2048. -/
def demoMounted : Ext2 :=
  { offsetBase := 2048, offsetSuperblock := 2050, offsetBGDT := 2056
    superblock := demoSuperblock, blockSize := 4096, blockGroups := 2
    inodeSize := 256, inodeSizeRounded := 512, firstObject := [], dev := demoDevice }

/-- The mounted volume with inode 12 open once. -/
def demoVolume : Ext2 :=
  { demoMounted with firstObject := [{ inode := 12, openFds := 1, firstCacheObj := [] }] }

/-- A descriptor of inode 12 with open flags `flags`, inode copy `inode` and
cursor 0. -/
def demoFd (flags : Nat) (inode : Ext2Inode) : OpenFile :=
  { flags := flags, dir := some { inodeNum := 12, inode := inode, ptr := 0, globalObject := 12 }
    dirname := none }

/-- The volume `ext2` with `inode` as the record of inode 12 in its inode
table. -/
def withInode (ext2 : Ext2) (inode : Ext2Inode) : Ext2 := ext2InodeModifyM ext2 12 inode

/-- The 13 bytes of "Hello, world!". -/
def helloBytes : List Nat := [72, 101, 108, 108, 111, 44, 32, 119, 111, 114, 108, 100, 33]

/-- A caller buffer holding `helloBytes`. -/
def helloBuf : Mem := fun a => helloBytes.getD a 0

/-- A regular file of `2^32 - 1` bytes whose last block is absolute block 200. -/
def bigInode : Ext2Inode :=
  { permission := 0x81A4, size := 2 ^ 32 - 1, size_high := 0, num_sectors := 8388608
    hard_links := 1, dtime := 0, blocks := fun k => if k = 1048575 then 200 else 0 }

/-- A regular file of `2^32 - 4096` bytes. -/
def alignedBigInode : Ext2Inode :=
  { permission := 0x81A4, size := 2 ^ 32 - 4096, size_high := 0, num_sectors := 8388600
    hard_links := 1, dtime := 0, blocks := fun _ => 0 }

/-- A regular file of `2^32 + 100` bytes whose first block is absolute block
200. -/
def hugeInode : Ext2Inode :=
  { permission := 0x81A4, size := 100, size_high := 1, num_sectors := 8388616
    hard_links := 1, dtime := 0, blocks := fun k => if k = 0 then 200 else 0 }

/-- A volume of two groups of 8 blocks with every block in use. -/
def fullVolume : Ext2 :=
  { demoVolume with
    superblock := { demoSuperblock with blocks_per_group := 8, total_blocks := 16 }
    dev := { demoDevice with blockBitmap := fun _ => true } }

/-- A superblock that differs from `demoSuperblock` in its state, "has errors". -/
def dirtySuperblock : Ext2Superblock :=
  { demoSuperblock with fs_state := EXT2_FS_S_ERROR }

/-- A path layer over which every path is a dangling symbolic link to
`/a/b/c`: traversal finds no inode and reports the link target. -/
def danglingLayer : PathLayer :=
  { ext2TraversePath := fun _ _ _ _ _ => (0, some "/a/b/c")
    ext2Touch := fun ext2 _ _ sr => (0, ext2, sr) }

/-- A path layer over which every path resolves to inode 12. -/
def resolvingLayer : PathLayer :=
  { ext2TraversePath := fun _ _ _ _ sr => (12, sr)
    ext2Touch := fun ext2 _ _ sr => (0, ext2, sr) }

/-- The error a failed allocation reports, if it failed. -/
def allocFailure (r : Except Nat (Nat × Ext2)) : Option Nat :=
  match r with
  | .error e => some e
  | .ok _ => none

/-- A descriptor that `ext2Open` has not populated yet. -/
def freshFd (flags : Nat) : OpenFile := { flags := flags, dir := none, dirname := none }

/-- A regular file of 5 bytes whose first block is absolute block 200. -/
def shortInode : Ext2Inode :=
  { permission := 0x81A4, size := 5, size_high := 0, num_sectors := 8
    hard_links := 1, dtime := 0, blocks := fun k => if k = 0 then 200 else 0 }

/-- The mounted volume whose inode 12 is `shortInode`, open twice, with one
cache entry (file block 0) on its object. -/
def cachedVolume : Ext2 :=
  withInode
    { demoMounted with firstObject :=
        [{ inode := 12, openFds := 2
           firstCacheObj := [{ blockIndex := 0, blocks := 1, buff := fun _ => 0x58 }] }] }
    shortInode

/-- What `ext2Write` hands back for 13 bytes written at offset 0 of
`shortInode` on `cachedVolume`. -/
def cachedOutcome : Nat × Ext2 × OpenFile :=
  (ext2Write cachedVolume (demoFd O_WRONLY shortInode) helloBuf 13).getD
    (0, cachedVolume, demoFd O_WRONLY shortInode)

/-- Driver state of a second descriptor of inode 12 that was opened before
the write behind `cachedOutcome`: it holds the inode copy from before the write
(5 bytes), cursor at 0. -/
def readerDir : Ext2OpenFd :=
  { inodeNum := 12, inode := shortInode, ptr := 0, globalObject := 12 }

/-- A read-only descriptor carrying `readerDir`. -/
def readerFd : OpenFile := { flags := 0, dir := some readerDir, dirname := none }


/-- Two volume states that differ in the device contents only. -/
def SameVolume (e e1 : Ext2) : Prop := e1 = { e with dev := e1.dev }

/-- Byte address on the device of byte `j` of absolute block `b`. -/
def blockByte (ext2 : Ext2) (b j : Nat) : Nat := BLOCK_TO_LBA ext2 b * SECTOR_SIZE + j

/-- Byte address on the device of offset `p` of a file. -/
def fileByte (ext2 : Ext2) (inode : Ext2Inode) (p : Nat) : Nat :=
  blockByte ext2 (inode.blocks (p / ext2.blockSize)) (p % ext2.blockSize)

/-- The staging buffer holds the blocks `blocks[0 .. m)` of the device. -/
def Staged (ext2 : Ext2) (blocks : List Nat) (m : Nat) (tmp : Mem) : Prop :=
  ∀ k, k < m → ∀ j, j < ext2.blockSize →
    tmp (k * ext2.blockSize + j) = ext2.dev.bytes (blockByte ext2 (blockAt blocks k) j)

/-- Invariant of the loop of `ext2ReadInner` before index `m`, for a chain
whose first `n` entries are resolved: no `break` so far, `consecEnd` reset, and
either no run is open and the blocks before `m` are staged, or a run is open
from `s`, the blocks before `s` are staged and the entries `s .. m` are
consecutive. -/
def ReadInv (ext2 : Ext2) (blocks : List Nat) (n m : Nat) (st : Consec × Mem) : Prop :=
  st.1.stop = false ∧ st.1.consecEnd = 0 ∧
  ((st.1.consecStart = -1 ∧ st.1.currBlock = m ∧ Staged ext2 blocks m st.2) ∨
   (∃ s : Nat, st.1.consecStart = (s : Int) ∧ s < m ∧ m < n ∧ st.1.currBlock = s ∧
      Staged ext2 blocks s st.2 ∧
      ∀ k, s ≤ k → k ≤ m → blockAt blocks k = blockAt blocks s + (k - s)))

/-- Two volume states that differ in the open-object table only. -/
def SameDevice (e e1 : Ext2) : Prop := e1 = { e with firstObject := e1.firstObject }

/-- The blocks that hold the file offsets `p .. p + n` are resolved: their
slots hold block numbers other than `0` and `2^32 - 1`. -/
def Resolved (ext2 : Ext2) (inode : Ext2Inode) (p n : Nat) : Prop :=
  ∀ b, p / ext2.blockSize ≤ b → b * ext2.blockSize < p + n →
    inode.blocks b ≠ 0 ∧ inode.blocks b + 1 < 2 ^ 32

/-- The descriptor `fd` carrying the driver state `dir` with its cursor at
`ptr`. -/
def withCursor (fd : OpenFile) (dir : Ext2OpenFd) (ptr : Nat) : OpenFile :=
  { fd with dir := some { dir with ptr := ptr } }

/-- A cache list that is ordered by `blockIndex` and non-overlapping: every
entry covers at least one block and ends at or before the start of the next
one. -/
def CacheOrdered : List Ext2CacheObject → Prop
  | [] => True
  | c :: rest =>
    1 ≤ c.blocks ∧ (∀ d, rest.head? = some d → c.blockIndex + c.blocks ≤ d.blockIndex) ∧
      CacheOrdered rest

/-- Format invariants of §3 that `ext2Mount` validates. -/
def MountInvariants (sb : Ext2Superblock) : Prop :=
  sb.ext2_magic = 0xEF53 ∧ 1 ≤ sb.major ∧ sb.required_feature = EXT2_R_F_TYPE_FIELD ∧
  (1024 <<< sb.log2block_size) % SECTOR_SIZE = 0 ∧
  DivRoundUp sb.total_blocks sb.blocks_per_group =
    DivRoundUp sb.total_inodes sb.inodes_per_group

/-- The superblock fields as the arithmetic of `ext2Mount` takes them without
loss: a shift count of line 75 that keeps `1024 << log2block_size` inside the
`int`, and sums `number + divisor` of lines 84-87 that fit the `uint32_t`. -/
def MountRange (sb : Ext2Superblock) : Prop :=
  sb.log2block_size ≤ 20 ∧ sb.total_blocks + sb.blocks_per_group ≤ 2 ^ 32 ∧
  sb.total_inodes + sb.inodes_per_group ≤ 2 ^ 32

/-- A clean superblock whose sum `total_blocks + blocks_per_group - 1` leaves
the `uint32_t`: `2^32 - 1` blocks in groups of 8192 (524288 groups) and no
inode (0 groups). -/
def wrappingSuperblock : Ext2Superblock :=
  { demoSuperblock with total_blocks := 2 ^ 32 - 1, total_inodes := 0 }

/-! ## Predicates of the write path -/

/-- The device holds, in the blocks `blocks[0 .. m)`, the blocks `0 .. m` of
the staging buffer. -/
def Emitted (ext2 : Ext2) (blocks : List Nat) (tmp : Mem) (m : Nat) (e : Ext2) : Prop :=
  ∀ k, k < m → ∀ j, j < ext2.blockSize →
    e.dev.bytes (blockByte ext2 (blockAt blocks k) j) = tmp (k * ext2.blockSize + j)

/-- The device is as in `ext2` outside the blocks `blocks[0 .. m)`. -/
def Untouched (ext2 : Ext2) (blocks : List Nat) (m : Nat) (e : Ext2) : Prop :=
  ∀ a, (∀ k, k < m → a < blockByte ext2 (blockAt blocks k) 0 ∨
      blockByte ext2 (blockAt blocks k) 0 + ext2.blockSize ≤ a) →
    e.dev.bytes a = ext2.dev.bytes a

/-- Invariant of the emission loop of `ext2Write` before index `m`: the loop has
not panicked, `consecEnd` is reset, and either no run is open and the blocks
before `m` are emitted, or a run is open from `s`, the blocks before `s` are
emitted and the entries `s .. m` are consecutive. -/
def WriteInv (ext2 : Ext2) (blocks : List Nat) (tmp : Mem) (n m : Nat)
    (st : Run (Consec × Ext2)) : Prop :=
  ∃ c e, st = .done (c, e) ∧ SameVolume ext2 e ∧ c.consecEnd = 0 ∧
  ((c.consecStart = -1 ∧ c.currBlock = m ∧ Emitted ext2 blocks tmp m e ∧
      Untouched ext2 blocks m e) ∨
   (∃ s : Nat, c.consecStart = (s : Int) ∧ s < m ∧ m < n ∧ c.currBlock = s ∧
      Emitted ext2 blocks tmp s e ∧ Untouched ext2 blocks s e ∧
      ∀ k, s ≤ k → k ≤ m → blockAt blocks k = blockAt blocks s + (k - s)))

/-- Invariant of the assignment loop of lines 436-441: the array keeps its
length, the slots of the region agree with the array, the slots before the
region and the other inode fields are as in `inode0`. -/
def AllocInv (inode0 : Ext2Inode) (pib L : Nat) (st : Ext2Inode × List Nat) : Prop :=
  st.2.length = L ∧ (∀ k, k < L → st.1.blocks (pib + k) = blockAt st.2 k) ∧
  (∀ b, b < pib → st.1.blocks b = inode0.blocks b) ∧
  st.1 = { inode0 with blocks := st.1.blocks }

/-- Bytes of a write of `limit` bytes that go to the head block (`left` of
lines 395-398): none when the cursor is block-aligned. -/
def headBytes (ext2 : Ext2) (dir : Ext2OpenFd) (limit : Nat) : Nat :=
  if dir.ptr % ext2.blockSize > 0 then MIN (ext2.blockSize - dir.ptr % ext2.blockSize) limit
  else 0

/-- First file block of the aligned region of a write (`ptrIgnoredBlocks` after
line 413). -/
def alignedBlock (ext2 : Ext2) (dir : Ext2OpenFd) : Nat :=
  if dir.ptr % ext2.blockSize > 0 then dir.ptr / ext2.blockSize + 1
  else dir.ptr / ext2.blockSize

/-- Number of blocks of the aligned region of a write of `limit` bytes
(`blocksRequired` of line 418, `0` when nothing is left after the head). -/
def alignedCount (ext2 : Ext2) (dir : Ext2OpenFd) (limit : Nat) : Nat :=
  DivRoundUp (limit - headBytes ext2 dir limit) ext2.blockSize

/-- The array `blocks` of a write of `limit` bytes after the allocation of
lines 424-442. -/
def writeChain (ext2 : Ext2) (dir : Ext2OpenFd) (limit : Nat) : List Nat :=
  (ext2WriteAlloc ext2 dir (alignedBlock ext2 dir) (alignedCount ext2 dir limit)).2.2

/-- The blocks a write of `limit` bytes goes to are usable: the entries of the
array `blocks` after allocation are block numbers other than `0` and
`2^32 - 1` and pairwise different, and when the cursor is not block-aligned the
head block is resolved as well and is none of them. -/
def WellPlaced (ext2 : Ext2) (dir : Ext2OpenFd) (limit : Nat) : Prop :=
  (∀ k, k < alignedCount ext2 dir limit →
    blockAt (writeChain ext2 dir limit) k ≠ 0 ∧
    blockAt (writeChain ext2 dir limit) k + 1 < 2 ^ 32) ∧
  (∀ k2, k2 < alignedCount ext2 dir limit → ∀ k, k < k2 →
    blockAt (writeChain ext2 dir limit) k ≠ blockAt (writeChain ext2 dir limit) k2) ∧
  (dir.ptr % ext2.blockSize > 0 →
    dir.inode.blocks (dir.ptr / ext2.blockSize) ≠ 0 ∧
    dir.inode.blocks (dir.ptr / ext2.blockSize) + 1 < 2 ^ 32 ∧
    ∀ k, k < alignedCount ext2 dir limit →
      blockAt (writeChain ext2 dir limit) k ≠ dir.inode.blocks (dir.ptr / ext2.blockSize))

/-! ## Constants and helpers of the path operations -/

/-- `ENOSYS` of the POSIX error numbers. -/
def ENOSYS : Nat := 38
/-- `ENOTEMPTY` of the POSIX error numbers. -/
def ENOTEMPTY : Nat := 39
/-- `MAP_PRIVATE` of the Linux `mmap` ABI. -/
def MAP_PRIVATE : Nat := 0x02
/-- `MAP_FIXED` of the Linux `mmap` ABI. -/
def MAP_FIXED : Nat := 0x10
/-- `PROT_WRITE` of the Linux `mmap` ABI. -/
def PROT_WRITE : Nat := 0x2
/-- Page-table flag "writable" (bit 1 of an x86-64 page-table entry). -/
def PF_RW : Nat := 0x2
/-- Page-table flag "user" (bit 2 of an x86-64 page-table entry). -/
def PF_USER : Nat := 0x4
/-- Size of a page. -/
def PAGE_SIZE : Nat := 0x1000

/-! ## `ext2Readlink` -/

/-- C conversion of a `uint32_t` to `int` (two's complement). -/
def toInt (v : Nat) : Int :=
  if v % 2 ^ 32 < 2 ^ 31 then ((v % 2 ^ 32 : Nat) : Int) else ((v % 2 ^ 32 : Nat) : Int) - 2 ^ 32

/-- Modelled from the spec: the block-pointer region of an inode record read as
bytes, `(char *)inode->blocks` (§3: 12 direct pointers, then the single-,
double- and triple-indirect pointer, 32 bits each, little-endian; 60 bytes in
all, which hold the target of an inline symbolic link). -/
def pointerRegion (inode : Ext2Inode) : Mem := fun j =>
  (if j / 4 < 12 then inode.blocks (j / 4) else inode.indirect (j / 4 - 12)) / 256 ^ (j % 4) % 256

/-- `ext2Readlink` (lines 645-687). `size` is the C `int`. Returns the return
value, the caller buffer and `*symlinkResolve`. The `assert` of line 668 halts;
a negative `toCopy` makes `memcpy` run over the whole address space, a fault. -/
def ext2Readlink (pl : PathLayer) (ext2 : Ext2) (path : String) (buf : Mem) (size : Int)
    (symlinkResolve : Option String) : Run (Nat × Mem × Option String) :=
  if size < 0 then .done (ERR EINVAL, buf, symlinkResolve)
  else if size = 0 then .done (0, buf, symlinkResolve)
  else
    let t := pl.ext2TraversePath ext2 path EXT2_ROOT_INODE false symlinkResolve
    if t.1 = 0 then .done (ERR ENOENT, buf, t.2)
    else
      let inode := ext2InodeFetch ext2 t.1
      if inode.permission &&& 0xF000 ≠ 0xA000 then .done (ERR EINVAL, buf, t.2)
      else if inode.size > 60 ∧ ¬ (inode.size < ext2.blockSize) then .halt
      else
        let start : Mem :=
          if inode.size > 60 then
            getDiskBytes ext2 (fun _ => 0) 0 (BLOCK_TO_LBA ext2 (inode.blocks 0))
              (ext2.blockSize / SECTOR_SIZE)
          else pointerRegion inode
        let toCopy0 : Int := toInt inode.size
        let toCopy : Int := if toCopy0 > size then size else toCopy0
        if toCopy < 0 then .halt
        else .done (toCopy.toNat, memcpy buf 0 start 0 toCopy.toNat, t.2)

/-! ## `ext2Close`, `ext2DuplicateNodeUnsafe` -/

/-- `ext2Close` (lines 689-700): the open count of the shared object goes down
by one and the driver state of the descriptor is freed. A descriptor without
driver state is a null dereference. -/
def ext2Close (ext2 : Ext2) (fd : OpenFile) : Run (Bool × Ext2 × OpenFile) :=
  match fd.dir with
  | none => .halt
  | some dir =>
    .done (true,
      { ext2 with firstObject :=
          (updateObject ext2.firstObject dir.globalObject
            (fun o => { o with openFds := o.openFds - 1 })) },
      { fd with dir := none })

/-- `ext2DuplicateNodeUnsafe` (lines 702-727): the orphan gets a copy of the
driver state of the original (same inode copy, cursor and shared object) and of
its directory name. The lookup scratch is not part of the embedding. Returns
the return value, the volume and the orphan. -/
def ext2DuplicateNodeUnsafe (ext2 : Ext2) (original orphan : OpenFile) :
    Run (Bool × Ext2 × OpenFile) :=
  match original.dir with
  | none => .halt
  | some dir =>
    .done (true, ext2,
      { orphan with
        dir := some dir
        dirname := if original.dirname.isSome then original.dirname else orphan.dirname })

/-! ## `ext2Mmap` -/

/-- The fields of the `bootloader` record that `ext2Mmap` reads. -/
structure Bootloader where
  hhdmOffset : Nat
  mmTotal : Nat
  kernelVirtBase : Nat

/-- Memory-management state that `ext2Mmap` touches: `mmap_end` of the current
task, the pages handed out by `PhysicalAllocate` (page count and physical
base) and the calls of `VirtualMap` (virtual address, physical address,
flags), latest first. -/
structure Paging where
  mmap_end : Nat
  allocated : List (Nat × Nat)
  mapped : List (Nat × Nat × Nat)

/-- The loop of line 775-776: one `VirtualMap` per page. -/
def mapPages (virt phys flags pages : Nat) (pg : Paging) : Paging :=
  (List.range pages).foldl
    (fun p i => { p with mapped := (virt + i * PAGE_SIZE, phys + i * PAGE_SIZE, flags) :: p.mapped })
    pg

/-- `ext2Mmap` (lines 730-787). `physAllocate` stands for `PhysicalAllocate`,
which is not among the sources: the physical base it hands out for a page
count. Sums of addresses are 64-bit; the narrowing of the page count to `int`
is left out. Returns the return value, the paging state, the volume, the
descriptor and the contents of the mapped pages. -/
def ext2Mmap (boot : Bootloader) (physAllocate : Nat → Nat) (pg : Paging) (ext2 : Ext2)
    (addr length prot flags : Nat) (fd : OpenFile) (pgoffset : Nat) :
    Run (Nat × Paging × Ext2 × OpenFile × Mem) :=
  if flags &&& MAP_PRIVATE = 0 then .done (ERR ENOSYS, pg, ext2, fd, fun _ => 0)
  else
    let mappingFlags := if prot &&& PROT_WRITE ≠ 0 then PF_USER ||| PF_RW else PF_USER
    let pages := DivRoundUp length PAGE_SIZE
    let fixed := flags &&& MAP_FIXED ≠ 0
    let virt := if fixed then addr else pg.mmap_end
    let pg1 : Paging :=
      if fixed then pg else { pg with mmap_end := (pg.mmap_end + pages * PAGE_SIZE) % 2 ^ 64 }
    if fixed ∧ virt > boot.hhdmOffset ∧ virt < (boot.hhdmOffset + boot.mmTotal) % 2 ^ 64 then
      .done (ERR EACCES, pg, ext2, fd, fun _ => 0)
    else if fixed ∧ virt > boot.kernelVirtBase ∧
        virt < (boot.kernelVirtBase + 268435456) % 2 ^ 64 then
      .done (ERR EACCES, pg, ext2, fd, fun _ => 0)
    else
      let endAddr := (virt + pages * PAGE_SIZE) % 2 ^ 64
      let pg2 : Paging := if endAddr > pg1.mmap_end then { pg1 with mmap_end := endAddr } else pg1
      let phys := physAllocate pages
      let pg3 : Paging := { pg2 with allocated := (pages, phys) :: pg2.allocated }
      let pg4 := mapPages virt phys mappingFlags pages pg3
      match fd.dir with
      | none => .halt
      | some dir =>
        let oldPtr := dir.ptr
        (ext2Read ext2 { fd with dir := some { dir with ptr := pgoffset } } (fun _ => 0)
            length).map fun r =>
          (virt, pg4, r.2.1,
            { r.2.2.1 with dir := r.2.2.1.dir.map (fun d => { d with ptr := oldPtr }) },
            r.2.2.2)

/-! ## `ext2Delete`, `ext2Link` -/

/-- The directory engine of the driver, which is not among the sources:
`ext2DirRemove (ext2, parentInode, parentInodeNum, name, nameLen)` hands back
its return value and the volume; `ext2DirAllocate (ext2, dirInodeNum, dirInode,
name, nameLen, type, inode)` hands back the volume. -/
structure DirLayer where
  ext2DirRemove : Ext2 → Ext2Inode → Nat → String → Nat → Bool × Ext2
  ext2DirAllocate : Ext2 → Nat → Ext2Inode → String → Nat → Nat → Nat → Ext2

/-- Modelled from the spec: `ext2BlockDelete` (§4.3 `freeBlock(group,
indexInGroup)`) clears the bit of block `group*blocks_per_group + index`. The
free-block counters are not part of the embedding. -/
def ext2BlockDelete (ext2 : Ext2) (group index : Nat) : Ext2 :=
  { ext2 with dev := { ext2.dev with
      blockBitmap := fun b =>
        if b = group * ext2.superblock.blocks_per_group + index then false
        else ext2.dev.blockBitmap b } }

/-- Modelled from the spec: `ext2InodeDelete` (§4.4 `delete(inode)`) clears the
inode bitmap bit. -/
def ext2InodeDelete (ext2 : Ext2) (inode : Nat) : Ext2 :=
  { ext2 with dev := { ext2.dev with
      inodeBitmap := fun n => if n = inode then false else ext2.dev.inodeBitmap n } }

/-- C `strlength`: the number of bytes before the terminator, which is the
number of characters of the `String` that carries the bytes. -/
def strlength (s : String) : Nat := s.data.length

/-- Index of the last `'/'` of a C string (`strrchr(s, '/')`, and the scan of
lines 851-859). -/
def lastSlash (s : String) : Option Nat :=
  (List.range s.data.length).reverse.find? (fun i => decide (s.data.getD i ' ' = '/'))

/-- Modelled from the spec: fields of the directory record at offset `off` of a
block (§3: inode, total record size, filename length, file-type byte, filename
bytes; 32, 16, 8 and 8 bits, little-endian). This is `dir->inode`. -/
def dirRecInode (names : Mem) (off : Nat) : Nat :=
  names off % 256 + 256 * (names (off + 1) % 256) + 65536 * (names (off + 2) % 256) +
    16777216 * (names (off + 3) % 256)

/-- Modelled from the spec: `dir->size` of the directory record at offset `off`
(see `dirRecInode`). -/
def dirRecSize (names : Mem) (off : Nat) : Nat :=
  names (off + 4) % 256 + 256 * (names (off + 5) % 256)

/-- Modelled from the spec: `dir->filenameLength` of the directory record at
offset `off` (see `dirRecInode`). -/
def dirRecNameLen (names : Mem) (off : Nat) : Nat := names (off + 6) % 256

/-- The loop of lines 835-844 of `ext2Delete` over the block `names`: `off` is
`(size_t)dir - (size_t)names`. `Run.done true` is falling out of the loop,
`Run.done false` the `ENOTEMPTY` exit. A record of size 0 makes the loop turn
forever. -/
def dirOnlyDots (blockSize : Nat) (names : Mem) : Nat → Nat → Nat → Run Bool
  | 0, _, _ => .spin
  | fuel + 1, off, i =>
    if ¬ (off < blockSize) then .done true
    else if dirRecNameLen names off > 2 ∨ i > 1 then .done false
    else
      dirOnlyDots blockSize names fuel (off + dirRecSize names off)
        (if dirRecInode names off ≠ 0 then i + 1 else i)

/-- The loop of lines 876-885 of `ext2Delete`: `i` is the loop variable before
the fetch. `inode->num_sectors * 512` is `uint32_t` arithmetic. A zero
`blocks_per_group` is a division by zero. -/
def freeDataBlocks (inode : Ext2Inode) : Nat → Nat → Ext2 → Run Ext2
  | 0, _, _ => .spin
  | fuel + 1, i, ext2 =>
    let block := ext2BlockFetch inode i
    if block = 0 ∨ (i + 1) * ext2.blockSize ≥ inode.num_sectors * 512 % 2 ^ 32 then .done ext2
    else if ext2.superblock.blocks_per_group = 0 then .halt
    else
      freeDataBlocks inode fuel (i + 1)
        (ext2BlockDelete ext2 (block / ext2.superblock.blocks_per_group)
          (block % ext2.superblock.blocks_per_group))

/-- Lines 849-859 of `ext2Delete`: `parentLen` and the string left in `parent`
(the path up to the last `'/'`, `"/"` when that is the first character, empty
when there is none). -/
def deleteParent (filename : String) : Nat × String :=
  match lastSlash filename with
  | some i => (i, if i ≠ 0 then ⟨filename.data.take i⟩ else "/")
  | none => (0, "")

/-- Lines 868-901 of `ext2Delete`: the link count goes down by one (16-bit
field); at zero the data blocks are freed, the record is wiped and persisted
and the inode is freed, otherwise the record is persisted. `now` is
`timerBootUnix + timerTicks / 1000`. -/
def ext2DeleteUnlink (now : Nat) (ext2 : Ext2) (inodeNum : Nat) (inode0 : Ext2Inode) :
    Run Ext2 :=
  let inode : Ext2Inode := { inode0 with hard_links := (inode0.hard_links + 65535) % 65536 }
  if inode.hard_links = 0 then
    let freed : Run Ext2 :=
      if inode.permission &&& S_IFREG ≠ 0 ∨ inode.permission &&& S_IFDIR ≠ 0 then
        freeDataBlocks inode (inode.num_sectors * 512 + 1) 0 ext2
      else .done ext2
    freed.map fun e =>
      let wiped : Ext2Inode :=
        { inode with
          dtime := now % 2 ^ 32, blocks := fun _ => 0, indirect := fun _ => 0
          num_sectors := 0, size := 0, size_high := 0 }
      ext2InodeDelete (ext2InodeModifyM e inodeNum wiped) inodeNum
  else .done (ext2InodeModifyM ext2 inodeNum inode)

/-- `ext2Delete` (lines 789-914). Returns the return value, the volume and
`*symlinkResolve`. The two `assert`s halt; the traversal of the parent gets a
null `symlinkResolve`; a last component of negative length makes `memmove` run
over the whole address space, a fault. `ext2InodeFetch` always hands back a
record here, so the null checks of lines 799 and 925 never fire. -/
def ext2Delete (pl : PathLayer) (dl : DirLayer) (now : Nat) (ext2 : Ext2) (filename : String)
    (directory : Bool) (symlinkResolve : Option String) : Run (Nat × Ext2 × Option String) :=
  let t := pl.ext2TraversePath ext2 filename 2 false symlinkResolve
  if t.1 = 0 then .done (ERR ENOENT, ext2, t.2)
  else
    let inode := ext2InodeFetch ext2 t.1
    if directory ∧ ¬ (inode.permission &&& S_IFDIR ≠ 0) then .done (ERR ENOTDIR, ext2, t.2)
    else if ¬ directory ∧ inode.permission &&& S_IFDIR ≠ 0 then .done (ERR EISDIR, ext2, t.2)
    else
      let filenameLen := strlength filename
      if filenameLen = 1 then
        .done (if directory then ERR ENOTEMPTY else ERR EISDIR, ext2, t.2)
      else
        let empty : Run Bool :=
          if directory then
            dirOnlyDots ext2.blockSize
              (getDiskBytes ext2 ext2.dev.heap 0 (BLOCK_TO_LBA ext2 (inode.blocks 0))
                (ext2.blockSize / SECTOR_SIZE))
              (ext2.blockSize + 1) 0 0
          else .done true
        empty.bind fun ok =>
          if ¬ ok then .done (ERR ENOTEMPTY, ext2, t.2)
          else
            let p := deleteParent filename
            let parentInodeNum := (pl.ext2TraversePath ext2 p.2 2 false none).1
            if parentInodeNum = 0 then .halt
            else
              let parentInode := ext2InodeFetch ext2 parentInodeNum
              if parentInode.permission &&& S_IFDIR = 0 then .halt
              else
                (ext2DeleteUnlink now ext2 t.1 inode).bind fun e =>
                  if filenameLen < p.1 + 1 then .halt
                  else
                    let r := dl.ext2DirRemove e parentInode parentInodeNum
                      ⟨filename.data.drop (p.1 + 1)⟩ (filenameLen - p.1 - 1)
                    .done (if r.1 then 0 else 2 ^ 64 - 1, r.2, t.2)

/-- `ext2Link` (lines 916-967). Returns the return value, the volume,
`*symlinkResolve` and `*symlinkResolveTarget`. The `assert` of line 951
halts. -/
def ext2Link (pl : PathLayer) (dl : DirLayer) (ext2 : Ext2) (filename target : String)
    (symlinkResolve symlinkResolveTarget : Option String) :
    Run (Nat × Ext2 × Option String × Option String) :=
  let t := pl.ext2TraversePath ext2 filename 2 false symlinkResolve
  if t.1 = 0 then .done (ERR ENOENT, ext2, t.2, symlinkResolveTarget)
  else
    let inode := ext2InodeFetch ext2 t.1
    if ¬ (inode.permission &&& S_IFREG ≠ 0 ∨ inode.permission &&& S_IFDIR ≠ 0) then
      .done (ERR EPERM, ext2, t.2, symlinkResolveTarget)
    else
      match lastSlash target with
      | none => .done (ERR ENOENT, ext2, t.2, symlinkResolveTarget)
      | some k =>
        let targetDir : String := ⟨target.data.take k⟩
        let targetFilename : String := ⟨target.data.drop (k + 1)⟩
        let td := pl.ext2TraversePath ext2 targetDir 2 false symlinkResolveTarget
        if td.1 = 0 then .done (ERR ENOENT, ext2, t.2, td.2)
        else
          let targetDirInode := ext2InodeFetch ext2 td.1
          if targetDirInode.permission &&& S_IFDIR = 0 then .halt
          else
            let linked : Ext2Inode :=
              { inode with hard_links := (inode.hard_links + 1) % 65536 }
            let ext2m := ext2InodeModifyM ext2 t.1 linked
            let dirType := if linked.permission &&& S_IFREG ≠ 0 then 1 else 2
            .done (0,
              dl.ext2DirAllocate ext2m td.1 targetDirInode targetFilename
                (strlength targetFilename) dirType t.1,
              t.2, td.2)

/-! ## Scenarios of the path operations -/

/-- Open count of the shared object of `inode`, if there is one. -/
def openFdsOf (ext2 : Ext2) (inode : Nat) : Option Int :=
  (findObject ext2.firstObject inode).map (fun o => o.openFds)

/-- Does the descriptor reference the shared object of `inode`. -/
def refersTo (fd : OpenFile) (inode : Nat) : Bool :=
  match fd.dir with
  | some d => d.globalObject == inode
  | none => false

/-- The target of a symbolic link as §3 stores it: inline in the block-pointer
region up to 60 bytes, in the first data block beyond. -/
def linkTarget (ext2 : Ext2) (inode : Ext2Inode) (j : Nat) : Nat :=
  if inode.size ≤ 60 then pointerRegion inode j
  else ext2.dev.bytes (blockByte ext2 (inode.blocks 0) j)

/-- The mounted demo volume whose inode table holds socket inodes (mode
`0xC1A4`). -/
def socketVolume : Ext2 :=
  { demoMounted with dev := { demoDevice with inodes := fun _ => emptyInode 0xC1A4 } }

/-- The inode of a symbolic link whose target `/a/b/c` is stored inline. -/
def linkInode : Ext2Inode :=
  { permission := 0xA1FF, size := 6, size_high := 0, num_sectors := 0, hard_links := 1
    dtime := 0, blocks := fun k => if k = 0 then 0x622F612F else if k = 1 then 0x632F else 0 }

/-- A directory inode of two data blocks, absolute blocks 300 and 301. -/
def dirInode : Ext2Inode :=
  { permission := 0x41ED, size := 8192, size_high := 0, num_sectors := 16, hard_links := 2
    dtime := 0, blocks := fun k => if k = 0 then 300 else if k = 1 then 301 else 0 }

/-- A regular file of two data blocks, absolute blocks 202 and 203. -/
def twoBlockInode : Ext2Inode :=
  { permission := 0x81A4, size := 8192, size_high := 0, num_sectors := 16, hard_links := 1
    dtime := 0, blocks := fun k => if k = 0 then 202 else if k = 1 then 203 else 0 }

/-- The inode of a root directory of one data block, absolute block 50. -/
def rootInode : Ext2Inode :=
  { permission := 0x41ED, size := 4096, size_high := 0, num_sectors := 8, hard_links := 3
    dtime := 0, blocks := fun k => if k = 0 then 50 else 0 }

/-- Bytes of a list laid over memory from address `base` on. -/
def overlay (base : Nat) (l : List Nat) (rest : Mem) : Mem :=
  fun a => if base ≤ a ∧ a < base + l.length then l.getD (a - base) 0 else rest a

/-- Block 300 of `treeVolume`: the records `.` (inode 20, size 12) and `..`
(inode 2, size 4084, to the end of the block). -/
def dotsBlock : List Nat :=
  [20, 0, 0, 0, 12, 0, 1, 2, 46, 0, 0, 0,
   2, 0, 0, 0, 244, 15, 2, 2, 46, 46, 0, 0]

/-- Block 301 of `treeVolume`: one record `file` (inode 15, size 4096). -/
def entryBlock : List Nat :=
  [15, 0, 0, 0, 0, 16, 4, 1, 102, 105, 108, 101]

/-- A volume with the root directory (inode 2, block 50), the regular file
`/f` (inode 12, block 200), the symbolic link `/link` (inode 13), the regular
file `/g` (inode 14, blocks 202 and 203) and the directory `/d` (inode 20,
blocks 300 and 301) whose first block holds `.` and `..` and whose second block
holds the entry `file` (inode 15, an empty regular file). Blocks 0 to 99, 200,
202, 203, 300 and 301 are in use. -/
def treeVolume : Ext2 :=
  { demoMounted with dev :=
      { bytes := overlay (2048 * 512 + 300 * 4096) dotsBlock
          (overlay (2048 * 512 + 301 * 4096) entryBlock (fun _ => 0))
        blockBitmap := fun b =>
          decide (b < 100 ∨ b = 200 ∨ b = 202 ∨ b = 203 ∨ b = 300 ∨ b = 301)
        inodes := fun n =>
          if n = 2 then rootInode
          else if n = 12 then shortInode
          else if n = 13 then linkInode
          else if n = 14 then twoBlockInode
          else if n = 20 then dirInode
          else emptyInode 0x81A4
        heap := fun _ => 0xAA } }

/-- The path layer of `treeVolume`. -/
def treeLayer : PathLayer :=
  { ext2TraversePath := fun _ path _ _ sr =>
      if path = "/" then (2, sr)
      else if path = "/f" then (12, sr)
      else if path = "/link" then (13, sr)
      else if path = "/g" then (14, sr)
      else if path = "/d" then (20, sr)
      else (0, sr)
    ext2Touch := fun ext2 _ _ sr => (0, ext2, sr) }

/-- A directory engine that removes every entry it is asked to and, on
`ext2DirAllocate`, leaves the type byte and the inode of the new entry in the
first two bytes of the device. -/
def noteDirs : DirLayer :=
  { ext2DirRemove := fun ext2 _ _ _ _ => (true, ext2)
    ext2DirAllocate := fun ext2 _ _ _ _ dirType inode =>
      { ext2 with dev := { ext2.dev with
          bytes := fun a => if a = 0 then dirType else if a = 1 then inode else ext2.dev.bytes a } } }

/-- Addresses of a machine whose HHDM window starts at `0xFFFF800000000000`
and spans 4 GiB of memory, with the kernel at `0xFFFFFFFF80000000`. -/
def demoBoot : Bootloader :=
  { hhdmOffset := 0xFFFF800000000000, mmTotal := 2 ^ 32, kernelVirtBase := 0xFFFFFFFF80000000 }

/-- Paging state of a task that has mapped nothing yet. -/
def freshPaging : Paging := { mmap_end := 0x700000000000, allocated := [], mapped := [] }

/-- A regular file whose first slot is a hole and whose second slot holds
absolute block 201. -/
def holeInode : Ext2Inode :=
  { permission := 0x81A4, size := 8192, size_high := 0, num_sectors := 8, hard_links := 1
    dtime := 0, blocks := fun k => if k = 1 then 201 else 0 }

/-- The demo volume with block 201 in use as well and `holeInode` as inode
12. -/
def holeVolume : Ext2 :=
  { demoVolume with dev :=
      { demoDevice with
        blockBitmap := fun b => decide (b < 100 ∨ b = 201)
        inodes := fun n => if n = 12 then holeInode else emptyInode 0x81A4 } }

/-- Open a file on the fresh volume, duplicate the descriptor, close both.
Yields the open count of the object and whether the two descriptors reference
it after the duplication, and the open count after the two closes. -/
def dupScenario : Run (Option Int × Bool × Bool × Option Int) :=
  (ext2DuplicateNodeUnsafe
      (ext2Open resolvingLayer demoMounted "/hello.txt" 0 0 (freshFd 0) none).2.1
      (ext2Open resolvingLayer demoMounted "/hello.txt" 0 0 (freshFd 0) none).2.2.1
      (freshFd 0)).bind fun d =>
  (ext2Close d.2.1
      (ext2Open resolvingLayer demoMounted "/hello.txt" 0 0 (freshFd 0) none).2.2.1).bind fun c1 =>
  (ext2Close c1.2.1 d.2.2).map fun c2 =>
    (openFdsOf d.2.1 12,
      refersTo (ext2Open resolvingLayer demoMounted "/hello.txt" 0 0 (freshFd 0) none).2.2.1 12,
      refersTo d.2.2 12, openFdsOf c2.2.1 12)

/-- Slots 0 and 1 of the inode copy of a descriptor. -/
def slotsOf (fd : OpenFile) : Nat × Nat :=
  match fd.dir with
  | some d => (d.inode.blocks 0, d.inode.blocks 1)
  | none => (0, 0)

/-! ## Run coalescing -/

/-- One block-device write of the emission loop of `ext2Write`: `count` blocks
of the staging buffer, from staging block `index` on, go to the absolute blocks
`block, block + 1, ..`. -/
structure BlockWrite where
  index : Nat
  block : Nat
  count : Nat

/-- Effect of one block-device write on the volume (`setDiskBytes` of lines
492-494 and 497-499). -/
def BlockWrite.perform (tmp : Mem) (e : Ext2) (w : BlockWrite) : Ext2 :=
  setDiskBytes e tmp (w.index * e.blockSize) (BLOCK_TO_LBA e w.block)
    (w.count * e.blockSize / SECTOR_SIZE)

/-- The block-device write that iteration `i` of the emission loop of
`ext2Write` issues (lines 474-501), if it issues one, from the loop variables
`c` at the top of the iteration. -/
def ext2WriteIssued (blocks : List Nat) (blocksRequired : Nat) (c : Consec) (i : Nat) :
    Option BlockWrite :=
  if c.consecStart < 0 then
    if ¬ (i + 1 = blocksRequired) ∧ blockAt blocks (i + 1) = (blockAt blocks i + 1) % 2 ^ 32 then
      none
    else some { index := c.currBlock, block := blockAt blocks i, count := 1 }
  else
    if i + 1 = blocksRequired ∨ blockAt blocks (i + 1) ≠ (blockAt blocks i + 1) % 2 ^ 32 then
      if i ≠ 0 then
        some { index := c.currBlock, block := blockAt blocks c.consecStart.toNat
               count := ((i : Int) - c.consecStart + 1).toNat }
      else some { index := c.currBlock, block := blockAt blocks i, count := 1 }
    else none

/-- One iteration of the emission loop of `ext2Write` with the block-device
write it issues appended to the log. -/
def ext2WriteLogStep (blocks : List Nat) (blocksRequired : Nat) (tmp : Mem)
    (st : Run (Consec × Ext2) × List BlockWrite) (i : Nat) :
    Run (Consec × Ext2) × List BlockWrite :=
  (ext2WriteStep blocks blocksRequired tmp st.1 i,
    match st.1 with
    | .done (c, _) =>
      if blockAt blocks i = 0 then st.2
      else
        match ext2WriteIssued blocks blocksRequired c i with
        | some w => st.2 ++ [w]
        | none => st.2
    | _ => st.2)

/-- The block-device writes that the emission loop of `ext2Write` issues, in
the order of issue. -/
def ext2WriteLog (ext2 : Ext2) (blocks : List Nat) (blocksRequired : Nat) (tmp : Mem) :
    List BlockWrite :=
  ((List.range blocksRequired).foldl (ext2WriteLogStep blocks blocksRequired tmp)
    (.done (Consec.init, ext2), [])).2

/-- Block-by-block emission in the words of the specification: staging block
`k` (bytes `[k*blockSize, (k+1)*blockSize)` of the staging buffer) is written
to absolute block `blocks[k]`, for `k = 0, 1, .., n - 1` in this order, one
block-device write per block. -/
def emitBlockByBlock (ext2 : Ext2) (blocks : List Nat) (n : Nat) (tmp : Mem) : Ext2 :=
  (List.range n).foldl
    (fun e k => setDiskBytes e tmp (k * ext2.blockSize) (BLOCK_TO_LBA ext2 (blockAt blocks k))
      (ext2.blockSize / SECTOR_SIZE))
    ext2

/-- A log of block-device writes in the words of the specification: the writes
go through the staging blocks `0 .. c` in increasing order, each block in
exactly one write, and every write covers a maximal run of consecutive block
numbers (`blocks[i+1] = blocks[i] + 1` inside the run, not so across its two
ends). -/
inductive MaximalRuns (blocks : List Nat) (n : Nat) : Nat → List BlockWrite → Prop
  | nil : MaximalRuns blocks n 0 []
  | snoc (s cnt : Nat) (log : List BlockWrite) :
      MaximalRuns blocks n s log → 0 < cnt → s + cnt ≤ n →
      (∀ j, j < cnt → blockAt blocks (s + j) = blockAt blocks s + j) →
      (s = 0 ∨ blockAt blocks s ≠ blockAt blocks (s - 1) + 1) →
      (s + cnt = n ∨ blockAt blocks (s + cnt) ≠ blockAt blocks (s + cnt - 1) + 1) →
      MaximalRuns blocks n (s + cnt)
        (log ++ [{ index := s, block := blockAt blocks s, count := cnt }])

/-- Invariant of the logged emission loop before index `m`: the loop has not
panicked, the device is what the log makes of the volume and what the
block-by-block emission of the blocks covered so far makes of it, the log goes
through these blocks in maximal runs, and either no run is open, or a run is
open from `s` and the entries `s .. m` are consecutive. -/
def LogInv (ext2 : Ext2) (blocks : List Nat) (tmp : Mem) (n m : Nat)
    (st : Run (Consec × Ext2) × List BlockWrite) : Prop :=
  ∃ c e, st.1 = .done (c, e) ∧ SameVolume ext2 e ∧ c.consecEnd = 0 ∧
    e = st.2.foldl (BlockWrite.perform tmp) ext2 ∧
    ((c.consecStart = -1 ∧ c.currBlock = m ∧ e = emitBlockByBlock ext2 blocks m tmp ∧
        MaximalRuns blocks n m st.2) ∨
     (∃ s : Nat, c.consecStart = (s : Int) ∧ s < m ∧ m < n ∧ c.currBlock = s ∧
        e = emitBlockByBlock ext2 blocks s tmp ∧ MaximalRuns blocks n s st.2 ∧
        ∀ k, s ≤ k → k ≤ m → blockAt blocks k = blockAt blocks s + (k - s)))

/-! ## Writes into allocated blocks -/

/-- Cursor at which `ext2Write` writes (lines 384-388): the file size under
`O_APPEND`, the cursor of the descriptor otherwise. -/
def writeCursor (fd : OpenFile) (dir : Ext2OpenFd) : Nat :=
  if fd.flags &&& O_APPEND ≠ 0 then COMBINE_64 dir.inode.size_high dir.inode.size else dir.ptr

/-- The blocks that hold the file offsets `p .. p + n` are allocated already:
their slots are resolved, and no two of them hold the same block number. -/
def Allocated (ext2 : Ext2) (inode : Ext2Inode) (p n : Nat) : Prop :=
  Resolved ext2 inode p n ∧
  ∀ b b2, p / ext2.blockSize ≤ b → b < b2 → b2 * ext2.blockSize < p + n →
    inode.blocks b ≠ inode.blocks b2

/-- The demo volume with a device whose byte at address `a` is `a % 251` and
whose inode 12 is `twoBlockInode`. -/
def patternVolume : Ext2 :=
  { demoVolume with dev :=
      { demoDevice with
        bytes := fun a => a % 251
        inodes := fun n => if n = 12 then twoBlockInode else emptyInode 0x81A4 } }

/-- A descriptor of inode 12 with inode copy `twoBlockInode`, opened for
reading and writing, cursor at offset 100. -/
def twoBlockFd : OpenFile := setCursor (demoFd O_RDWR twoBlockInode) 100

/-- Driver state of `twoBlockFd`. -/
def twoBlockDir : Ext2OpenFd :=
  { inodeNum := 12, inode := twoBlockInode, ptr := 100, globalObject := 12 }

/-! ## Theorems -/

/-! ### Outcomes -/

/-- An observed outcome is a return only when the call returned. -/
theorem Run.map_eq_done {α β : Type} (f : α → β) (r : Run α) (b : β)
    (h : r.map f = .done b) : ∃ a, r = .done a ∧ f a = b := by
  cases r with
  | done a => exact ⟨a, rfl, Run.done.inj h⟩
  | halt => cases h
  | spin => cases h

/-- A sequence of two calls returns only when both did. -/
theorem Run.bind_eq_done {α β : Type} (f : α → Run β) (r : Run α) (b : β)
    (h : r.bind f = .done b) : ∃ a, r = .done a ∧ f a = .done b := by
  cases r with
  | done a => exact ⟨a, rfl, h⟩
  | halt => cases h
  | spin => cases h

/-! ### `ext2Mount` -/

/-- A successful `ext2Mount` passed every check of lines 41-93, and the volume
carries the superblock, the block size and the group count computed there. -/
theorem ext2Mount_done_some (dev : Device) (lba : Nat) (sb : Ext2Superblock) (v : Ext2)
    (h : ext2Mount dev lba sb = .done (some v)) :
    (sb.ext2_magic = 0xEF53 ∧ 1 ≤ sb.major ∧ sb.required_feature = EXT2_R_F_TYPE_FIELD) ∧
    (sb.fs_state = EXT2_FS_S_CLEAN ∨
      (sb.err ≠ EXT2_FS_E_REMOUNT_RO ∧ sb.err ≠ EXT2_FS_E_KPANIC)) ∧
    (0 < sb.blocks_per_group ∧ 0 < sb.inodes_per_group) ∧
    v.blockSize = (1024 <<< sb.log2block_size) % 2 ^ 32 ∧
    v.blockSize % SECTOR_SIZE = 0 ∧
    v.blockGroups = DivRoundUp32 sb.total_blocks sb.blocks_per_group ∧
    v.blockGroups = DivRoundUp32 sb.total_inodes sb.inodes_per_group := by
  unfold ext2Mount at h
  by_cases h1 : sb.ext2_magic ≠ 0xEF53
  · rw [if_pos h1] at h; cases h
  rw [if_neg h1] at h
  by_cases h2 : sb.major < 1
  · rw [if_pos h2] at h; cases h
  rw [if_neg h2] at h
  by_cases h3 : sb.required_feature ≠ EXT2_R_F_TYPE_FIELD
  · rw [if_pos h3] at h; cases h
  rw [if_neg h3] at h
  by_cases h4 : sb.fs_state ≠ EXT2_FS_S_CLEAN ∧ sb.err = EXT2_FS_E_REMOUNT_RO
  · rw [if_pos h4] at h; cases h
  rw [if_neg h4] at h
  by_cases h5 : sb.fs_state ≠ EXT2_FS_S_CLEAN ∧ sb.err = EXT2_FS_E_KPANIC
  · rw [if_pos h5] at h; cases h
  rw [if_neg h5] at h
  dsimp only at h
  by_cases h6 : (1024 <<< sb.log2block_size) % 2 ^ 32 % SECTOR_SIZE ≠ 0
  · rw [if_pos h6] at h; cases h
  rw [if_neg h6] at h
  by_cases h7 : sb.blocks_per_group = 0 ∨ sb.inodes_per_group = 0
  · rw [if_pos h7] at h; cases h
  rw [if_neg h7] at h
  by_cases h8 : DivRoundUp32 sb.total_blocks sb.blocks_per_group ≠
      DivRoundUp32 sb.total_inodes sb.inodes_per_group
  · rw [if_pos h8] at h; cases h
  rw [if_neg h8] at h
  simp only [Run.done.injEq, Option.some.injEq] at h
  subst h
  refine ⟨⟨not_not.mp h1, by omega, not_not.mp h3⟩, ?_, by omega, rfl, not_not.mp h6, rfl,
    not_not.mp h8⟩
  by_cases hc : sb.fs_state = EXT2_FS_S_CLEAN
  · exact Or.inl hc
  · exact Or.inr ⟨fun he => h4 ⟨hc, he⟩, fun he => h5 ⟨hc, he⟩⟩

/-- A wrong magic, a major revision below 1 or a required-features mask other
than `FILETYPE` makes `ext2Mount` return false. -/
theorem ext2Mount_early_refusal (dev : Device) (lba : Nat) (sb : Ext2Superblock)
    (h : sb.ext2_magic ≠ 0xEF53 ∨ sb.major < 1 ∨ sb.required_feature ≠ EXT2_R_F_TYPE_FIELD) :
    ext2Mount dev lba sb = .done none := by
  unfold ext2Mount
  by_cases h1 : sb.ext2_magic ≠ 0xEF53
  · rw [if_pos h1]
  rw [if_neg h1]
  by_cases h2 : sb.major < 1
  · rw [if_pos h2]
  rw [if_neg h2]
  by_cases h3 : sb.required_feature ≠ EXT2_R_F_TYPE_FIELD
  · rw [if_pos h3]
  exact absurd h (by tauto)

/-- An unclean volume under the remount-read-only policy is refused. -/
theorem ext2Mount_ro_refusal (dev : Device) (lba : Nat) (sb : Ext2Superblock)
    (hs : sb.fs_state ≠ EXT2_FS_S_CLEAN) (he : sb.err = EXT2_FS_E_REMOUNT_RO) :
    ext2Mount dev lba sb = .done none := by
  by_cases h : sb.ext2_magic ≠ 0xEF53 ∨ sb.major < 1 ∨ sb.required_feature ≠ EXT2_R_F_TYPE_FIELD
  · exact ext2Mount_early_refusal dev lba sb h
  have h1 : ¬ sb.ext2_magic ≠ 0xEF53 := fun h0 => h (Or.inl h0)
  have h2 : ¬ sb.major < 1 := fun h0 => h (Or.inr (Or.inl h0))
  have h3 : ¬ sb.required_feature ≠ EXT2_R_F_TYPE_FIELD := fun h0 => h (Or.inr (Or.inr h0))
  unfold ext2Mount
  rw [if_neg h1, if_neg h2, if_neg h3, if_pos ⟨hs, he⟩]

/-- An unclean volume under the panic policy that passed the checks of magic,
revision and feature mask halts the kernel. -/
theorem ext2Mount_panic (dev : Device) (lba : Nat) (sb : Ext2Superblock)
    (h1 : sb.ext2_magic = 0xEF53) (h2 : 1 ≤ sb.major)
    (h3 : sb.required_feature = EXT2_R_F_TYPE_FIELD)
    (hs : sb.fs_state ≠ EXT2_FS_S_CLEAN) (he : sb.err = EXT2_FS_E_KPANIC) :
    ext2Mount dev lba sb = .halt := by
  have h2n : ¬ sb.major < 1 := by omega
  have hne : ¬ (sb.fs_state ≠ EXT2_FS_S_CLEAN ∧ sb.err = EXT2_FS_E_REMOUNT_RO) := by
    intro h; rw [he] at h; exact absurd h.2 (by decide)
  unfold ext2Mount
  rw [if_neg (not_not.mpr h1), if_neg h2n, if_neg (not_not.mpr h3), if_neg hne,
    if_pos ⟨hs, he⟩]

/-- With an error policy other than remount-read-only and panic the state of
the volume plays no part in `ext2Mount`. -/
theorem ext2Mount_state_ignored (dev : Device) (lba : Nat) (sb : Ext2Superblock)
    (h1 : sb.err ≠ EXT2_FS_E_REMOUNT_RO) (h2 : sb.err ≠ EXT2_FS_E_KPANIC) :
    ext2Mount dev lba sb =
      (ext2Mount dev lba { sb with fs_state := EXT2_FS_S_CLEAN }).map
        (Option.map (fun v => { v with superblock := sb })) := by
  have h4 : ¬ (sb.fs_state ≠ EXT2_FS_S_CLEAN ∧ sb.err = EXT2_FS_E_REMOUNT_RO) :=
    fun h => h1 h.2
  have h5 : ¬ (sb.fs_state ≠ EXT2_FS_S_CLEAN ∧ sb.err = EXT2_FS_E_KPANIC) :=
    fun h => h2 h.2
  have h4c : ¬ (EXT2_FS_S_CLEAN ≠ EXT2_FS_S_CLEAN ∧ sb.err = EXT2_FS_E_REMOUNT_RO) :=
    fun h => h1 h.2
  have h5c : ¬ (EXT2_FS_S_CLEAN ≠ EXT2_FS_S_CLEAN ∧ sb.err = EXT2_FS_E_KPANIC) :=
    fun h => h2 h.2
  unfold ext2Mount
  dsimp only
  rw [if_neg h4, if_neg h5, if_neg h4c, if_neg h5c]
  split_ifs <;> rfl

/-- Outside the range of `MountRange` the group counts of lines 84-87 are not
the ceilings: with `2^32 - 1` blocks in groups of 8192 and no inode the sum
`total_blocks + blocks_per_group - 1` wraps to 8190, both counts come out as 0,
and the mount succeeds with `blockGroups = 0` although the volume has
`ceil((2^32 - 1)/8192) = 524288` block groups and no inode group. -/
theorem ext2Mount_group_count_wraps :
    ¬ MountRange wrappingSuperblock ∧
    DivRoundUp wrappingSuperblock.total_blocks wrappingSuperblock.blocks_per_group = 524288 ∧
    DivRoundUp wrappingSuperblock.total_inodes wrappingSuperblock.inodes_per_group = 0 ∧
    ¬ MountInvariants wrappingSuperblock ∧
    (ext2Mount demoDevice 2048 wrappingSuperblock).map (Option.map (fun v => v.blockGroups))
      = .done (some 0) := by
  refine ⟨by unfold MountRange; decide, by decide, by decide, ?_, by rfl⟩
  intro h
  exact absurd h.2.2.2.2 (by decide)

/-- Claim C9, counterexample: a superblock whose state is "has errors" and whose
error policy is "ignore" passes the state check; `ext2Mount` returns true. -/
theorem ext2Mount_unclean_ignore_mounts :
    dirtySuperblock.fs_state ≠ EXT2_FS_S_CLEAN ∧
    ext2Mount demoDevice 2048 dirtySuperblock =
      .done (some { demoMounted with superblock := dirtySuperblock }) :=
  ⟨by decide, by rfl⟩

/-- Claim C9, amended: for every superblock whose state is not clean,
`ext2Mount` returns false under the remount-read-only policy; under the panic
policy it never returns success: it halts the kernel when magic, revision and
feature mask are in order and returns false when one of them is not; under any
other policy value the state has no effect: the mount returns what it returns
for the same superblock marked clean, the volume carrying the superblock as it
was given. -/
theorem ext2Mount_unclean_policy (dev : Device) (lba : Nat) (sb : Ext2Superblock)
    (hs : sb.fs_state ≠ EXT2_FS_S_CLEAN) :
    (sb.err = EXT2_FS_E_REMOUNT_RO → ext2Mount dev lba sb = .done none) ∧
    (sb.err = EXT2_FS_E_KPANIC →
      (∀ v, ext2Mount dev lba sb ≠ .done (some v)) ∧
      (sb.ext2_magic = 0xEF53 ∧ 1 ≤ sb.major ∧ sb.required_feature = EXT2_R_F_TYPE_FIELD →
        ext2Mount dev lba sb = .halt) ∧
      (¬ (sb.ext2_magic = 0xEF53 ∧ 1 ≤ sb.major ∧
          sb.required_feature = EXT2_R_F_TYPE_FIELD) →
        ext2Mount dev lba sb = .done none)) ∧
    (sb.err ≠ EXT2_FS_E_REMOUNT_RO → sb.err ≠ EXT2_FS_E_KPANIC →
      ext2Mount dev lba sb =
        (ext2Mount dev lba { sb with fs_state := EXT2_FS_S_CLEAN }).map
          (Option.map (fun v => { v with superblock := sb }))) := by
  refine ⟨ext2Mount_ro_refusal dev lba sb hs, ?_, ext2Mount_state_ignored dev lba sb⟩
  intro he
  refine ⟨?_, fun h => ext2Mount_panic dev lba sb h.1 h.2.1 h.2.2 hs he, ?_⟩
  · intro v h
    obtain ⟨-, hc, -⟩ := ext2Mount_done_some dev lba sb v h
    rcases hc with hc | ⟨-, h2⟩
    · exact hs hc
    · exact h2 he
  · intro hn
    apply ext2Mount_early_refusal
    by_contra hc
    apply hn
    refine ⟨?_, ?_, ?_⟩
    · by_contra h; exact hc (Or.inl h)
    · by_contra h; exact hc (Or.inr (Or.inl (by omega)))
    · by_contra h; exact hc (Or.inr (Or.inr h))

/-- Claim C9, witness: the unclean demo superblock is refused under
remount-read-only, halts the kernel under panic, is refused under panic when
its magic is wrong, and mounts under the policy values 1 ("ignore") and 0 as
its clean counterpart does. -/
theorem ext2Mount_unclean_policy_witness :
    dirtySuperblock.fs_state ≠ EXT2_FS_S_CLEAN ∧
    ext2Mount demoDevice 2048 { dirtySuperblock with err := EXT2_FS_E_REMOUNT_RO } = .done none ∧
    ext2Mount demoDevice 2048 { dirtySuperblock with err := EXT2_FS_E_KPANIC } = .halt ∧
    ext2Mount demoDevice 2048
      { dirtySuperblock with err := EXT2_FS_E_KPANIC, ext2_magic := 0 } = .done none ∧
    ext2Mount demoDevice 2048 dirtySuperblock =
      (ext2Mount demoDevice 2048 { dirtySuperblock with fs_state := EXT2_FS_S_CLEAN }).map
        (Option.map (fun v => { v with superblock := dirtySuperblock })) ∧
    ext2Mount demoDevice 2048 { dirtySuperblock with err := 0 } =
      (ext2Mount demoDevice 2048
        { dirtySuperblock with err := 0, fs_state := EXT2_FS_S_CLEAN }).map
        (Option.map (fun v => { v with superblock := { dirtySuperblock with err := 0 } })) :=
  ⟨by decide,
   (ext2Mount_unclean_policy demoDevice 2048 { dirtySuperblock with err := EXT2_FS_E_REMOUNT_RO }
      (by decide)).1 rfl,
   ((ext2Mount_unclean_policy demoDevice 2048 { dirtySuperblock with err := EXT2_FS_E_KPANIC }
      (by decide)).2.1 rfl).2.1 ⟨rfl, by decide, rfl⟩,
   ((ext2Mount_unclean_policy demoDevice 2048
      { dirtySuperblock with err := EXT2_FS_E_KPANIC, ext2_magic := 0 }
      (by decide)).2.1 rfl).2.2 (fun h => absurd h.1 (by decide)),
   (ext2Mount_unclean_policy demoDevice 2048 dirtySuperblock (by decide)).2.2
      (by decide) (by decide),
   (ext2Mount_unclean_policy demoDevice 2048 { dirtySuperblock with err := 0 } (by decide)).2.2
      (by decide) (by decide)⟩

/-! ### `ext2Open` -/

/-- Claim C10, counterexample: the path does not resolve and the flags hold no
`O_CREAT`, yet `ext2Open` returns `ELOOP`, not `ENOENT`: the traversal reported
a final symbolic link and the flags hold `O_NOFOLLOW` (lines 131-138). -/
theorem ext2Open_dangling_nofollow_is_ELOOP :
    (danglingLayer.ext2TraversePath demoVolume "/link" EXT2_ROOT_INODE true none).1 = 0 ∧
    O_NOFOLLOW &&& O_CREAT = 0 ∧
    (ext2Open danglingLayer demoVolume "/link" O_NOFOLLOW 0 (freshFd O_NOFOLLOW) none).1
      = ERR ELOOP ∧
    ERR ELOOP ≠ ERR ENOENT := by
  refine ⟨rfl, by decide, by decide, by decide⟩

/-- Claim C10, amended: `ext2Open` returns `EEXIST` whenever the path resolves
and the flags hold both `O_CREAT` and `O_EXCL`; it returns `ENOENT` whenever the
path does not resolve and the flags hold no `O_CREAT`, unless the traversal
reported a final symbolic link and the flags hold `O_NOFOLLOW`, in which case
it returns `ELOOP`. In all three cases the volume (inode table, open-object
table, open counts) and the descriptor come back unchanged. -/
theorem ext2Open_existence_errors (pl : PathLayer) (ext2 : Ext2) (filename : String)
    (flags mode : Nat) (fd : OpenFile) (symlinkResolve : Option String) :
    (((pl.ext2TraversePath ext2 filename EXT2_ROOT_INODE true symlinkResolve).1 ≠ 0 ∧
        flags &&& O_CREAT ≠ 0 ∧ flags &&& O_EXCL ≠ 0) →
      ext2Open pl ext2 filename flags mode fd symlinkResolve =
        (ERR EEXIST, ext2, fd,
          (pl.ext2TraversePath ext2 filename EXT2_ROOT_INODE true symlinkResolve).2)) ∧
    (((pl.ext2TraversePath ext2 filename EXT2_ROOT_INODE true symlinkResolve).1 = 0 ∧
        flags &&& O_CREAT = 0 ∧
        ¬ ((pl.ext2TraversePath ext2 filename EXT2_ROOT_INODE true symlinkResolve).2.isSome ∧
            flags &&& O_NOFOLLOW ≠ 0)) →
      ext2Open pl ext2 filename flags mode fd symlinkResolve =
        (ERR ENOENT, ext2, fd,
          (pl.ext2TraversePath ext2 filename EXT2_ROOT_INODE true symlinkResolve).2)) ∧
    (((pl.ext2TraversePath ext2 filename EXT2_ROOT_INODE true symlinkResolve).1 = 0 ∧
        (pl.ext2TraversePath ext2 filename EXT2_ROOT_INODE true symlinkResolve).2.isSome ∧
        flags &&& O_NOFOLLOW ≠ 0) →
      ext2Open pl ext2 filename flags mode fd symlinkResolve =
        (ERR ELOOP, ext2, fd,
          (pl.ext2TraversePath ext2 filename EXT2_ROOT_INODE true symlinkResolve).2)) := by
  unfold ext2Open
  generalize pl.ext2TraversePath ext2 filename EXT2_ROOT_INODE true symlinkResolve = t
  dsimp only
  refine ⟨?_, ?_, ?_⟩
  · rintro ⟨h1, h2, h3⟩
    rw [if_neg (fun h => h1 h.1), if_pos ⟨h1, h3, h2⟩]
  · rintro ⟨h1, h2, h3⟩
    by_cases hs : t.2.isSome = true
    · have hn : ¬ (flags &&& O_NOFOLLOW ≠ 0) := fun h => h3 ⟨hs, h⟩
      rw [if_pos ⟨h1, hs⟩, if_neg hn]
    · rw [if_neg (fun h => hs h.2), if_neg (fun h => h.1 h1), if_pos h1,
        if_neg (not_not.mpr h2)]
  · rintro ⟨h1, h2, h3⟩
    rw [if_pos ⟨h1, h2⟩, if_pos h3]

/-- Claim C10, witness: `O_CREAT|O_EXCL` on a path that resolves gives
`EEXIST`, a plain open of a path that does not resolve gives `ENOENT`; the
volume and the descriptor are as before. -/
theorem ext2Open_existence_errors_witness :
    ext2Open resolvingLayer demoVolume "/hello.txt" (O_CREAT ||| O_EXCL) 0o644
        (freshFd (O_CREAT ||| O_EXCL)) none
      = (ERR EEXIST, demoVolume, freshFd (O_CREAT ||| O_EXCL), none) ∧
    ext2Open danglingLayer demoVolume "/link" 0 0 (freshFd 0) none
      = (ERR ENOENT, demoVolume, freshFd 0, some "/a/b/c") :=
  ⟨(ext2Open_existence_errors resolvingLayer demoVolume "/hello.txt" (O_CREAT ||| O_EXCL) 0o644
      (freshFd (O_CREAT ||| O_EXCL)) none).1 ⟨by decide, by decide, by decide⟩,
   (ext2Open_existence_errors danglingLayer demoVolume "/link" 0 0 (freshFd 0) none).2.1
      ⟨by decide, by decide, by decide⟩⟩

/-! ### `ext2Write`: what it leaves alone -/

/-- Differing in the device only is reflexive. -/
theorem SameVolume.refl (e : Ext2) : SameVolume e e := rfl

/-- Differing in the device only is transitive. -/
theorem SameVolume.trans {a b c : Ext2} (h1 : SameVolume a b) (h2 : SameVolume b c) :
    SameVolume a c := by
  unfold SameVolume at *
  rw [h2, h1]

/-- The open-object table is not part of the device. -/
theorem SameVolume.firstObject {e e1 : Ext2} (h : SameVolume e e1) :
    e1.firstObject = e.firstObject := by
  unfold SameVolume at h; rw [h]

/-- The block size is not part of the device. -/
theorem SameVolume.blockSize {e e1 : Ext2} (h : SameVolume e e1) :
    e1.blockSize = e.blockSize := by
  unfold SameVolume at h; rw [h]

/-- One block I/O of the emission loop touches the device only. -/
theorem ext2WriteIo_same (blocks : List Nat) (tmp : Mem) (c : Consec) (ext2 : Ext2) (i : Nat) :
    SameVolume ext2 (ext2WriteIo blocks tmp c ext2 i).2 := by
  unfold ext2WriteIo
  split <;> rfl

/-- One iteration of the emission loop touches the device only. -/
theorem ext2WriteStep_same (blocks : List Nat) (blocksRequired : Nat) (tmp : Mem)
    (e0 : Ext2) (st : Run (Consec × Ext2)) (i : Nat)
    (h : ∀ x, st = .done x → SameVolume e0 x.2) :
    ∀ x, ext2WriteStep blocks blocksRequired tmp st i = .done x → SameVolume e0 x.2 := by
  intro x hs
  unfold ext2WriteStep at hs
  match st, h with
  | .halt, _ => simp at hs
  | .spin, _ => simp at hs
  | .done (c1, e1), h =>
    have h0 : SameVolume e0 e1 := h (c1, e1) rfl
    simp only at hs
    split_ifs at hs
    · rw [← Run.done.inj hs]; exact h0
    · rw [← Run.done.inj hs]; exact h0.trans (ext2WriteIo_same _ _ _ _ _)
    · rw [← Run.done.inj hs]; exact h0.trans (ext2WriteIo_same _ _ _ _ _)
    · rw [← Run.done.inj hs]; exact h0

/-- Any number of iterations of the emission loop touch the device only. -/
theorem ext2WriteFold_same (blocks : List Nat) (blocksRequired : Nat) (tmp : Mem)
    (e0 : Ext2) (l : List Nat) :
    ∀ (st : Run (Consec × Ext2)), (∀ x, st = .done x → SameVolume e0 x.2) →
    ∀ x, l.foldl (ext2WriteStep blocks blocksRequired tmp) st = .done x → SameVolume e0 x.2 := by
  induction l with
  | nil => intro st h x hs; exact h x hs
  | cons i l ih =>
    intro st h x hs
    exact ih _ (ext2WriteStep_same blocks blocksRequired tmp e0 st i h) x hs

/-- The emission loop touches the device only. -/
theorem ext2WriteEmit_same (ext2 : Ext2) (blocks : List Nat) (blocksRequired : Nat) (tmp : Mem)
    (e : Ext2) (h : ext2WriteEmit ext2 blocks blocksRequired tmp = .done e) :
    SameVolume ext2 e := by
  unfold ext2WriteEmit at h
  obtain ⟨x, hx, rfl⟩ := Run.map_eq_done _ _ _ h
  refine ext2WriteFold_same blocks blocksRequired tmp ext2 _ _ ?_ x hx
  intro y hy
  rw [← Run.done.inj hy]
  exact SameVolume.refl ext2

/-- A successful allocation touches the device only. -/
theorem ext2BlockFind_same (ext2 : Ext2) (group n : Nat) (r : Nat × Ext2)
    (h : ext2BlockFind ext2 group n = .ok r) : SameVolume ext2 r.2 := by
  unfold ext2BlockFind at h
  split at h
  · cases h
  · cases h; rfl

/-- One assignment of the loop of lines 436-441 touches the device only. -/
theorem assignRun_same (inodeNum pib s free : Nat) (st : Ext2 × Ext2Inode × List Nat)
    (i : Nat) : SameVolume st.1 (assignRun inodeNum pib s free st i).1 := rfl

/-- The loop of lines 436-441 touches the device only. -/
theorem assignRun_fold_same (inodeNum pib s free : Nat) (e0 : Ext2) (l : List Nat) :
    ∀ st : Ext2 × Ext2Inode × List Nat, SameVolume e0 st.1 →
      SameVolume e0 (l.foldl (assignRun inodeNum pib s free) st).1 := by
  induction l with
  | nil => intro st h; exact h
  | cons i l ih =>
    intro st h
    exact ih _ (h.trans (assignRun_same inodeNum pib s free st i))

/-- The allocation step of `ext2Write` touches the device only. -/
theorem ext2WriteAlloc_same (ext2 : Ext2) (dir : Ext2OpenFd) (p n : Nat) :
    SameVolume ext2 (ext2WriteAlloc ext2 dir p n).1 := by
  unfold ext2WriteAlloc
  dsimp only
  split
  · rfl
  · apply assignRun_fold_same
    dsimp only
    split
    · next r hr => exact ext2BlockFind_same _ _ _ r hr
    · rfl

/-- The head-block step of `ext2Write` touches the device only. -/
theorem ext2WriteHead_same (ext2 : Ext2) (dir : Ext2OpenFd) (buff : Mem) (limit : Nat) :
    SameVolume ext2 (ext2WriteHead ext2 dir buff limit).1 := by
  unfold ext2WriteHead
  dsimp only
  split <;> rfl

/-- The size update of `ext2Write` touches the device only. -/
theorem ext2WriteSize_same (ext2 : Ext2) (dir : Ext2OpenFd) :
    SameVolume ext2 (ext2WriteSize ext2 dir).1 := by
  unfold ext2WriteSize
  split <;> rfl

/-- The aligned/tail step of `ext2Write` touches the device only. -/
theorem ext2WriteAligned_same (ext2 : Ext2) (dir : Ext2OpenFd) (buff : Mem)
    (left remainder p : Nat) (w : Ext2 × Ext2OpenFd)
    (h : ext2WriteAligned ext2 dir buff left remainder p = .done w) : SameVolume ext2 w.1 := by
  unfold ext2WriteAligned at h
  split at h
  · dsimp only at h
    obtain ⟨e, he, rfl⟩ := Run.map_eq_done _ _ _ h
    exact (ext2WriteAlloc_same _ _ _ _).trans (ext2WriteEmit_same _ _ _ _ e he)
  · rw [← Run.done.inj h]; exact SameVolume.refl ext2

/-- Lines 391-523 of `ext2Write` touch the device only. -/
theorem ext2WriteBody_same (ext2 : Ext2) (dir : Ext2OpenFd) (buff : Mem) (limit : Nat)
    (w : Ext2 × Ext2OpenFd) (h : ext2WriteBody ext2 dir buff limit = .done w) :
    SameVolume ext2 w.1 := by
  unfold ext2WriteBody at h
  dsimp only at h
  obtain ⟨a, ha, rfl⟩ := Run.map_eq_done _ _ _ h
  exact ((ext2WriteHead_same _ _ _ _).trans (ext2WriteAligned_same _ _ _ _ _ _ a ha)).trans
    (ext2WriteSize_same _ _)

/-- Looking an object up after a store through its pointer. -/
theorem findObject_updateObject (objs : List Ext2FoundObject) (obj : Nat)
    (f : Ext2FoundObject → Ext2FoundObject) (hf : ∀ o, (f o).inode = o.inode) :
    findObject (updateObject objs obj f) obj = (findObject objs obj).map f := by
  induction objs with
  | nil => rfl
  | cons o rest ih =>
    unfold updateObject
    by_cases h : o.inode = obj
    · rw [if_pos h]
      unfold findObject
      rw [List.find?_cons_of_pos _ (by simp [hf, h]), List.find?_cons_of_pos _ (by simp [h])]
      rfl
    · rw [if_neg h]
      unfold findObject at ih ⊢
      rw [List.find?_cons_of_neg _ (by simp [h]), List.find?_cons_of_neg _ (by simp [h])]
      exact ih

/-- After the invalidation of lines 376-378 the cache list of the object is
empty. -/
theorem cacheOf_cacheInvalidate (ext2 : Ext2) (obj : Nat) :
    cacheOf (cacheInvalidate ext2 obj) obj = [] := by
  unfold cacheOf cacheInvalidate
  dsimp only
  rw [findObject_updateObject ext2.firstObject obj (fun o => { o with firstCacheObj := [] })
    (fun _ => rfl)]
  cases findObject ext2.firstObject obj <;> rfl

/-- Cache lists are not part of the device. -/
theorem cacheOf_same {e e1 : Ext2} (h : SameVolume e e1) (obj : Nat) :
    cacheOf e1 obj = cacheOf e obj := by
  unfold cacheOf; rw [h.firstObject]

/-- The lookup of lines 246-252 finds nothing in an empty cache list. -/
theorem cacheSeek_nil (blockIndexStart blocksRequired : Nat) :
    cacheSeek blockIndexStart blocksRequired [] = [] := rfl

/-! ### `ext2Write`: append, cache, size, out of space -/

/-- Whenever `ext2Write` returns through a descriptor whose flags hold
`O_APPEND`, the cursor of the descriptor is the one from before the call. -/
theorem ext2Write_append_ptr (ext2 : Ext2) (fd : OpenFile) (dir : Ext2OpenFd) (buff : Mem)
    (limit : Nat) (r : Nat × Ext2 × OpenFile)
    (hd : fd.dir = some dir) (ha : fd.flags &&& O_APPEND ≠ 0)
    (h : ext2Write ext2 fd buff limit = .done r) :
    ∃ d, r.2.2.dir = some d ∧ d.ptr = dir.ptr := by
  unfold ext2Write at h
  rw [hd] at h
  simp only [ext2CachePush] at h
  by_cases hp : (ext2InodeFetch ext2 dir.inodeNum).permission &&& S_IFDIR ≠ 0
  · rw [if_pos hp] at h
    rw [← Run.done.inj h]
    exact ⟨_, rfl, rfl⟩
  · rw [if_neg hp, if_pos ha] at h
    obtain ⟨w, -, hr⟩ := Run.map_eq_done _ _ _ h
    rw [← hr]
    refine ⟨_, rfl, ?_⟩
    rw [if_pos ha]


/-- What `ext2Write` returns is the byte count it was given or `EISDIR`. -/
theorem ext2Write_ret (ext2 : Ext2) (fd : OpenFile) (buff : Mem) (limit : Nat)
    (r : Nat × Ext2 × OpenFile) (h : ext2Write ext2 fd buff limit = .done r) :
    r.1 = limit ∨ r.1 = ERR EISDIR := by
  unfold ext2Write at h
  split at h
  · cases h
  · next dir0 _ =>
    dsimp only at h
    by_cases hp : (ext2CachePush ext2 dir0).inode.permission &&& S_IFDIR ≠ 0
    · rw [if_pos hp] at h
      rw [← Run.done.inj h]; exact Or.inr rfl
    · rw [if_neg hp] at h
      obtain ⟨w, -, hr⟩ := Run.map_eq_done _ _ _ h
      rw [← hr]; exact Or.inl rfl


/-- Whenever `ext2Write` returns, the cache list of the object of the descriptor
is empty. -/
theorem ext2Write_cache_empty (ext2 : Ext2) (fd : OpenFile) (dir : Ext2OpenFd)
    (buff : Mem) (limit : Nat) (r : Nat × Ext2 × OpenFile)
    (hd : fd.dir = some dir) (h : ext2Write ext2 fd buff limit = .done r) :
    cacheOf r.2.1 dir.globalObject = [] := by
  unfold ext2Write at h
  rw [hd] at h
  simp only [ext2CachePush] at h
  by_cases hp : (ext2InodeFetch ext2 dir.inodeNum).permission &&& S_IFDIR ≠ 0
  · rw [if_pos hp] at h
    rw [← Run.done.inj h]
    exact cacheOf_cacheInvalidate ext2 dir.globalObject
  · rw [if_neg hp] at h
    obtain ⟨w, hw, hr⟩ := Run.map_eq_done _ _ _ h
    rw [← hr]
    dsimp only
    rw [cacheOf_same (ext2WriteBody_same _ _ _ _ w hw)]
    exact cacheOf_cacheInvalidate ext2 dir.globalObject


/-- Claim C3, failing inputs: a write of 4096 bytes at offset `2^32 - 4096` of a
file of that size returns 4096 and leaves the cursor at `2^32`, yet the size
reported afterwards is 0; a write of 10 bytes at offset 200 of a file of
`2^32 + 100` bytes ends inside the file and changes the reported size to
`2^32 + 210`. -/
theorem ext2Write_size_wraps :
    (fileSizeOf (setCursor (demoFd O_RDWR alignedBigInode) (2 ^ 32 - 4096)) = 2 ^ 32 - 4096 ∧
     (ext2Write (withInode demoVolume alignedBigInode)
        (setCursor (demoFd O_RDWR alignedBigInode) (2 ^ 32 - 4096))
        (fun _ => 65) 4096).map (fun r => (r.1, cursorOf r.2.2, fileSizeOf r.2.2))
       = .done (4096, 2 ^ 32, 0)) ∧
    (fileSizeOf (setCursor (demoFd O_RDWR hugeInode) 200) = 2 ^ 32 + 100 ∧
     (ext2Write (withInode demoVolume hugeInode) (setCursor (demoFd O_RDWR hugeInode) 200)
        (fun _ => 65) 10).map (fun r => (r.1, cursorOf r.2.2, fileSizeOf r.2.2))
       = .done (10, 210, 2 ^ 32 + 210)) := by
  decide!

/-- Claim C6, failing input: on a volume without a free block the allocator
fails with `ENOSPC`, and the write of one byte to an empty file that needed the
block returns 1, the byte count, and records a size of 1. -/
theorem ext2Write_swallows_ENOSPC :
    allocFailure (ext2BlockFind fullVolume (INODE_TO_BLOCK_GROUP fullVolume 12) 1)
      = some ENOSPC ∧
    (ext2Write fullVolume (demoFd O_WRONLY (emptyInode 0x81A4)) (fun _ => 65) 1).map
      (fun r => (r.1, fileSizeOf r.2.2)) = .done (1, 1) := by
  decide!

/-! ### `ext2ReadInner` and `ext2Read`: what they deliver -/

/-- Byte address of a block byte, with the sector arithmetic of `BLOCK_TO_LBA` carried out. -/
theorem blockByte_eq (ext2 : Ext2) (hs : SECTOR_SIZE ∣ ext2.blockSize) (b j : Nat) :
    blockByte ext2 b j = ext2.offsetBase * SECTOR_SIZE + b * ext2.blockSize + j := by
  unfold blockByte BLOCK_TO_LBA
  obtain ⟨q, hq⟩ := hs
  rw [hq, ← Nat.mul_assoc, Nat.mul_comm (b * SECTOR_SIZE) q, Nat.mul_comm b SECTOR_SIZE,
    ← Nat.mul_assoc, Nat.mul_comm q SECTOR_SIZE, Nat.mul_assoc,
    Nat.mul_div_cancel_left _ (by decide : 0 < SECTOR_SIZE)]
  ring

/-- A whole number of blocks is a whole number of sectors. -/
theorem sectors_of_blocks (bs n : Nat) (hs : SECTOR_SIZE ∣ bs) :
    n * bs / SECTOR_SIZE * SECTOR_SIZE = n * bs :=
  Nat.div_mul_cancel (Dvd.dvd.mul_left hs n)

/-- Pointwise reading of `getDiskBytes`. -/
theorem getDiskBytes_apply (ext2 : Ext2) (dst : Mem) (d lba sectors a : Nat) :
    getDiskBytes ext2 dst d lba sectors a =
      if d ≤ a ∧ a < d + sectors * SECTOR_SIZE then ext2.dev.bytes (a - d + lba * SECTOR_SIZE)
      else dst a := rfl

/-- Reading block `m` alone stages it. -/
theorem staged_single (ext2 : Ext2) (blocks : List Nat) (m : Nat) (tmp : Mem)
    (hs : SECTOR_SIZE ∣ ext2.blockSize) (hgood : Staged ext2 blocks m tmp) :
    Staged ext2 blocks (m + 1)
      (getDiskBytes ext2 tmp (m * ext2.blockSize) (BLOCK_TO_LBA ext2 (blockAt blocks m))
        (ext2.blockSize / SECTOR_SIZE)) := by
  intro k hk j hj
  rw [getDiskBytes_apply, Nat.div_mul_cancel hs]
  by_cases hkm : k < m
  · have h1 : (k + 1) * ext2.blockSize ≤ m * ext2.blockSize := Nat.mul_le_mul_right _ hkm
    rw [Nat.add_mul, Nat.one_mul] at h1
    rw [if_neg (by omega)]
    exact hgood k hkm j hj
  · have hkeq : k = m := by omega
    subst hkeq
    rw [if_pos (by omega)]
    congr 1
    unfold blockByte
    omega

/-- Reading the run `s .. m` with one block I/O stages all its blocks. -/
theorem staged_run (ext2 : Ext2) (blocks : List Nat) (s m : Nat) (tmp : Mem)
    (hs : SECTOR_SIZE ∣ ext2.blockSize) (hsm : s < m) (hgood : Staged ext2 blocks s tmp)
    (hrun : ∀ k, s ≤ k → k ≤ m → blockAt blocks k = blockAt blocks s + (k - s)) :
    Staged ext2 blocks (m + 1)
      (getDiskBytes ext2 tmp (s * ext2.blockSize) (BLOCK_TO_LBA ext2 (blockAt blocks s))
        ((m - s + 1) * ext2.blockSize / SECTOR_SIZE)) := by
  intro k hk j hj
  rw [getDiskBytes_apply, sectors_of_blocks _ _ hs]
  by_cases hks : k < s
  · have h1 : (k + 1) * ext2.blockSize ≤ s * ext2.blockSize := Nat.mul_le_mul_right _ hks
    rw [Nat.add_mul, Nat.one_mul] at h1
    rw [if_neg (by omega)]
    exact hgood k hks j hj
  · have hsk : s ≤ k := by omega
    have hkm : k ≤ m := by omega
    have h1 : s * ext2.blockSize ≤ k * ext2.blockSize := Nat.mul_le_mul_right _ hsk
    have h2 : (k + 1) * ext2.blockSize ≤ (m + 1) * ext2.blockSize :=
      Nat.mul_le_mul_right _ (by omega)
    have h3 : (m - s + 1) * ext2.blockSize = (m + 1) * ext2.blockSize - s * ext2.blockSize := by
      rw [← Nat.sub_mul]; congr 1; omega
    have h4 : s * ext2.blockSize ≤ (m + 1) * ext2.blockSize :=
      Nat.mul_le_mul_right _ (by omega)
    rw [Nat.add_mul, Nat.one_mul] at h2
    rw [if_pos (by omega)]
    congr 1
    have hb := blockByte_eq ext2 hs (blockAt blocks s) 0
    unfold blockByte at hb
    rw [blockByte_eq ext2 hs, hrun k hsk hkm, Nat.add_mul, Nat.sub_mul]
    omega

/-- One iteration of the loop of `ext2ReadInner` keeps the invariant. -/
theorem ReadInv_step (ext2 : Ext2) (blocks : List Nat) (n m : Nat)
    (hs : SECTOR_SIZE ∣ ext2.blockSize)
    (hnz : ∀ k, k < n → blockAt blocks k ≠ 0 ∧ blockAt blocks k + 1 < 2 ^ 32)
    (hm : m < n) (st : Consec × Mem) (h : ReadInv ext2 blocks n m st) :
    ReadInv ext2 blocks n (m + 1) (ext2ReadInnerStep ext2 blocks n st m) := by
  obtain ⟨hstop, hend, hcase⟩ := h
  have hb := hnz m hm
  have hmod : (blockAt blocks m + 1) % 2 ^ 32 = blockAt blocks m + 1 := Nat.mod_eq_of_lt hb.2
  unfold ext2ReadInnerStep
  rw [hstop, if_neg (by simp), if_neg hb.1, hmod]
  rcases hcase with ⟨hcs, hcb, hgood⟩ | ⟨s, hcs, hsm, hmn, hcb, hgood, hrun⟩
  · rw [if_pos (by rw [hcs]; decide)]
    by_cases hc : ¬ (m + 1 = n) ∧ blockAt blocks (m + 1) = blockAt blocks m + 1
    · rw [if_pos hc]
      refine ⟨hstop, hend, Or.inr ⟨m, rfl, Nat.lt_succ_self m, by omega, hcb, hgood, ?_⟩⟩
      intro k hk1 hk2
      have : k = m ∨ k = m + 1 := by omega
      rcases this with rfl | rfl
      · simp
      · rw [hc.2]; simp
    · rw [if_neg hc]
      unfold ext2ReadInnerIo
      rw [if_neg (by rw [hend]; simp)]
      refine ⟨rfl, rfl, Or.inl ⟨rfl, by simp [hcb], ?_⟩⟩
      dsimp only
      rw [hcb]
      exact staged_single ext2 blocks m st.2 hs hgood
  · rw [if_neg (by rw [hcs]; omega)]
    by_cases hc : m + 1 = n ∨ blockAt blocks (m + 1) ≠ blockAt blocks m + 1
    · rw [if_pos hc]
      unfold ext2ReadInnerIo
      dsimp only
      rw [if_pos (by omega)]
      have hneed : ((m : Int) - st.1.consecStart + 1).toNat = m - s + 1 := by
        rw [hcs]; omega
      rw [hneed, hcs, hcb]
      refine ⟨rfl, rfl, Or.inl ⟨rfl, by simp; omega, ?_⟩⟩
      simp only [Int.toNat_ofNat]
      exact staged_run ext2 blocks s m st.2 hs hsm hgood hrun
    · rw [if_neg hc]
      have hc1 : ¬ (m + 1 = n) := fun h => hc (Or.inl h)
      have hc2 : blockAt blocks (m + 1) = blockAt blocks m + 1 := by
        by_contra h; exact hc (Or.inr h)
      refine ⟨hstop, hend, Or.inr ⟨s, hcs, by omega, by omega, hcb, hgood, ?_⟩⟩
      intro k hk1 hk2
      by_cases hkm : k ≤ m
      · exact hrun k hk1 hkm
      · have : k = m + 1 := by omega
        subst this
        rw [hc2, hrun m (by omega) (le_refl m)]
        omega

/-- Staged blocks stay staged for a shorter prefix. -/
theorem Staged.mono {ext2 : Ext2} {blocks : List Nat} {m n : Nat} {tmp : Mem}
    (h : Staged ext2 blocks n tmp) (hmn : m ≤ n) : Staged ext2 blocks m tmp :=
  fun k hk j hj => h k (by omega) j hj

/-- The invariant holds before every index up to `n`. -/
theorem ReadInv_fold (ext2 : Ext2) (blocks : List Nat) (n : Nat)
    (hs : SECTOR_SIZE ∣ ext2.blockSize)
    (hnz : ∀ k, k < n → blockAt blocks k ≠ 0 ∧ blockAt blocks k + 1 < 2 ^ 32) :
    ∀ m, m ≤ n → ReadInv ext2 blocks n m
      ((List.range m).foldl (ext2ReadInnerStep ext2 blocks n) (Consec.init, ext2.dev.heap)) := by
  intro m
  induction m with
  | zero =>
    intro _
    refine ⟨rfl, rfl, Or.inl ⟨rfl, rfl, ?_⟩⟩
    intro k hk
    omega
  | succ m ih =>
    intro hm
    rw [List.range_succ, List.foldl_append]
    exact ReadInv_step ext2 blocks n m hs hnz (by omega) _ (ih (by omega))

/-- The loop of `ext2ReadInner` stages every block of a chain whose first `n` entries are resolved. -/
theorem ext2ReadInnerLoop_staged (ext2 : Ext2) (blocks : List Nat) (n : Nat)
    (hs : SECTOR_SIZE ∣ ext2.blockSize)
    (hnz : ∀ k, k < n → blockAt blocks k ≠ 0 ∧ blockAt blocks k + 1 < 2 ^ 32) :
    Staged ext2 blocks n (ext2ReadInnerLoop ext2 blocks n) := by
  unfold ext2ReadInnerLoop
  rw [List.range_succ, List.foldl_append]
  obtain ⟨hstop, hend, hcase⟩ := ReadInv_fold ext2 blocks n hs hnz n (le_refl n)
  generalize (List.range n).foldl (ext2ReadInnerStep ext2 blocks n) (Consec.init, ext2.dev.heap)
    = st at hstop hend hcase
  rcases hcase with ⟨hcs, hcb, hgood⟩ | ⟨s, -, -, hlt, -⟩
  · simp only [List.foldl_cons, List.foldl_nil]
    unfold ext2ReadInnerStep
    rw [hstop, if_neg (by simp)]
    split_ifs
    · exact hgood
    · exact hgood
    · unfold ext2ReadInnerIo
      rw [if_neg (by rw [hend]; simp)]
      dsimp only
      rw [hcb]
      exact (staged_single ext2 blocks n st.2 hs hgood).mono (Nat.le_succ n)
    · rw [hcs] at *
      omega
    · exact hgood
  · omega

/-- Entry `k` of the chain is the slot of file block `curr + k`. -/
theorem blockAt_chain (dir : Ext2OpenFd) (curr blocks k : Nat) (hk : k ≤ blocks) :
    blockAt (ext2BlockChain dir curr blocks) k = dir.inode.blocks (curr + k) := by
  unfold blockAt ext2BlockChain ext2BlockFetch
  rw [List.getD_eq_getElem?_getD, List.getElem?_map, List.getElem?_range (by omega)]
  rfl

/-- `MIN` is at most its first argument. -/
theorem MIN_le_left (a b : Nat) : MIN a b ≤ a := by
  unfold MIN; split <;> omega

/-- `MIN` is at most its second argument. -/
theorem MIN_le_right (a b : Nat) : MIN a b ≤ b := by
  unfold MIN; split <;> omega

/-- `MIN` is the minimum. -/
theorem MIN_eq (a b : Nat) : MIN a b = min a b := by
  unfold MIN; split <;> omega

/-- What one call of `ext2ReadInner` does: it returns `limit`, advances the
cursor by `limit`, leaves the device alone, and when the chain of the range is
resolved it fills `buff[off .. off + limit)` with the bytes the device holds
for the file offsets `ptr .. ptr + limit` and nothing else. -/
theorem ext2ReadInner_spec (ext2 : Ext2) (dir : Ext2OpenFd) (buff : Mem) (off limit : Nat) :
    (ext2ReadInner ext2 dir buff off limit).1 = limit ∧
    (ext2ReadInner ext2 dir buff off limit).2.2.1 = { dir with ptr := dir.ptr + limit } ∧
    (ext2ReadInner ext2 dir buff off limit).2.1 =
      ext2CacheAddSecurely ext2 dir.globalObject
        (ext2ReadInnerLoop ext2
          (ext2BlockChain dir (dir.ptr / ext2.blockSize) (DivRoundUp limit ext2.blockSize))
          (DivRoundUp limit ext2.blockSize))
        (dir.ptr / ext2.blockSize) (DivRoundUp limit ext2.blockSize) ∧
    (∀ a, a < off ∨ off + limit ≤ a → (ext2ReadInner ext2 dir buff off limit).2.2.2 a = buff a) ∧
    (0 < ext2.blockSize → SECTOR_SIZE ∣ ext2.blockSize →
      dir.ptr % ext2.blockSize + limit ≤ DivRoundUp limit ext2.blockSize * ext2.blockSize →
      (∀ k, k < DivRoundUp limit ext2.blockSize →
        dir.inode.blocks (dir.ptr / ext2.blockSize + k) ≠ 0 ∧
        dir.inode.blocks (dir.ptr / ext2.blockSize + k) + 1 < 2 ^ 32) →
      ∀ j, j < limit → (ext2ReadInner ext2 dir buff off limit).2.2.2 (off + j) =
        ext2.dev.bytes (fileByte ext2 dir.inode (dir.ptr + j))) := by
  refine ⟨rfl, rfl, rfl, ?_, ?_⟩
  · intro a ha
    unfold ext2ReadInner
    dsimp only
    have hm := MIN_le_right (ext2.blockSize - dir.ptr % ext2.blockSize) limit
    split_ifs with h1
    · unfold memcpy
      rw [if_neg (by omega), if_neg (by omega)]
    · unfold memcpy
      rw [if_neg (by omega)]
  · intro hbs hs hfit hnz j hj
    set n := DivRoundUp limit ext2.blockSize with hn
    set blocks := ext2BlockChain dir (dir.ptr / ext2.blockSize) n with hblocks
    have hst : Staged ext2 blocks n (ext2ReadInnerLoop ext2 blocks n) := by
      apply ext2ReadInnerLoop_staged ext2 blocks n hs
      intro k hk
      rw [hblocks, blockAt_chain dir _ n k (by omega)]
      exact hnz k hk
    have hrem : dir.ptr % ext2.blockSize < ext2.blockSize := Nat.mod_lt _ hbs
    -- the two copies together deliver `tmp[rem + j]`
    have hcopy : (ext2ReadInner ext2 dir buff off limit).2.2.2 (off + j) =
        ext2ReadInnerLoop ext2 blocks n (dir.ptr % ext2.blockSize + j) := by
      unfold ext2ReadInner
      dsimp only
      rw [MIN_eq]
      split_ifs with h1
      · unfold memcpy
        by_cases hj1 : j < min (ext2.blockSize - dir.ptr % ext2.blockSize) limit
        · rw [if_neg (by omega), if_pos (by omega)]
          congr 1
          omega
        · rw [if_pos (by omega)]
          congr 1
          omega
      · unfold memcpy
        rw [if_pos (by omega)]
        congr 1
        omega
    rw [hcopy]
    have hlt : dir.ptr % ext2.blockSize + j < n * ext2.blockSize := by omega
    have hk : (dir.ptr % ext2.blockSize + j) / ext2.blockSize < n :=
      (Nat.div_lt_iff_lt_mul hbs).mpr hlt
    have hdecomp := Nat.div_add_mod (dir.ptr % ext2.blockSize + j) ext2.blockSize
    have hval := hst _ hk _ (Nat.mod_lt (dir.ptr % ext2.blockSize + j) hbs)
    rw [Nat.mul_comm] at hval
    rw [hdecomp] at hval
    rw [hval, hblocks, blockAt_chain dir _ n _ (by omega)]
    unfold fileByte
    have hp := Nat.div_add_mod dir.ptr ext2.blockSize
    have h1 : (dir.ptr + j) / ext2.blockSize =
        dir.ptr / ext2.blockSize + (dir.ptr % ext2.blockSize + j) / ext2.blockSize := by
      conv_lhs => rw [← hp, Nat.add_assoc, Nat.mul_add_div hbs]
    have h2 : (dir.ptr + j) % ext2.blockSize = (dir.ptr % ext2.blockSize + j) % ext2.blockSize := by
      conv_lhs => rw [← hp, Nat.add_assoc, Nat.mul_add_mod]
    rw [h1, h2]

/-- Differing in the open-object table only is reflexive. -/
theorem sameDevice_refl (e : Ext2) : SameDevice e e := rfl

/-- Differing in the open-object table only is transitive. -/
theorem sameDevice_trans {a b c : Ext2} (h1 : SameDevice a b) (h2 : SameDevice b c) :
    SameDevice a c := by
  unfold SameDevice at *
  rw [h2, h1]

/-- The device is not part of the open-object table. -/
theorem sameDevice_dev {e e1 : Ext2} (h : SameDevice e e1) : e1.dev = e.dev := by
  unfold SameDevice at h; rw [h]

/-- The block size is not part of the open-object table. -/
theorem sameDevice_blockSize {e e1 : Ext2} (h : SameDevice e e1) :
    e1.blockSize = e.blockSize := by
  unfold SameDevice at h; rw [h]

/-- Byte addresses do not depend on the open-object table. -/
theorem sameDevice_fileByte {e e1 : Ext2} (h : SameDevice e e1) (inode : Ext2Inode) (p : Nat) :
    fileByte e1 inode p = fileByte e inode p := by
  unfold SameDevice at h; rw [h]; rfl

/-- `ext2ReadInner` changes the open-object table only (it adds a cache entry). -/
theorem ext2ReadInner_sameDevice (ext2 : Ext2) (dir : Ext2OpenFd) (buff : Mem) (off limit : Nat) :
    SameDevice ext2 (ext2ReadInner ext2 dir buff off limit).2.1 := rfl

/-- A positive count needs at least one block. -/
theorem DivRoundUp_pos (a b : Nat) (ha : 0 < a) (hb : 0 < b) : 0 < DivRoundUp a b := by
  unfold DivRoundUp
  exact Nat.div_pos (by omega) hb

/-- The rounded-up block count covers the byte count. -/
theorem DivRoundUp_mul_ge (a b : Nat) (hb : 0 < b) : a ≤ DivRoundUp a b * b := by
  unfold DivRoundUp
  have h1 := Nat.div_add_mod (a + b - 1) b
  have h2 := Nat.mod_lt (a + b - 1) hb
  rw [Nat.mul_comm] at h1
  omega

/-- The rounded-up block count exceeds the byte count by less than a block. -/
theorem DivRoundUp_mul_lt (a b : Nat) (ha : 0 < a) (hb : 0 < b) :
    DivRoundUp a b * b < a + b := by
  unfold DivRoundUp
  have h1 := Nat.div_add_mod (a + b - 1) b
  rw [Nat.mul_comm] at h1
  omega

/-- The rounded-up block count of a byte count between `(n-1)` and `n` blocks is `n`. -/
theorem DivRoundUp_eq (a b n : Nat) (hb : 0 < b) (h1 : (n - 1) * b < a) (h2 : a ≤ n * b) :
    DivRoundUp a b = n := by
  unfold DivRoundUp
  have hn : 0 < n := by
    rcases Nat.eq_zero_or_pos n with h | h
    · subst h; simp at h2; omega
    · exact h
  apply Nat.div_eq_of_lt_le
  · have : n * b = (n - 1) * b + b := by
      conv_lhs => rw [← Nat.sub_add_cancel hn, Nat.add_mul, Nat.one_mul]
    omega
  · rw [Nat.add_mul, Nat.one_mul]; omega

/-- One iteration of the loop of `ext2Read` without a cache entry ahead that
delivers all that is left: the loop ends with that call of `ext2ReadInner`. -/
theorem ext2ReadLoop_last (limit B start fuel i left : Nat) (ext2 : Ext2) (dir : Ext2OpenFd)
    (buff : Mem) (hi : i < B + 1)
    (hleft : left ≤ (if B - i = 0 then 1 else B - i) * ext2.blockSize
        - dir.ptr % ext2.blockSize) :
    ext2ReadLoop limit B start (fuel + 1) i [] left ext2 dir buff =
      .done ((ext2ReadInner ext2 dir buff (limit - left) left).2.1,
        (ext2ReadInner ext2 dir buff (limit - left) left).2.2.1,
        (ext2ReadInner ext2 dir buff (limit - left) left).2.2.2) := by
  unfold ext2ReadLoop
  rw [if_neg (by omega)]
  dsimp only
  have hmin : MIN left ((if B - i = 0 then 1 else B - i) * ext2.blockSize
      - dir.ptr % ext2.blockSize) = left := by
    rw [MIN_eq]; omega
  rw [hmin, if_neg (by simp [(ext2ReadInner_spec ext2 dir buff (limit - left) left).1]),
    if_pos (by omega)]

/-- One iteration of the loop of `ext2Read` without a cache entry ahead that
does not deliver all that is left: the loop goes on at the next block
boundary. -/
theorem ext2ReadLoop_more (limit B start fuel i left : Nat) (ext2 : Ext2) (dir : Ext2OpenFd)
    (buff : Mem) (hi : i < B + 1) (toCopy : Nat)
    (htc : toCopy = (if B - i = 0 then 1 else B - i) * ext2.blockSize
        - dir.ptr % ext2.blockSize)
    (hleft : toCopy < left) :
    ext2ReadLoop limit B start (fuel + 1) i [] left ext2 dir buff =
      ext2ReadLoop limit B start fuel (i + (if B - i = 0 then 1 else B - i)) [] (left - toCopy)
        (ext2ReadInner ext2 dir buff (limit - left) toCopy).2.1
        (ext2ReadInner ext2 dir buff (limit - left) toCopy).2.2.1
        (ext2ReadInner ext2 dir buff (limit - left) toCopy).2.2.2 := by
  conv_lhs => unfold ext2ReadLoop
  rw [if_neg (by omega)]
  dsimp only
  have hmin : MIN left ((if B - i = 0 then 1 else B - i) * ext2.blockSize
      - dir.ptr % ext2.blockSize) = toCopy := by
    rw [MIN_eq]; omega
  rw [hmin, if_neg (by simp [(ext2ReadInner_spec ext2 dir buff (limit - left) toCopy).1]),
    if_neg (by omega)]

/-- A resolved range gives resolved entries to the chain that covers it. -/
theorem resolved_chain (ext2 : Ext2) (inode : Ext2Inode) (p n m : Nat)
    (_hbs : 0 < ext2.blockSize) (hr : Resolved ext2 inode p n)
    (hm : (m - 1) * ext2.blockSize + p % ext2.blockSize < p % ext2.blockSize + n) :
    ∀ k, k < m → inode.blocks (p / ext2.blockSize + k) ≠ 0 ∧
      inode.blocks (p / ext2.blockSize + k) + 1 < 2 ^ 32 := by
  intro k hk
  apply hr _ (Nat.le_add_right _ _)
  have hp := Nat.div_add_mod p ext2.blockSize
  have h1 : k * ext2.blockSize ≤ (m - 1) * ext2.blockSize :=
    Nat.mul_le_mul_right _ (by omega)
  rw [Nat.add_mul]
  rw [Nat.mul_comm] at hp
  omega

/-- The loop of `ext2Read` over an empty cache list: it returns, the cursor
has advanced by `limit`, the device is as before, and the buffer holds in
`[0, limit)` the bytes the device holds for the file offsets
`ptr .. ptr + limit`, the rest of the buffer being as before. -/
theorem ext2ReadLoop_uncached (limit fuel : Nat) (ext2 : Ext2) (dir : Ext2OpenFd) (buff : Mem)
    (hbs : 0 < ext2.blockSize) (hs : SECTOR_SIZE ∣ ext2.blockSize) (hl : 0 < limit)
    (hr : Resolved ext2 dir.inode dir.ptr limit) :
    ∃ e1 out,
      ext2ReadLoop limit (DivRoundUp limit ext2.blockSize) (dir.ptr / ext2.blockSize)
          (fuel + 2) 0 [] limit ext2 dir buff
        = .done (e1, { dir with ptr := dir.ptr + limit }, out) ∧
      SameDevice ext2 e1 ∧
      (∀ j, j < limit → out j = ext2.dev.bytes (fileByte ext2 dir.inode (dir.ptr + j))) ∧
      (∀ a, limit ≤ a → out a = buff a) := by
  have hB := DivRoundUp_pos limit ext2.blockSize hl hbs
  have hge := DivRoundUp_mul_ge limit ext2.blockSize hbs
  have hlt := DivRoundUp_mul_lt limit ext2.blockSize hl hbs
  have hrem := Nat.mod_lt dir.ptr hbs
  obtain ⟨B, hBdef⟩ : ∃ B, B = DivRoundUp limit ext2.blockSize := ⟨_, rfl⟩
  rw [← hBdef] at hB hge hlt ⊢
  have hB1 : (B - 1) * ext2.blockSize + ext2.blockSize = B * ext2.blockSize := by
    conv_rhs => rw [← Nat.sub_add_cancel hB, Nat.add_mul, Nat.one_mul]
  have hif : (if B - 0 = 0 then 1 else B - 0) = B := by
    rw [if_neg (by omega)]; omega
  by_cases hcase : limit ≤ B * ext2.blockSize - dir.ptr % ext2.blockSize
  · -- one call of `ext2ReadInner` delivers everything
    have hloop := ext2ReadLoop_last limit B (dir.ptr / ext2.blockSize) (fuel + 1) 0 limit ext2
      dir buff (by omega) (by rw [hif]; exact hcase)
    rw [Nat.sub_self] at hloop
    obtain ⟨-, h2, -, h4, h5⟩ := ext2ReadInner_spec ext2 dir buff 0 limit
    rw [← hBdef] at h5
    refine ⟨(ext2ReadInner ext2 dir buff 0 limit).2.1,
      (ext2ReadInner ext2 dir buff 0 limit).2.2.2, ?_,
      ext2ReadInner_sameDevice ext2 dir buff 0 limit, ?_, ?_⟩
    · rw [hloop, h2]
    · intro j hj
      have := h5 hbs hs (by omega)
        (resolved_chain ext2 dir.inode dir.ptr limit B hbs hr (by omega)) j hj
      rw [Nat.zero_add] at this
      exact this
    · intro a ha
      exact h4 a (Or.inr (by omega))
  · -- a first call up to the block boundary, a second call for the tail
    obtain ⟨toCopy, htc⟩ : ∃ t, t = B * ext2.blockSize - dir.ptr % ext2.blockSize := ⟨_, rfl⟩
    rw [← htc] at hcase
    have hc : toCopy < limit := by omega
    have hloop := ext2ReadLoop_more limit B (dir.ptr / ext2.blockSize) (fuel + 1) 0 limit ext2
      dir buff (by omega) toCopy (by rw [hif]; exact htc) hc
    rw [Nat.sub_self, hif, Nat.zero_add] at hloop
    obtain ⟨-, h2, -, h4, h5⟩ := ext2ReadInner_spec ext2 dir buff 0 toCopy
    have hsd : SameDevice ext2 (ext2ReadInner ext2 dir buff 0 toCopy).2.1 :=
      ext2ReadInner_sameDevice ext2 dir buff 0 toCopy
    generalize ext2ReadInner ext2 dir buff 0 toCopy = r1 at hloop h2 h4 h5 hsd
    obtain ⟨r1a, e1, d1, b1⟩ := r1
    dsimp only at hloop h2 h4 h5 hsd
    subst h2
    have hpt : (dir.ptr / ext2.blockSize + B) * ext2.blockSize = dir.ptr + toCopy := by
      have hp := Nat.div_add_mod dir.ptr ext2.blockSize
      rw [Nat.add_mul, Nat.mul_comm _ ext2.blockSize]
      omega
    have hmod1 : (dir.ptr + toCopy) % e1.blockSize = 0 := by
      rw [sameDevice_blockSize hsd, ← hpt]; exact Nat.mul_mod_left _ _
    have hdiv1 : (dir.ptr + toCopy) / e1.blockSize = dir.ptr / ext2.blockSize + B := by
      rw [sameDevice_blockSize hsd, ← hpt]; exact Nat.mul_div_cancel _ hbs
    have hloop2 := ext2ReadLoop_last limit B (dir.ptr / ext2.blockSize) fuel B (limit - toCopy)
      e1 { dir with ptr := dir.ptr + toCopy } b1 (by omega)
      (by rw [Nat.sub_self, if_pos rfl, hmod1, sameDevice_blockSize hsd]; omega)
    have hoff : limit - (limit - toCopy) = toCopy := by omega
    rw [hoff] at hloop2
    obtain ⟨-, g2, -, g4, g5⟩ :=
      ext2ReadInner_spec e1 { dir with ptr := dir.ptr + toCopy } b1 toCopy (limit - toCopy)
    dsimp only at g2 g5
    have hsum : dir.ptr + toCopy + (limit - toCopy) = dir.ptr + limit := by omega
    rw [hsum] at g2
    refine ⟨(ext2ReadInner e1 { dir with ptr := dir.ptr + toCopy } b1 toCopy
        (limit - toCopy)).2.1,
      (ext2ReadInner e1 { dir with ptr := dir.ptr + toCopy } b1 toCopy (limit - toCopy)).2.2.2,
      ?_, sameDevice_trans hsd (ext2ReadInner_sameDevice _ _ _ _ _), ?_, ?_⟩
    · rw [hloop, hloop2, g2]
    · intro j hj
      by_cases hj1 : j < toCopy
      · rw [g4 j (Or.inl hj1)]
        have hdiv : DivRoundUp toCopy ext2.blockSize = B :=
          DivRoundUp_eq toCopy ext2.blockSize B hbs (by omega) (by omega)
        rw [hdiv] at h5
        have := h5 hbs hs (by omega)
          (resolved_chain ext2 dir.inode dir.ptr limit B hbs hr (by omega)) j hj1
        rw [Nat.zero_add] at this
        exact this
      · have hlast : DivRoundUp (limit - toCopy) e1.blockSize = 1 := by
          rw [sameDevice_blockSize hsd]
          exact DivRoundUp_eq _ _ 1 hbs (by omega) (by omega)
        rw [hlast, hmod1, hdiv1] at g5
        have := g5 (by rw [sameDevice_blockSize hsd]; exact hbs) (by rw [sameDevice_blockSize hsd]; exact hs)
          (by rw [sameDevice_blockSize hsd]; omega)
          (by
            intro k hk
            have hk0 : k = 0 := by omega
            subst hk0
            apply hr _ (by omega)
            rw [Nat.add_zero, hpt]
            omega) (j - toCopy) (by omega)
        rw [show toCopy + (j - toCopy) = j by omega] at this
        rw [this, sameDevice_dev hsd, sameDevice_fileByte hsd]
        congr 2
        omega
    · intro a ha
      rw [g4 a (Or.inr (by omega)), h4 a (Or.inr (by omega))]

/-- A read through a descriptor `dir0` whose object has an empty cache list,
`dir` being the descriptor as `ext2CachePush` brings it up to date: `ext2Read`
returns the clamped limit, the cursor advances by it, the device is as before,
and the buffer holds the bytes the device holds for the file offsets read. -/
theorem ext2Read_uncached (ext2 : Ext2) (fd : OpenFile) (dir0 dir : Ext2OpenFd) (buff : Mem)
    (naiveLimit : Nat) (hd : fd.dir = some dir0) (hpush : dir = ext2CachePush ext2 dir0)
    (hp : dir0.inode.permission &&& S_IFDIR = 0)
    (hc : cacheOf ext2 dir.globalObject = [])
    (hbs : 0 < ext2.blockSize) (hs : SECTOR_SIZE ∣ ext2.blockSize)
    (hlt : dir.ptr < ext2GetFilesize dir) (hn : 0 < naiveLimit)
    (hr : Resolved ext2 dir.inode dir.ptr (min naiveLimit (ext2GetFilesize dir - dir.ptr))) :
    ∃ e1 out,
      ext2Read ext2 fd buff naiveLimit =
        .done (min naiveLimit (ext2GetFilesize dir - dir.ptr), e1,
          withCursor fd dir (dir.ptr + min naiveLimit (ext2GetFilesize dir - dir.ptr)), out) ∧
      SameDevice ext2 e1 ∧
      (∀ j, j < min naiveLimit (ext2GetFilesize dir - dir.ptr) →
        out j = ext2.dev.bytes (fileByte ext2 dir.inode (dir.ptr + j))) ∧
      (∀ a, min naiveLimit (ext2GetFilesize dir - dir.ptr) ≤ a → out a = buff a) := by
  have hlim : (if naiveLimit > ext2GetFilesize dir - dir.ptr then ext2GetFilesize dir - dir.ptr
      else naiveLimit) = min naiveLimit (ext2GetFilesize dir - dir.ptr) := by
    split <;> omega
  obtain ⟨e1, out, hloop, hsd, hbytes, hrest⟩ :=
    ext2ReadLoop_uncached (min naiveLimit (ext2GetFilesize dir - dir.ptr))
      (DivRoundUp (min naiveLimit (ext2GetFilesize dir - dir.ptr)) ext2.blockSize)
      ext2 dir buff hbs hs (by omega) hr
  refine ⟨e1, out, ?_, hsd, hbytes, hrest⟩
  unfold ext2Read
  rw [hd]
  dsimp only
  rw [← hpush, if_neg (not_not.mpr hp), if_neg (by omega), hlim, hc]
  simp only [cacheSeek, List.length_nil, Nat.add_zero]
  rw [hloop]
  rfl

/-- Two cursor advances add up. -/
theorem advance_twice (dir d1 : Ext2OpenFd) (t x left : Nat)
    (h1 : d1 = { dir with ptr := dir.ptr + t }) (h2 : t + x = left) :
    ({ d1 with ptr := d1.ptr + x } : Ext2OpenFd) = { dir with ptr := dir.ptr + left } := by
  subst h1; subst h2
  simp [Nat.add_assoc]

/-- The loop of `ext2Read` over an ordered cache list returns, whatever mix of
cache entries and disk reads serves the range, with the cursor advanced by
exactly what was left to read. -/
theorem ext2ReadLoop_count (limit B start bs : Nat) (hbs : 0 < bs) :
    ∀ (fuel i : Nat) (cacheObj : List Ext2CacheObject) (left : Nat) (ext2 : Ext2)
      (dir : Ext2OpenFd) (buff : Mem),
      ext2.blockSize = bs → 0 < left → dir.ptr / bs = start + i →
      dir.ptr + left < (start + B + 1) * bs →
      CacheOrdered cacheObj → (∀ c, cacheObj.head? = some c → start + i ≤ c.blockIndex) →
      B + 1 + cacheObj.length < fuel + i + 1 →
      ∃ e1 out, ext2ReadLoop limit B start fuel i cacheObj left ext2 dir buff =
          .done (e1, { dir with ptr := dir.ptr + left }, out) ∧ SameDevice ext2 e1 := by
  intro fuel
  induction fuel with
  | zero =>
    intro i cacheObj left ext2 dir buff _ hl hdiv hE _ _ hfuel
    exfalso
    have h1 : dir.ptr / bs < start + B + 1 := (Nat.div_lt_iff_lt_mul hbs).mpr (by omega)
    omega
  | succ fuel ih =>
    intro i cacheObj left ext2 dir buff hb hl hdiv hE hord hhead hfuel
    have hiB : i < B + 1 := by
      have h1 : dir.ptr / bs < start + B + 1 := (Nat.div_lt_iff_lt_mul hbs).mpr (by omega)
      omega
    have hrem := Nat.mod_lt dir.ptr hbs
    have hp := Nat.div_add_mod dir.ptr bs
    rw [hdiv, Nat.mul_comm] at hp
    -- after a chunk that ends on a block boundary `n` blocks further
    have hnext : ∀ n, 1 ≤ n → (dir.ptr + (n * bs - dir.ptr % bs)) / bs = start + (i + n) := by
      intro n hn
      have h1 : bs ≤ n * bs := Nat.le_mul_of_pos_left bs hn
      have h2 : dir.ptr + (n * bs - dir.ptr % bs) = (start + (i + n)) * bs := by
        rw [← Nat.add_assoc, Nat.add_mul]; omega
      rw [h2]
      exact Nat.mul_div_cancel _ hbs
    unfold ext2ReadLoop
    rw [if_neg (by omega), hb]
    cases cacheObj with
    | nil =>
      dsimp only
      obtain ⟨bts, hbts⟩ : ∃ n, n = (if B - i = 0 then 1 else B - i) := ⟨_, rfl⟩
      have hbts1 : 1 ≤ bts := by rw [hbts]; split <;> omega
      rw [← hbts, if_neg (by simp [ext2ReadInner])]
      by_cases hfin : left ≤ bts * bs - dir.ptr % bs
      · have hmin : MIN left (bts * bs - dir.ptr % bs) = left := by rw [MIN_eq]; omega
        rw [hmin, if_pos (Nat.sub_self left)]
        exact ⟨_, _, rfl, ext2ReadInner_sameDevice _ _ _ _ _⟩
      · have hmin : MIN left (bts * bs - dir.ptr % bs) = bts * bs - dir.ptr % bs := by
          rw [MIN_eq]; omega
        have h1 : bs ≤ bts * bs := Nat.le_mul_of_pos_left bs hbts1
        rw [hmin, if_neg (by omega)]
        obtain ⟨e1, out, hloop, hsd⟩ := ih (i + bts) [] (left - (bts * bs - dir.ptr % bs))
          (ext2ReadInner ext2 dir buff (limit - left) (bts * bs - dir.ptr % bs)).2.1
          (ext2ReadInner ext2 dir buff (limit - left) (bts * bs - dir.ptr % bs)).2.2.1
          (ext2ReadInner ext2 dir buff (limit - left) (bts * bs - dir.ptr % bs)).2.2.2
          hb (by omega) (hnext bts hbts1)
          (by show dir.ptr + (bts * bs - dir.ptr % bs) + _ < _; omega)
          trivial (by intro c hc; cases hc) (by simp at hfuel ⊢; omega)
        refine ⟨e1, out, ?_, sameDevice_trans (ext2ReadInner_sameDevice _ _ _ _ _) hsd⟩
        rw [hloop, advance_twice dir
          (ext2ReadInner ext2 dir buff (limit - left) (bts * bs - dir.ptr % bs)).2.2.1
          (bts * bs - dir.ptr % bs) (left - (bts * bs - dir.ptr % bs)) left rfl (by omega)]
    | cons c next =>
      obtain ⟨hc1, hc2, hc3⟩ := hord
      have hch := hhead c rfl
      by_cases hhit : c.blockIndex = start + i
      · simp only [hhit, if_true]
        have h1 : bs ≤ c.blocks * bs := Nat.le_mul_of_pos_left bs hc1
        by_cases hfin : left ≤ c.blocks * bs - dir.ptr % bs
        · have hmin : MIN left (c.blocks * bs - dir.ptr % bs) = left := by rw [MIN_eq]; omega
          rw [hmin, if_pos (Nat.sub_self left)]
          exact ⟨_, _, rfl, sameDevice_refl ext2⟩
        · have hmin : MIN left (c.blocks * bs - dir.ptr % bs) = c.blocks * bs - dir.ptr % bs := by
            rw [MIN_eq]; omega
          rw [hmin, if_neg (by omega)]
          obtain ⟨e1, out, hloop, hsd⟩ := ih (i + c.blocks) next
            (left - (c.blocks * bs - dir.ptr % bs)) ext2
            { dir with ptr := dir.ptr + (c.blocks * bs - dir.ptr % bs) }
            (memcpy buff (limit - left) c.buff (dir.ptr % bs) (c.blocks * bs - dir.ptr % bs))
            hb (by omega) (hnext c.blocks hc1)
            (by show dir.ptr + (c.blocks * bs - dir.ptr % bs) + _ < _; omega)
            hc3 (by intro d hd; have := hc2 d hd; omega)
            (by simp at hfuel ⊢; omega)
          refine ⟨e1, out, ?_, hsd⟩
          rw [hloop, advance_twice dir
            { dir with ptr := dir.ptr + (c.blocks * bs - dir.ptr % bs) }
            (c.blocks * bs - dir.ptr % bs) (left - (c.blocks * bs - dir.ptr % bs)) left rfl
            (by omega)]
      · simp only [hhit, if_false]
        obtain ⟨bts, hbts⟩ : ∃ n, n = c.blockIndex - dir.ptr / bs := ⟨_, rfl⟩
        have hbts1 : 1 ≤ bts := by omega
        rw [← hbts, if_neg (by simp [ext2ReadInner])]
        by_cases hfin : left ≤ bts * bs - dir.ptr % bs
        · have hmin : MIN left (bts * bs - dir.ptr % bs) = left := by rw [MIN_eq]; omega
          rw [hmin, if_pos (Nat.sub_self left)]
          exact ⟨_, _, rfl, ext2ReadInner_sameDevice _ _ _ _ _⟩
        · have hmin : MIN left (bts * bs - dir.ptr % bs) = bts * bs - dir.ptr % bs := by
            rw [MIN_eq]; omega
          have h1 : bs ≤ bts * bs := Nat.le_mul_of_pos_left bs hbts1
          rw [hmin, if_neg (by omega)]
          obtain ⟨e1, out, hloop, hsd⟩ := ih (i + bts) (c :: next)
            (left - (bts * bs - dir.ptr % bs))
            (ext2ReadInner ext2 dir buff (limit - left) (bts * bs - dir.ptr % bs)).2.1
            (ext2ReadInner ext2 dir buff (limit - left) (bts * bs - dir.ptr % bs)).2.2.1
            (ext2ReadInner ext2 dir buff (limit - left) (bts * bs - dir.ptr % bs)).2.2.2
            hb (by omega) (hnext bts hbts1)
            (by show dir.ptr + (bts * bs - dir.ptr % bs) + _ < _; omega)
            ⟨hc1, hc2, hc3⟩ (by intro d hd; cases hd; omega)
            (by simp at hfuel ⊢; omega)
          refine ⟨e1, out, ?_, sameDevice_trans (ext2ReadInner_sameDevice _ _ _ _ _) hsd⟩
          rw [hloop, advance_twice dir
          (ext2ReadInner ext2 dir buff (limit - left) (bts * bs - dir.ptr % bs)).2.2.1
          (bts * bs - dir.ptr % bs) (left - (bts * bs - dir.ptr % bs)) left rfl (by omega)]

/-- The tail of an ordered cache list is ordered. -/
theorem CacheOrdered.tail {c : Ext2CacheObject} {rest : List Ext2CacheObject}
    (h : CacheOrdered (c :: rest)) : CacheOrdered rest := h.2.2

/-- The cache lookup of `ext2Read` yields an ordered list whose first entry starts at or after the first wanted block. -/
theorem cacheSeek_ordered (s n : Nat) (l : List Ext2CacheObject) (h : CacheOrdered l) :
    CacheOrdered (cacheSeek s n l) ∧
      ∀ c, (cacheSeek s n l).head? = some c → s ≤ c.blockIndex := by
  induction l with
  | nil => exact ⟨trivial, by intro c hc; cases hc⟩
  | cons c rest ih =>
    unfold cacheSeek
    split_ifs with hc
    · refine ⟨h, ?_⟩
      intro d hd
      cases hd
      exact hc.1
    · exact ih h.tail

/-- The cache lookup over an empty block range finds nothing. -/
theorem cacheSeek_zero (s : Nat) (l : List Ext2CacheObject) : cacheSeek s 0 l = [] := by
  induction l with
  | nil => rfl
  | cons c rest ih =>
    unfold cacheSeek
    rw [if_neg (by omega)]
    exact ih

/-- Return value and cursor of `ext2Read` for a descriptor `dir0` that passes
the directory guard of line 226, over an ordered cache list, `dir` being the
descriptor as `ext2CachePush` brings it up to date and `S` its file size: at or
past the end of the file it returns 0 and the cursor is as before; otherwise it
returns `min(limit, S - ptr)` and the cursor has advanced by exactly that
amount, whatever mix of cache entries and disk reads served the range. -/
theorem ext2Read_count (ext2 : Ext2) (fd : OpenFile) (dir0 dir : Ext2OpenFd) (buff : Mem)
    (naiveLimit : Nat) (hd : fd.dir = some dir0) (hpush : dir = ext2CachePush ext2 dir0)
    (hp : dir0.inode.permission &&& S_IFDIR = 0) (hbs : 0 < ext2.blockSize)
    (hord : CacheOrdered (cacheOf ext2 dir.globalObject)) :
    (ext2GetFilesize dir ≤ dir.ptr →
      ext2Read ext2 fd buff naiveLimit = .done (0, ext2, { fd with dir := some dir }, buff)) ∧
    (dir.ptr < ext2GetFilesize dir →
      ∃ e1 out, ext2Read ext2 fd buff naiveLimit =
          .done (min naiveLimit (ext2GetFilesize dir - dir.ptr), e1,
            withCursor fd dir (dir.ptr + min naiveLimit (ext2GetFilesize dir - dir.ptr)), out) ∧
        SameDevice ext2 e1) := by
  constructor
  · intro hge
    unfold ext2Read
    rw [hd]
    dsimp only
    rw [← hpush, if_neg (not_not.mpr hp), if_pos hge]
  · intro hlt
    have hlim : (if naiveLimit > ext2GetFilesize dir - dir.ptr then ext2GetFilesize dir - dir.ptr
        else naiveLimit) = min naiveLimit (ext2GetFilesize dir - dir.ptr) := by
      split <;> omega
    unfold ext2Read
    rw [hd]
    dsimp only
    rw [← hpush, if_neg (not_not.mpr hp), if_neg (by omega), hlim]
    obtain ⟨limit, hlimit⟩ : ∃ l, l = min naiveLimit (ext2GetFilesize dir - dir.ptr) := ⟨_, rfl⟩
    rw [← hlimit]
    rcases Nat.eq_zero_or_pos limit with h0 | hpos
    · -- a read of zero bytes
      rw [h0]
      have hB : DivRoundUp 0 ext2.blockSize = 0 := by
        unfold DivRoundUp
        rw [Nat.zero_add]
        exact Nat.div_eq_of_lt (by omega)
      rw [hB, cacheSeek_zero]
      unfold ext2ReadLoop
      simp only [List.length_nil, Nat.add_zero, Nat.zero_add]
      rw [if_neg (by omega)]
      have hmin : ∀ x, MIN 0 x = 0 := by intro x; rw [MIN_eq]; omega
      simp only [hmin]
      rw [if_pos trivial]
      exact ⟨(ext2ReadInner ext2 dir buff (0 - 0) 0).2.1,
        (ext2ReadInner ext2 dir buff (0 - 0) 0).2.2.2, rfl,
        ext2ReadInner_sameDevice _ _ _ _ _⟩
    · obtain ⟨hso, hsh⟩ := cacheSeek_ordered (dir.ptr / ext2.blockSize)
        (DivRoundUp limit ext2.blockSize) (cacheOf ext2 dir.globalObject) hord
      have hge := DivRoundUp_mul_ge limit ext2.blockSize hbs
      have hrem := Nat.mod_lt dir.ptr hbs
      have hp0 := Nat.div_add_mod dir.ptr ext2.blockSize
      obtain ⟨e1, out, hloop, hsd⟩ := ext2ReadLoop_count limit (DivRoundUp limit ext2.blockSize)
        (dir.ptr / ext2.blockSize) ext2.blockSize hbs
        (DivRoundUp limit ext2.blockSize + 1 +
          (cacheSeek (dir.ptr / ext2.blockSize) (DivRoundUp limit ext2.blockSize)
            (cacheOf ext2 dir.globalObject)).length + 1) 0 _ limit ext2 dir buff rfl hpos rfl
        (by
          rw [Nat.add_mul, Nat.add_mul, Nat.one_mul, Nat.mul_comm (dir.ptr / ext2.blockSize)]
          omega) hso (by simpa using hsh) (by omega)
      refine ⟨e1, out, ?_, hsd⟩
      rw [hloop]
      rfl

/-! ### `ext2Write`: what it puts on the device -/

/-- Pointwise reading of `setDiskBytes`. -/
theorem setDiskBytes_apply (ext2 : Ext2) (src : Mem) (s lba sectors a : Nat) :
    (setDiskBytes ext2 src s lba sectors).dev.bytes a =
      if lba * SECTOR_SIZE ≤ a ∧ a < lba * SECTOR_SIZE + sectors * SECTOR_SIZE then
        src (a - lba * SECTOR_SIZE + s)
      else ext2.dev.bytes a := rfl

/-- Block addresses do not depend on the device contents. -/
theorem sameVolume_blockByte {e e1 : Ext2} (h : SameVolume e e1) (b j : Nat) :
    blockByte e1 b j = blockByte e b j := by
  unfold SameVolume at h; rw [h]; rfl

/-- The sector of a block does not depend on the device contents. -/
theorem sameVolume_BLOCK_TO_LBA {e e1 : Ext2} (h : SameVolume e e1) (b : Nat) :
    BLOCK_TO_LBA e1 b = BLOCK_TO_LBA e b := by
  unfold SameVolume at h; rw [h]; rfl

/-- Byte ranges of two different blocks do not meet. -/
theorem block_disjoint (ext2 : Ext2) (hs : SECTOR_SIZE ∣ ext2.blockSize) (b1 b2 j : Nat)
    (hj : j < ext2.blockSize) (hne : b1 ≠ b2) :
    blockByte ext2 b1 j < blockByte ext2 b2 0 ∨
      blockByte ext2 b2 0 + ext2.blockSize ≤ blockByte ext2 b1 j := by
  rw [blockByte_eq ext2 hs, blockByte_eq ext2 hs]
  rcases Nat.lt_or_gt_of_ne hne with h | h
  · left
    have := Nat.mul_le_mul_right ext2.blockSize (Nat.succ_le_of_lt h)
    rw [Nat.succ_mul] at this
    omega
  · right
    have := Nat.mul_le_mul_right ext2.blockSize (Nat.succ_le_of_lt h)
    rw [Nat.succ_mul] at this
    omega

/-- Writing block `m` alone emits it and touches nothing else. -/
theorem emitted_single (ext2 e : Ext2) (blocks : List Nat) (tmp : Mem) (m : Nat)
    (hs : SECTOR_SIZE ∣ ext2.blockSize) (hsv : SameVolume ext2 e)
    (hd : ∀ k, k < m → blockAt blocks k ≠ blockAt blocks m)
    (hem : Emitted ext2 blocks tmp m e) (hun : Untouched ext2 blocks m e) :
    Emitted ext2 blocks tmp (m + 1)
        (setDiskBytes e tmp (m * e.blockSize) (BLOCK_TO_LBA e (blockAt blocks m))
          (e.blockSize / SECTOR_SIZE)) ∧
      Untouched ext2 blocks (m + 1)
        (setDiskBytes e tmp (m * e.blockSize) (BLOCK_TO_LBA e (blockAt blocks m))
          (e.blockSize / SECTOR_SIZE)) := by
  rw [SameVolume.blockSize hsv, sameVolume_BLOCK_TO_LBA hsv]
  have hB : BLOCK_TO_LBA ext2 (blockAt blocks m) * SECTOR_SIZE =
      blockByte ext2 (blockAt blocks m) 0 := by unfold blockByte; omega
  constructor
  · intro k hk j hj
    rw [setDiskBytes_apply, Nat.div_mul_cancel hs, hB]
    by_cases hkm : k < m
    · have hdis := block_disjoint ext2 hs (blockAt blocks k) (blockAt blocks m) j hj (hd k hkm)
      rw [if_neg (by omega)]
      exact hem k hkm j hj
    · have hkeq : k = m := by omega
      subst hkeq
      have h1 : blockByte ext2 (blockAt blocks k) j = blockByte ext2 (blockAt blocks k) 0 + j := by
        unfold blockByte; omega
      rw [if_pos (by omega)]
      congr 1
      omega
  · intro a ha
    rw [setDiskBytes_apply, Nat.div_mul_cancel hs, hB]
    have hm := ha m (Nat.lt_succ_self m)
    rw [if_neg (by omega)]
    exact hun a (fun k hk => ha k (by omega))

/-- Writing the run `s .. m` with one block I/O emits all its blocks and
touches nothing else. -/
theorem emitted_run (ext2 e : Ext2) (blocks : List Nat) (tmp : Mem) (s m : Nat)
    (hs : SECTOR_SIZE ∣ ext2.blockSize) (hsv : SameVolume ext2 e) (hsm : s < m)
    (hd : ∀ k, k < s → ∀ k2, s ≤ k2 → k2 ≤ m → blockAt blocks k ≠ blockAt blocks k2)
    (hrun : ∀ k, s ≤ k → k ≤ m → blockAt blocks k = blockAt blocks s + (k - s))
    (hem : Emitted ext2 blocks tmp s e) (hun : Untouched ext2 blocks s e) :
    Emitted ext2 blocks tmp (m + 1)
        (setDiskBytes e tmp (s * e.blockSize) (BLOCK_TO_LBA e (blockAt blocks s))
          ((m - s + 1) * e.blockSize / SECTOR_SIZE)) ∧
      Untouched ext2 blocks (m + 1)
        (setDiskBytes e tmp (s * e.blockSize) (BLOCK_TO_LBA e (blockAt blocks s))
          ((m - s + 1) * e.blockSize / SECTOR_SIZE)) := by
  rw [SameVolume.blockSize hsv, sameVolume_BLOCK_TO_LBA hsv]
  have hB : BLOCK_TO_LBA ext2 (blockAt blocks s) * SECTOR_SIZE =
      blockByte ext2 (blockAt blocks s) 0 := by unfold blockByte; omega
  have hlen : (m - s + 1) * ext2.blockSize = (m + 1) * ext2.blockSize - s * ext2.blockSize := by
    rw [← Nat.sub_mul]; congr 1; omega
  have hsle : s * ext2.blockSize ≤ (m + 1) * ext2.blockSize :=
    Nat.mul_le_mul_right _ (by omega)
  -- address of byte `j` of block `k` of the run, relative to the run start
  have haddr : ∀ k, s ≤ k → k ≤ m → ∀ j,
      blockByte ext2 (blockAt blocks k) j =
        blockByte ext2 (blockAt blocks s) 0 + (k * ext2.blockSize - s * ext2.blockSize) + j := by
    intro k hk1 hk2 j
    rw [blockByte_eq ext2 hs, blockByte_eq ext2 hs, hrun k hk1 hk2, Nat.add_mul, Nat.sub_mul]
    omega
  constructor
  · intro k hk j hj
    rw [setDiskBytes_apply, sectors_of_blocks _ _ hs, hB]
    by_cases hks : k < s
    · -- a block before the run: no block of the run is that block
      have hout : blockByte ext2 (blockAt blocks k) j < blockByte ext2 (blockAt blocks s) 0 ∨
          blockByte ext2 (blockAt blocks s) 0 + (m - s + 1) * ext2.blockSize ≤
            blockByte ext2 (blockAt blocks k) j := by
        rcases Nat.lt_or_ge (blockAt blocks k) (blockAt blocks s) with hlt | hge
        · left
          have := block_disjoint ext2 hs (blockAt blocks k) (blockAt blocks s) j hj (by omega)
          rw [blockByte_eq ext2 hs, blockByte_eq ext2 hs] at this ⊢
          have h2 := Nat.mul_le_mul_right ext2.blockSize (Nat.succ_le_of_lt hlt)
          rw [Nat.succ_mul] at h2
          omega
        · right
          -- the block lies at or after the run start, so it lies after the run end
          have hgt : blockAt blocks s + (m - s) < blockAt blocks k := by
            by_contra hcon
            have hidx : s ≤ s + (blockAt blocks k - blockAt blocks s) ∧
                s + (blockAt blocks k - blockAt blocks s) ≤ m := by omega
            have := hrun _ hidx.1 hidx.2
            exact hd k hks _ hidx.1 hidx.2 (by omega)
          have h2 := Nat.mul_le_mul_right ext2.blockSize (Nat.succ_le_of_lt hgt)
          rw [blockByte_eq ext2 hs, blockByte_eq ext2 hs]
          rw [Nat.succ_mul, Nat.add_mul] at h2
          have h3 : (m - s + 1) * ext2.blockSize = (m - s) * ext2.blockSize + ext2.blockSize := by
            rw [Nat.add_mul, Nat.one_mul]
          omega
      rw [if_neg (by omega)]
      exact hem k hks j hj
    · have hsk : s ≤ k := by omega
      have hkm : k ≤ m := by omega
      have h1 : s * ext2.blockSize ≤ k * ext2.blockSize := Nat.mul_le_mul_right _ hsk
      have h2 : (k + 1) * ext2.blockSize ≤ (m + 1) * ext2.blockSize :=
        Nat.mul_le_mul_right _ (by omega)
      rw [Nat.add_mul, Nat.one_mul] at h2
      rw [haddr k hsk hkm j, if_pos (by omega)]
      congr 1
      omega
  · intro a ha
    rw [setDiskBytes_apply, sectors_of_blocks _ _ hs, hB]
    have hout : a < blockByte ext2 (blockAt blocks s) 0 ∨
        blockByte ext2 (blockAt blocks s) 0 + (m - s + 1) * ext2.blockSize ≤ a := by
      by_contra hcon
      have hin : blockByte ext2 (blockAt blocks s) 0 ≤ a ∧
          a < blockByte ext2 (blockAt blocks s) 0 + (m - s + 1) * ext2.blockSize := by omega
      -- `a` lies in block `k` of the run
      have hbs : 0 < ext2.blockSize := by
        rcases Nat.eq_zero_or_pos ext2.blockSize with h0 | h0
        · rw [h0] at hin; omega
        · exact h0
      obtain ⟨q, hq⟩ : ∃ q, q = (a - blockByte ext2 (blockAt blocks s) 0) / ext2.blockSize :=
        ⟨_, rfl⟩
      have hdm := Nat.div_add_mod (a - blockByte ext2 (blockAt blocks s) 0) ext2.blockSize
      have hmod := Nat.mod_lt (a - blockByte ext2 (blockAt blocks s) 0) hbs
      rw [← hq, Nat.mul_comm] at hdm
      have hqlt : q < m - s + 1 := by
        rw [hq]
        exact (Nat.div_lt_iff_lt_mul hbs).mpr (by omega)
      have hk := ha (s + q) (by omega)
      have hadd := haddr (s + q) (by omega) (by omega) 0
      have h5 : (s + q) * ext2.blockSize - s * ext2.blockSize = q * ext2.blockSize := by
        rw [Nat.add_mul]; omega
      rw [h5] at hadd
      omega
    rw [if_neg (by omega)]
    exact hun a (fun k hk => ha k (by omega))

/-- One iteration of the emission loop keeps the invariant. -/
theorem WriteInv_step (ext2 : Ext2) (blocks : List Nat) (tmp : Mem) (n m : Nat)
    (hs : SECTOR_SIZE ∣ ext2.blockSize)
    (hnz : ∀ k, k < n → blockAt blocks k ≠ 0 ∧ blockAt blocks k + 1 < 2 ^ 32)
    (hd : ∀ k k2, k < k2 → k2 < n → blockAt blocks k ≠ blockAt blocks k2)
    (hm : m < n) (st : Run (Consec × Ext2)) (h : WriteInv ext2 blocks tmp n m st) :
    WriteInv ext2 blocks tmp n (m + 1) (ext2WriteStep blocks n tmp st m) := by
  obtain ⟨c, e, hst, hsv, hend, hcase⟩ := h
  have hb := hnz m hm
  have hmod : (blockAt blocks m + 1) % 2 ^ 32 = blockAt blocks m + 1 := Nat.mod_eq_of_lt hb.2
  rw [hst]
  unfold ext2WriteStep
  dsimp only
  rw [if_neg hb.1, hmod]
  rcases hcase with ⟨hcs, hcb, hem, hun⟩ | ⟨s, hcs, hsm, hmn, hcb, hem, hun, hrun⟩
  · rw [if_pos (by rw [hcs]; decide)]
    by_cases hc : ¬ (m + 1 = n) ∧ blockAt blocks (m + 1) = blockAt blocks m + 1
    · rw [if_pos hc]
      refine ⟨_, _, rfl, hsv, hend, Or.inr ⟨m, rfl, Nat.lt_succ_self m, by omega, hcb, hem, hun, ?_⟩⟩
      intro k hk1 hk2
      have : k = m ∨ k = m + 1 := by omega
      rcases this with rfl | rfl
      · simp
      · rw [hc.2]; simp
    · rw [if_neg hc]
      unfold ext2WriteIo
      rw [if_neg (by rw [hend]; simp)]
      have hres := emitted_single ext2 e blocks tmp m hs hsv (fun k hk => hd k m hk hm) hem hun
      refine ⟨_, _, rfl, SameVolume.trans hsv rfl, rfl, Or.inl ⟨rfl, by simp [hcb], ?_⟩⟩
      dsimp only
      rw [hcb]
      exact hres
  · rw [if_neg (by rw [hcs]; omega)]
    by_cases hc : m + 1 = n ∨ blockAt blocks (m + 1) ≠ blockAt blocks m + 1
    · rw [if_pos hc]
      unfold ext2WriteIo
      dsimp only
      rw [if_pos (by omega)]
      have hneed : ((m : Int) - c.consecStart + 1).toNat = m - s + 1 := by
        rw [hcs]; omega
      have hres := emitted_run ext2 e blocks tmp s m hs hsv hsm
        (fun k hk k2 hk1 hk2 => hd k k2 (by omega) (by omega)) hrun hem hun
      rw [hneed, hcs, hcb]
      refine ⟨_, _, rfl, SameVolume.trans hsv rfl, rfl, Or.inl ⟨rfl, by simp; omega, ?_⟩⟩
      simp only [Int.toNat_ofNat]
      exact hres
    · rw [if_neg hc]
      have hc1 : ¬ (m + 1 = n) := fun h => hc (Or.inl h)
      have hc2 : blockAt blocks (m + 1) = blockAt blocks m + 1 := by
        by_contra h; exact hc (Or.inr h)
      refine ⟨_, _, rfl, hsv, hend, Or.inr ⟨s, hcs, by omega, by omega, hcb, hem, hun, ?_⟩⟩
      intro k hk1 hk2
      by_cases hkm : k ≤ m
      · exact hrun k hk1 hkm
      · have : k = m + 1 := by omega
        subst this
        rw [hc2, hrun m (by omega) (le_refl m)]
        omega

/-- The invariant holds before every index up to `n`. -/
theorem WriteInv_fold (ext2 : Ext2) (blocks : List Nat) (tmp : Mem) (n : Nat)
    (hs : SECTOR_SIZE ∣ ext2.blockSize)
    (hnz : ∀ k, k < n → blockAt blocks k ≠ 0 ∧ blockAt blocks k + 1 < 2 ^ 32)
    (hd : ∀ k k2, k < k2 → k2 < n → blockAt blocks k ≠ blockAt blocks k2) :
    ∀ m, m ≤ n → WriteInv ext2 blocks tmp n m
      ((List.range m).foldl (ext2WriteStep blocks n tmp) (.done (Consec.init, ext2))) := by
  intro m
  induction m with
  | zero =>
    intro _
    refine ⟨_, _, rfl, SameVolume.refl _, rfl, Or.inl ⟨rfl, rfl, ?_, ?_⟩⟩
    · intro k hk
      omega
    · intro a _
      rfl
  | succ m ih =>
    intro hm
    rw [List.range_succ, List.foldl_append]
    exact WriteInv_step ext2 blocks tmp n m hs hnz hd (by omega) _ (ih (by omega))

/-- The emission loop of `ext2Write` returns, with every block of the region
holding its block of the staging buffer and the rest of the device as before,
when the first `n` entries of the chain are resolved and pairwise different. -/
theorem ext2WriteEmit_spec (ext2 : Ext2) (blocks : List Nat) (tmp : Mem) (n : Nat)
    (hs : SECTOR_SIZE ∣ ext2.blockSize)
    (hnz : ∀ k, k < n → blockAt blocks k ≠ 0 ∧ blockAt blocks k + 1 < 2 ^ 32)
    (hd : ∀ k k2, k < k2 → k2 < n → blockAt blocks k ≠ blockAt blocks k2) :
    ∃ e, ext2WriteEmit ext2 blocks n tmp = .done e ∧ SameVolume ext2 e ∧
      Emitted ext2 blocks tmp n e ∧ Untouched ext2 blocks n e := by
  obtain ⟨c, e, hst, hsv, _, hcase⟩ := WriteInv_fold ext2 blocks tmp n hs hnz hd n (le_refl n)
  refine ⟨e, ?_, hsv, ?_⟩
  · unfold ext2WriteEmit
    rw [hst]
    rfl
  · rcases hcase with ⟨_, _, hem, hun⟩ | ⟨s, _, _, hmn, _⟩
    · exact ⟨hem, hun⟩
    · omega

/-- Array read after the store `blocks[i] = v` inside the array. -/
theorem blockAt_set (l : List Nat) (i v k : Nat) (hi : i < l.length) :
    blockAt (l.set i v) k = if k = i then v else blockAt l k := by
  unfold blockAt
  by_cases h : k = i
  · subst h
    rw [if_pos rfl, List.getD_eq_getElem?_getD, List.getElem?_set_self hi]
    rfl
  · rw [if_neg h, List.getD_eq_getElem?_getD, List.getD_eq_getElem?_getD,
      List.getElem?_set_ne (Ne.symm h)]

/-- One iteration of the assignment loop keeps the invariant. -/
theorem AllocInv_step (inode0 : Ext2Inode) (num pib L s free i : Nat) (hi : s + i < L)
    (st : Ext2 × Ext2Inode × List Nat) (h : AllocInv inode0 pib L st.2) :
    AllocInv inode0 pib L (assignRun num pib s free st i).2 := by
  obtain ⟨hlen, hreg, hbefore, hmeta⟩ := h
  unfold assignRun ext2BlockAssign setSlot
  refine ⟨by simp [hlen], ?_, ?_, ?_⟩
  · intro k hk
    dsimp only
    rw [blockAt_set _ _ _ _ (by omega)]
    by_cases hks : k = s + i
    · rw [if_pos hks, if_pos (by omega)]
    · rw [if_neg hks, if_neg (by omega)]
      exact hreg k hk
  · intro b hb
    dsimp only
    rw [if_neg (by omega)]
    exact hbefore b hb
  · dsimp only
    conv_lhs => rw [hmeta]

/-- The assignment loop keeps the invariant as long as it stays inside the array. -/
theorem AllocInv_fold (inode0 : Ext2Inode) (num pib L s free : Nat)
    (st : Ext2 × Ext2Inode × List Nat) (h : AllocInv inode0 pib L st.2) :
    ∀ m, s + m ≤ L →
      AllocInv inode0 pib L ((List.range m).foldl (assignRun num pib s free) st).2 := by
  intro m
  induction m with
  | zero => intro _; exact h
  | succ m ih =>
    intro hm
    rw [List.range_succ, List.foldl_append]
    exact AllocInv_step inode0 num pib L s free m (by omega) _ (ih (by omega))

/-- The inode copy and the array that the loop of lines 436-441 yields do not
depend on the volume. -/
theorem assignRun_fold_snd (num pib s free : Nat) (l : List Nat) :
    ∀ (e e1 : Ext2) (x : Ext2Inode × List Nat),
      (l.foldl (assignRun num pib s free) (e1, x)).2 =
        (l.foldl (assignRun num pib s free) (e, x)).2 := by
  induction l with
  | nil => intro e e1 x; rfl
  | cons i l ih =>
    intro e e1 x
    exact ih (assignRun num pib s free (e, x) i).1 (assignRun num pib s free (e1, x) i).1
      (assignRun num pib s free (e, x) i).2

/-- The loop of lines 436-441 touches the inode table only. -/
theorem assignRun_fold_dev (num pib s free : Nat) (l : List Nat) :
    ∀ st : Ext2 × Ext2Inode × List Nat,
      (l.foldl (assignRun num pib s free) st).1.dev.bytes = st.1.dev.bytes ∧
      (l.foldl (assignRun num pib s free) st).1.dev.blockBitmap = st.1.dev.blockBitmap ∧
      (l.foldl (assignRun num pib s free) st).1.dev.heap = st.1.dev.heap := by
  induction l with
  | nil => intro st; exact ⟨rfl, rfl, rfl⟩
  | cons i l ih =>
    intro st
    exact ih (assignRun num pib s free st i)

/-- The first hole lies among the first `n` entries. -/
theorem firstHole_lt (blocks : List Nat) (n s : Nat) (h : firstHole blocks n = some s) : s < n := by
  unfold firstHole at h
  have := List.mem_of_find?_eq_some h
  exact List.mem_range.mp this

/-- After the allocation step of `ext2Write` the slots of the region agree with
the array `blocks`, and the rest of the inode is as before. -/
theorem ext2WriteAlloc_spec (ext2 : Ext2) (dir : Ext2OpenFd) (pib n : Nat) (hn : 0 < n) :
    AllocInv dir.inode pib n (ext2WriteAlloc ext2 dir pib n).2 := by
  have h0 : AllocInv dir.inode pib n (dir.inode, ext2BlockChain dir pib (n - 1)) := by
    refine ⟨?_, ?_, fun _ _ => rfl, rfl⟩
    · unfold ext2BlockChain; simp; omega
    · intro k hk
      exact (blockAt_chain dir pib (n - 1) k (by omega)).symm
  unfold ext2WriteAlloc
  dsimp only
  split
  · exact h0
  · next s hs =>
    have hsn := firstHole_lt _ _ _ hs
    exact AllocInv_fold dir.inode dir.inodeNum pib n s _ _ h0 (n - s) (by omega)

/-- The allocation step of `ext2Write` leaves the device bytes alone. -/
theorem ext2WriteAlloc_bytes (ext2 : Ext2) (dir : Ext2OpenFd) (pib n : Nat) :
    (ext2WriteAlloc ext2 dir pib n).1.dev.bytes = ext2.dev.bytes := by
  unfold ext2WriteAlloc
  dsimp only
  split
  · rfl
  · rw [(assignRun_fold_dev _ _ _ _ _ _).1]
    dsimp only
    split
    · next r hr =>
      unfold ext2BlockFind at hr
      split at hr
      · cases hr
      · cases hr; rfl
    · rfl

/-- The scan of the allocator looks at the superblock, the group count and
the block bitmap only. -/
theorem ext2BlockFind_congr (e e1 : Ext2) (hsb : e1.superblock = e.superblock)
    (hbg : e1.blockGroups = e.blockGroups) (hbm : e1.dev.blockBitmap = e.dev.blockBitmap)
    (group n : Nat) :
    (∃ r r1, ext2BlockFind e1 group n = .ok r ∧
      ext2BlockFind e group n = .ok r1 ∧ r.1 = r1.1) ∨
    (∃ c, ext2BlockFind e1 group n = .error c ∧ ext2BlockFind e group n = .error c) := by
  unfold ext2BlockFind
  have hscan : ∀ g, ext2BlockFindL e1 g n = ext2BlockFindL e g n := by
    intro g
    unfold ext2BlockFindL
    rw [hsb, hbm]
  simp only [hscan, hbg, hsb]
  cases List.findSome? (fun k =>
      Option.map (fun j => (group + k) % e.blockGroups * e.superblock.blocks_per_group + j)
        (ext2BlockFindL e ((group + k) % e.blockGroups) n)) (List.range e.blockGroups)
  · exact Or.inr ⟨_, rfl, rfl⟩
  · exact Or.inl ⟨_, _, rfl, rfl, rfl⟩

/-- The inode and the array `blocks` that the allocation step of `ext2Write`
yields depend on the superblock, the group count and the block bitmap of the
volume only. -/
theorem ext2WriteAlloc_congr (e e1 : Ext2) (hsb : e1.superblock = e.superblock)
    (hbg : e1.blockGroups = e.blockGroups) (hbm : e1.dev.blockBitmap = e.dev.blockBitmap)
    (dir : Ext2OpenFd) (pib n : Nat) :
    (ext2WriteAlloc e1 dir pib n).2 = (ext2WriteAlloc e dir pib n).2 := by
  unfold ext2WriteAlloc
  dsimp only
  split
  · rfl
  · next first _ =>
    have hg : INODE_TO_BLOCK_GROUP e1 dir.inodeNum = INODE_TO_BLOCK_GROUP e dir.inodeNum := by
      unfold INODE_TO_BLOCK_GROUP
      rw [hsb]
    rw [hg]
    rcases ext2BlockFind_congr e e1 hsb hbg hbm
      (INODE_TO_BLOCK_GROUP e dir.inodeNum) (n - first) with ⟨r, r1, h1, h2, h3⟩ | ⟨c, h1, h2⟩
    · rw [h1, h2]
      dsimp only
      rw [h3]
      exact assignRun_fold_snd _ _ _ _ _ _ _ _
    · rw [h1, h2]
      exact assignRun_fold_snd _ _ _ _ _ _ _ _

/-- The staging buffer of `ext2Write` holds the payload in its first
`remainder` bytes. -/
theorem ext2WriteStage_payload (ext2 : Ext2) (blocks : List Nat) (n : Nat) (buff : Mem)
    (left remainder q : Nat) (hq : q < remainder) :
    ext2WriteStage ext2 blocks n buff left remainder q = buff (left + q) := by
  unfold ext2WriteStage memcpy
  rw [if_pos (by omega), Nat.sub_zero, Nat.add_comm]

/-- What the aligned/tail step of `ext2Write` does when the entries of the
array `blocks` after allocation are resolved and pairwise different: it
returns, the descriptor carries the inode with the assigned blocks and the
cursor advanced by `remainder`, the blocks of the region hold the payload
`buff[left .. left + remainder)`, and the device is unchanged outside these
blocks. -/
theorem ext2WriteAligned_spec (ext2 : Ext2) (dir : Ext2OpenFd) (buff : Mem)
    (left remainder pib : Nat)
    (hbs : 0 < ext2.blockSize) (hs : SECTOR_SIZE ∣ ext2.blockSize) (hrem : 0 < remainder)
    (hnz : ∀ k, k < DivRoundUp remainder ext2.blockSize →
      blockAt (ext2WriteAlloc ext2 dir pib (DivRoundUp remainder ext2.blockSize)).2.2 k ≠ 0 ∧
      blockAt (ext2WriteAlloc ext2 dir pib (DivRoundUp remainder ext2.blockSize)).2.2 k + 1
        < 2 ^ 32)
    (hd : ∀ k k2, k < k2 → k2 < DivRoundUp remainder ext2.blockSize →
      blockAt (ext2WriteAlloc ext2 dir pib (DivRoundUp remainder ext2.blockSize)).2.2 k ≠
      blockAt (ext2WriteAlloc ext2 dir pib (DivRoundUp remainder ext2.blockSize)).2.2 k2) :
    ∃ e1, ext2WriteAligned ext2 dir buff left remainder pib =
        .done (e1, { dir with
          inode := (ext2WriteAlloc ext2 dir pib (DivRoundUp remainder ext2.blockSize)).2.1
          ptr := dir.ptr + remainder }) ∧
      SameVolume ext2 e1 ∧
      (∀ q, q < remainder →
        e1.dev.bytes (blockByte ext2
          (blockAt (ext2WriteAlloc ext2 dir pib (DivRoundUp remainder ext2.blockSize)).2.2
            (q / ext2.blockSize)) (q % ext2.blockSize)) = buff (left + q)) ∧
      (∀ a, (∀ k, k < DivRoundUp remainder ext2.blockSize →
          a < blockByte ext2
            (blockAt (ext2WriteAlloc ext2 dir pib (DivRoundUp remainder ext2.blockSize)).2.2 k) 0 ∨
          blockByte ext2
            (blockAt (ext2WriteAlloc ext2 dir pib (DivRoundUp remainder ext2.blockSize)).2.2 k) 0
              + ext2.blockSize ≤ a) →
        e1.dev.bytes a = ext2.dev.bytes a) := by
  obtain ⟨n, hn⟩ : ∃ n, n = DivRoundUp remainder ext2.blockSize := ⟨_, rfl⟩
  rw [← hn] at hnz hd ⊢
  obtain ⟨A, hA⟩ : ∃ A, A = ext2WriteAlloc ext2 dir pib n := ⟨_, rfl⟩
  rw [← hA] at hnz hd ⊢
  have hsvA : SameVolume ext2 A.1 := by rw [hA]; exact ext2WriteAlloc_same _ _ _ _
  have hbsA : A.1.blockSize = ext2.blockSize := hsvA.blockSize
  have hbytesA : A.1.dev.bytes = ext2.dev.bytes := by rw [hA]; exact ext2WriteAlloc_bytes _ _ _ _
  obtain ⟨e1, hemit, hsv1, hem, hun⟩ := ext2WriteEmit_spec A.1 A.2.2
    (ext2WriteStage A.1 A.2.2 n buff left remainder) n (by rw [hbsA]; exact hs) hnz hd
  refine ⟨e1, ?_, hsvA.trans hsv1, ?_, ?_⟩
  · unfold ext2WriteAligned
    rw [if_pos hrem]
    dsimp only
    rw [← hn, ← hA, hemit]
    rfl
  · intro q hq
    have hk : q / ext2.blockSize < n := by
      have := DivRoundUp_mul_ge remainder ext2.blockSize hbs
      rw [← hn] at this
      exact Nat.div_lt_of_lt_mul (by rw [Nat.mul_comm]; omega)
    have h := hem (q / ext2.blockSize) hk (q % ext2.blockSize)
      (by rw [hbsA]; exact Nat.mod_lt _ hbs)
    rw [sameVolume_blockByte hsvA, hbsA] at h
    rw [h]
    have hq2 : q / ext2.blockSize * ext2.blockSize + q % ext2.blockSize = q := by
      rw [Nat.mul_comm]; exact Nat.div_add_mod q ext2.blockSize
    rw [hq2]
    exact ext2WriteStage_payload _ _ _ _ _ _ _ hq
  · intro a ha
    have h := hun a (by
      intro k hk
      rw [sameVolume_blockByte hsvA, hbsA]
      exact ha k hk)
    rw [h, hbytesA]

/-- The head step of `ext2Write` takes `headBytes` bytes. -/
theorem ext2WriteHead_left (ext2 : Ext2) (dir : Ext2OpenFd) (buff : Mem) (limit : Nat) :
    (ext2WriteHead ext2 dir buff limit).2 = headBytes ext2 dir limit := by
  unfold ext2WriteHead headBytes
  dsimp only
  split <;> rfl

/-- The head step of `ext2Write` leaves superblock, group count and block
bitmap alone. -/
theorem ext2WriteHead_meta (ext2 : Ext2) (dir : Ext2OpenFd) (buff : Mem) (limit : Nat) :
    (ext2WriteHead ext2 dir buff limit).1.superblock = ext2.superblock ∧
    (ext2WriteHead ext2 dir buff limit).1.blockGroups = ext2.blockGroups ∧
    (ext2WriteHead ext2 dir buff limit).1.dev.blockBitmap = ext2.dev.blockBitmap := by
  unfold ext2WriteHead
  dsimp only
  split <;> exact ⟨rfl, rfl, rfl⟩

/-- After the head step of `ext2Write` the head block holds the first
`headBytes` bytes of the payload from the cursor position on. -/
theorem ext2WriteHead_bytes (ext2 : Ext2) (dir : Ext2OpenFd) (buff : Mem) (limit : Nat)
    (hs : SECTOR_SIZE ∣ ext2.blockSize) (hpos : dir.ptr % ext2.blockSize > 0)
    (j : Nat) (hj : j < headBytes ext2 dir limit) :
    (ext2WriteHead ext2 dir buff limit).1.dev.bytes
      (blockByte ext2 (dir.inode.blocks (dir.ptr / ext2.blockSize))
        (dir.ptr % ext2.blockSize + j)) = buff j := by
  unfold headBytes at hj
  rw [if_pos hpos] at hj
  have hle := MIN_le_left (ext2.blockSize - dir.ptr % ext2.blockSize) limit
  unfold ext2WriteHead
  dsimp only
  rw [if_pos hpos]
  dsimp only
  rw [setDiskBytes_apply, Nat.div_mul_cancel hs]
  unfold ext2BlockFetch blockByte
  rw [if_pos (by omega)]
  unfold memcpy
  rw [if_pos (by omega)]
  congr 1
  omega

/-- The size update of `ext2Write` leaves the device bytes alone. -/
theorem ext2WriteSize_bytes (ext2 : Ext2) (dir : Ext2OpenFd) :
    (ext2WriteSize ext2 dir).1.dev.bytes = ext2.dev.bytes := by
  unfold ext2WriteSize
  split <;> rfl

/-- The size update of `ext2Write` changes `size` and `num_sectors` of the
descriptor's inode at most. -/
theorem ext2WriteSize_dir (ext2 : Ext2) (dir : Ext2OpenFd) :
    (ext2WriteSize ext2 dir).2 =
      { dir with inode := { dir.inode with
          size := (ext2WriteSize ext2 dir).2.inode.size
          num_sectors := (ext2WriteSize ext2 dir).2.inode.num_sectors } } := by
  unfold ext2WriteSize
  split <;> rfl

/-- After the size update of `ext2Write` a cursor below 4 GiB is within the
file. -/
theorem ext2WriteSize_covers (ext2 : Ext2) (dir : Ext2OpenFd) (h32 : dir.ptr < 2 ^ 32) :
    dir.ptr ≤ ext2GetFilesize (ext2WriteSize ext2 dir).2 := by
  unfold ext2WriteSize ext2GetFilesize COMBINE_64
  split
  · dsimp only
    rw [Nat.mod_eq_of_lt h32]
    omega
  · dsimp only
    omega

/-- The aligned region of a write starts at a block boundary. -/
theorem aligned_start (ext2 : Ext2) (dir : Ext2OpenFd) (limit : Nat)
    (hbs : 0 < ext2.blockSize) (hrem : headBytes ext2 dir limit < limit) :
    dir.ptr + headBytes ext2 dir limit = alignedBlock ext2 dir * ext2.blockSize := by
  have hdm := Nat.div_add_mod dir.ptr ext2.blockSize
  rw [Nat.mul_comm] at hdm
  unfold headBytes alignedBlock at *
  by_cases hpos : dir.ptr % ext2.blockSize > 0
  · rw [if_pos hpos] at hrem ⊢
    rw [if_pos hpos, Nat.add_mul, Nat.one_mul]
    rw [MIN_eq] at hrem ⊢
    have := Nat.mod_lt dir.ptr hbs
    omega
  · rw [if_neg hpos] at hrem ⊢
    rw [if_neg hpos]
    omega

/-- File offsets do not depend on the device contents. -/
theorem sameVolume_fileByte {e e1 : Ext2} (h : SameVolume e e1) (inode : Ext2Inode) (p : Nat) :
    fileByte e1 inode p = fileByte e inode p := by
  unfold fileByte
  rw [h.blockSize, sameVolume_blockByte h]

/-- Being resolved does not depend on the device contents. -/
theorem sameVolume_resolved {e e1 : Ext2} (h : SameVolume e e1) (inode : Ext2Inode) (p n : Nat)
    (hr : Resolved e inode p n) : Resolved e1 inode p n := by
  unfold Resolved at *
  rw [h.blockSize]
  exact hr

/-- The allocation step of `ext2Write` does not look at the cursor. -/
theorem ext2WriteAlloc_ptr (ext2 : Ext2) (dir : Ext2OpenFd) (x pib n : Nat) :
    ext2WriteAlloc ext2 { dir with ptr := x } pib n = ext2WriteAlloc ext2 dir pib n := rfl

/-- Block and offset of a file position inside the head block. -/
theorem head_index (p bs j : Nat) (hbs : 0 < bs) (hj : p % bs + j < bs) :
    (p + j) / bs = p / bs ∧ (p + j) % bs = p % bs + j := by
  have hdm := Nat.div_add_mod p bs
  have h1 : p + j = (p % bs + j) + p / bs * bs := by rw [Nat.mul_comm]; omega
  rw [h1, Nat.add_mul_div_right _ _ hbs, Nat.add_mul_mod_self_right,
    Nat.div_eq_of_lt hj, Nat.mod_eq_of_lt hj]
  omega

/-- Block and offset of a file position `q` bytes into a region that starts at
the boundary of block `b`. -/
theorem aligned_index (b bs q : Nat) (hbs : 0 < bs) :
    (b * bs + q) / bs = b + q / bs ∧ (b * bs + q) % bs = q % bs := by
  rw [Nat.add_comm (b * bs) q, Nat.add_mul_div_right _ _ hbs, Nat.add_mul_mod_self_right]
  omega

/-- What head step and aligned/tail step of `ext2Write` do together for a
write of `N` bytes that is well placed: they return, the cursor is advanced by
`N`, the inode differs in its block slots at most, the blocks of the written
range are resolved, and the device holds the payload at the file offsets
`ptr .. ptr + N`. -/
theorem ext2Write_placed (ext2 : Ext2) (dir : Ext2OpenFd) (buff : Mem) (N : Nat)
    (hbs : 0 < ext2.blockSize) (hs : SECTOR_SIZE ∣ ext2.blockSize) (hN : 0 < N)
    (hwp : WellPlaced ext2 dir N) :
    ∃ ea ia, ext2WriteAligned (ext2WriteHead ext2 dir buff N).1
        { dir with ptr := dir.ptr + headBytes ext2 dir N } buff (headBytes ext2 dir N)
        (N - headBytes ext2 dir N) (alignedBlock ext2 dir) =
          .done (ea, { dir with inode := ia, ptr := dir.ptr + N }) ∧
      SameVolume ext2 ea ∧ ia = { dir.inode with blocks := ia.blocks } ∧
      Resolved ext2 ia dir.ptr N ∧
      ∀ j, j < N → ea.dev.bytes (fileByte ext2 ia (dir.ptr + j)) = buff j := by
  obtain ⟨hnz, hd, hhead⟩ := hwp
  have hsvH : SameVolume ext2 (ext2WriteHead ext2 dir buff N).1 := ext2WriteHead_same _ _ _ _
  have hbsH : (ext2WriteHead ext2 dir buff N).1.blockSize = ext2.blockSize := hsvH.blockSize
  have hLle : headBytes ext2 dir N ≤ N := by
    unfold headBytes
    split
    · exact MIN_le_right _ _
    · omega
  have hLbs : dir.ptr % ext2.blockSize + headBytes ext2 dir N ≤ ext2.blockSize := by
    have := Nat.mod_lt dir.ptr hbs
    unfold headBytes
    split
    · have := MIN_le_left (ext2.blockSize - dir.ptr % ext2.blockSize) N
      omega
    · omega
  have hLpos : 0 < headBytes ext2 dir N → dir.ptr % ext2.blockSize > 0 := by
    intro h
    by_contra hc
    unfold headBytes at h
    rw [if_neg hc] at h
    omega
  have hpib : dir.ptr / ext2.blockSize ≤ alignedBlock ext2 dir := by
    unfold alignedBlock; split <;> omega
  have hpib2 : dir.ptr % ext2.blockSize > 0 → dir.ptr / ext2.blockSize < alignedBlock ext2 dir := by
    intro h; unfold alignedBlock; rw [if_pos h]; omega
  -- bytes of the head block after the head step
  have hheadbytes : ∀ j, j < headBytes ext2 dir N →
      (ext2WriteHead ext2 dir buff N).1.dev.bytes
        (blockByte ext2 (dir.inode.blocks (dir.ptr / ext2.blockSize))
          (dir.ptr % ext2.blockSize + j)) = buff j :=
    fun j hj => ext2WriteHead_bytes ext2 dir buff N hs (hLpos (by omega)) j hj
  by_cases hrem : N - headBytes ext2 dir N > 0
  · -- an aligned region follows
    have hstart := aligned_start ext2 dir N hbs (by omega)
    obtain ⟨hm1, hm2, hm3⟩ := ext2WriteHead_meta ext2 dir buff N
    have hA2 : (ext2WriteAlloc (ext2WriteHead ext2 dir buff N).1
          { dir with ptr := dir.ptr + headBytes ext2 dir N } (alignedBlock ext2 dir)
          (DivRoundUp (N - headBytes ext2 dir N) (ext2WriteHead ext2 dir buff N).1.blockSize)).2 =
        (ext2WriteAlloc ext2 dir (alignedBlock ext2 dir) (alignedCount ext2 dir N)).2 := by
      rw [hbsH, ext2WriteAlloc_ptr]
      exact ext2WriteAlloc_congr ext2 _ hm1 hm2 hm3 dir _ _
    have hnpos : 0 < alignedCount ext2 dir N := DivRoundUp_pos _ _ hrem hbs
    obtain ⟨hlen, hreg, hbefore, hmeta⟩ :=
      ext2WriteAlloc_spec ext2 dir (alignedBlock ext2 dir) (alignedCount ext2 dir N) hnpos
    have hcnt : DivRoundUp (N - headBytes ext2 dir N) (ext2WriteHead ext2 dir buff N).1.blockSize =
        alignedCount ext2 dir N := by rw [hbsH]; rfl
    obtain ⟨ea, hrun, hsvA, hpay, hout⟩ := ext2WriteAligned_spec (ext2WriteHead ext2 dir buff N).1
      { dir with ptr := dir.ptr + headBytes ext2 dir N } buff (headBytes ext2 dir N)
      (N - headBytes ext2 dir N) (alignedBlock ext2 dir) (by rw [hbsH]; exact hbs)
      (by rw [hbsH]; exact hs) hrem
      (by rw [hA2, hcnt]; exact hnz)
      (by rw [hA2, hcnt]; exact fun k k2 hk hk2 => hd k2 hk2 k hk)
    rw [hA2] at hrun hpay hout
    rw [hcnt] at hout
    simp only [sameVolume_blockByte hsvH, hbsH] at hpay hout
    refine ⟨ea, _, ?_, hsvH.trans hsvA, hmeta, ?_, ?_⟩
    · rw [hrun]
      have hp : dir.ptr + headBytes ext2 dir N + (N - headBytes ext2 dir N) = dir.ptr + N := by
        omega
      dsimp only
      rw [hp]
    · -- the blocks of the written range are resolved
      intro b hb1 hb2
      by_cases hbp : b < alignedBlock ext2 dir
      · have hpos : dir.ptr % ext2.blockSize > 0 := by
          by_contra hc
          unfold alignedBlock at hbp
          rw [if_neg hc] at hbp
          omega
        have hbeq : b = dir.ptr / ext2.blockSize := by
          unfold alignedBlock at hbp
          rw [if_pos hpos] at hbp
          omega
        rw [hbeq, hbefore _ (hpib2 hpos)]
        exact ⟨(hhead hpos).1, (hhead hpos).2.1⟩
      · obtain ⟨k, hk⟩ : ∃ k, b = alignedBlock ext2 dir + k := ⟨b - alignedBlock ext2 dir, by omega⟩
        have hkn : k < alignedCount ext2 dir N := by
          by_contra hc
          have h1 : alignedCount ext2 dir N * ext2.blockSize ≤ k * ext2.blockSize :=
            Nat.mul_le_mul_right _ (by omega)
          have h2 := DivRoundUp_mul_ge (N - headBytes ext2 dir N) ext2.blockSize hbs
          have h3 : b * ext2.blockSize =
              alignedBlock ext2 dir * ext2.blockSize + k * ext2.blockSize := by
            rw [hk, Nat.add_mul]
          unfold alignedCount at h1
          omega
        rw [hk, hreg k hkn]
        exact hnz k hkn
    · -- the device holds the payload
      intro j hj
      unfold fileByte
      by_cases hjL : j < headBytes ext2 dir N
      · have hpos := hLpos (by omega)
        obtain ⟨hi1, hi2⟩ := head_index dir.ptr ext2.blockSize j hbs (by omega)
        rw [hi1, hi2, hbefore _ (hpib2 hpos)]
        rw [hout _ (fun k hk => block_disjoint ext2 hs _ _ _ (by omega)
          (Ne.symm ((hhead hpos).2.2 k hk)))]
        exact hheadbytes j hjL
      · obtain ⟨q, hq⟩ : ∃ q, j = headBytes ext2 dir N + q := ⟨j - headBytes ext2 dir N, by omega⟩
        have hpj : dir.ptr + j = alignedBlock ext2 dir * ext2.blockSize + q := by omega
        obtain ⟨hi1, hi2⟩ := aligned_index (alignedBlock ext2 dir) ext2.blockSize q hbs
        have hqn : q / ext2.blockSize < alignedCount ext2 dir N := by
          have h2 := DivRoundUp_mul_ge (N - headBytes ext2 dir N) ext2.blockSize hbs
          exact Nat.div_lt_of_lt_mul (by rw [Nat.mul_comm]; unfold alignedCount; omega)
        rw [hpj, hi1, hi2, hreg _ hqn, hq]
        exact hpay q (by omega)
  · -- the write ends inside the head block
    have hNL : N = headBytes ext2 dir N := by omega
    have hpos := hLpos (by omega)
    refine ⟨(ext2WriteHead ext2 dir buff N).1, dir.inode, ?_, hsvH, rfl, ?_, ?_⟩
    · unfold ext2WriteAligned
      rw [if_neg hrem, ← hNL]
    · intro b hb1 hb2
      have hdm := Nat.div_add_mod dir.ptr ext2.blockSize
      rw [Nat.mul_comm] at hdm
      have hbeq : b = dir.ptr / ext2.blockSize := by
        by_contra hc
        have h1 : (dir.ptr / ext2.blockSize + 1) * ext2.blockSize ≤ b * ext2.blockSize :=
          Nat.mul_le_mul_right _ (by omega)
        rw [Nat.add_mul, Nat.one_mul] at h1
        omega
      rw [hbeq]
      exact ⟨(hhead hpos).1, (hhead hpos).2.1⟩
    · intro j hj
      unfold fileByte
      obtain ⟨hi1, hi2⟩ := head_index dir.ptr ext2.blockSize j hbs (by omega)
      rw [hi1, hi2]
      exact hheadbytes j (by omega)

/-- What the body of `ext2Write` does for a write of `N` bytes that is well
placed: it returns, the cursor is advanced by `N`, the blocks of the written
range are resolved, the device holds the payload at the file offsets
`ptr .. ptr + N`, and a range that ends below 4 GiB lies within the recorded
size. -/
theorem ext2WriteBody_spec (ext2 : Ext2) (dir : Ext2OpenFd) (buff : Mem) (N : Nat)
    (hbs : 0 < ext2.blockSize) (hs : SECTOR_SIZE ∣ ext2.blockSize) (hN : 0 < N)
    (hwp : WellPlaced ext2 dir N) :
    ∃ e1 d1, ext2WriteBody ext2 dir buff N = .done (e1, d1) ∧ SameVolume ext2 e1 ∧
      d1.ptr = dir.ptr + N ∧ d1.globalObject = dir.globalObject ∧
      d1.inode.permission = dir.inode.permission ∧
      (dir.ptr + N < 2 ^ 32 → dir.ptr + N ≤ ext2GetFilesize d1) ∧
      Resolved ext2 d1.inode dir.ptr N ∧
      ∀ j, j < N → e1.dev.bytes (fileByte ext2 d1.inode (dir.ptr + j)) = buff j := by
  obtain ⟨ea, ia, hrun, hsv, hmeta, hres, hbytes⟩ := ext2Write_placed ext2 dir buff N hbs hs hN hwp
  obtain ⟨da, hda⟩ : ∃ da : Ext2OpenFd, da = { dir with inode := ia, ptr := dir.ptr + N } :=
    ⟨_, rfl⟩
  rw [← hda] at hrun
  have hbody : ext2WriteBody ext2 dir buff N =
      .done ((ext2WriteSize ea da).1, (ext2WriteSize ea da).2) := by
    unfold ext2WriteBody
    dsimp only
    rw [ext2WriteHead_left]
    have hpib : (if dir.ptr % ext2.blockSize > 0 then dir.ptr / ext2.blockSize + 1
        else dir.ptr / ext2.blockSize) = alignedBlock ext2 dir := rfl
    rw [hpib, hrun]
    rfl
  have hdir := ext2WriteSize_dir ea da
  have hblocks : (ext2WriteSize ea da).2.inode.blocks = ia.blocks := by
    rw [hdir, hda]
  have hsvS : SameVolume ea (ext2WriteSize ea da).1 := ext2WriteSize_same _ _
  refine ⟨_, _, hbody, hsv.trans hsvS, ?_, ?_, ?_, ?_, ?_, ?_⟩
  · rw [hdir, hda]
  · rw [hdir, hda]
  · rw [hdir, hda]
    dsimp only
    rw [hmeta]
  · intro h32
    have := ext2WriteSize_covers ea da (by rw [hda]; exact h32)
    rw [hda] at this ⊢
    exact this
  · unfold Resolved at hres ⊢
    rw [hblocks]
    exact hres
  · intro j hj
    unfold fileByte at hbytes ⊢
    rw [hblocks, ext2WriteSize_bytes]
    exact hbytes j hj

/-- One block I/O of the emission loop leaves the inode table alone. -/
theorem ext2WriteIo_inodes (blocks : List Nat) (tmp : Mem) (c : Consec) (ext2 : Ext2) (i : Nat) :
    (ext2WriteIo blocks tmp c ext2 i).2.dev.inodes = ext2.dev.inodes := by
  unfold ext2WriteIo
  split <;> rfl

/-- One iteration of the emission loop leaves the inode table alone. -/
theorem ext2WriteStep_inodes (blocks : List Nat) (blocksRequired : Nat) (tmp : Mem)
    (t : Nat → Ext2Inode) (st : Run (Consec × Ext2)) (i : Nat)
    (h : ∀ x, st = .done x → x.2.dev.inodes = t) :
    ∀ x, ext2WriteStep blocks blocksRequired tmp st i = .done x → x.2.dev.inodes = t := by
  intro x hs
  unfold ext2WriteStep at hs
  match st, h with
  | .halt, _ => simp at hs
  | .spin, _ => simp at hs
  | .done (c1, e1), h =>
    have h0 : e1.dev.inodes = t := h (c1, e1) rfl
    simp only at hs
    split_ifs at hs
    · rw [← Run.done.inj hs]; exact h0
    · rw [← Run.done.inj hs]; exact (ext2WriteIo_inodes _ _ _ _ _).trans h0
    · rw [← Run.done.inj hs]; exact (ext2WriteIo_inodes _ _ _ _ _).trans h0
    · rw [← Run.done.inj hs]; exact h0

/-- Any number of iterations of the emission loop leave the inode table
alone. -/
theorem ext2WriteFold_inodes (blocks : List Nat) (blocksRequired : Nat) (tmp : Mem)
    (t : Nat → Ext2Inode) (l : List Nat) :
    ∀ (st : Run (Consec × Ext2)), (∀ x, st = .done x → x.2.dev.inodes = t) →
    ∀ x, l.foldl (ext2WriteStep blocks blocksRequired tmp) st = .done x → x.2.dev.inodes = t := by
  induction l with
  | nil => intro st h x hs; exact h x hs
  | cons i l ih =>
    intro st h x hs
    exact ih _ (ext2WriteStep_inodes blocks blocksRequired tmp t st i h) x hs

/-- The emission loop leaves the inode table alone. -/
theorem ext2WriteEmit_inodes (ext2 : Ext2) (blocks : List Nat) (blocksRequired : Nat)
    (tmp : Mem) (e : Ext2) (h : ext2WriteEmit ext2 blocks blocksRequired tmp = .done e) :
    e.dev.inodes = ext2.dev.inodes := by
  unfold ext2WriteEmit at h
  obtain ⟨x, hx, rfl⟩ := Run.map_eq_done _ _ _ h
  refine ext2WriteFold_inodes blocks blocksRequired tmp ext2.dev.inodes _ _ ?_ x hx
  intro y hy
  rw [← Run.done.inj hy]

/-- The head-block step of `ext2Write` leaves the inode table alone. -/
theorem ext2WriteHead_inodes (ext2 : Ext2) (dir : Ext2OpenFd) (buff : Mem) (limit : Nat) :
    (ext2WriteHead ext2 dir buff limit).1.dev.inodes = ext2.dev.inodes := by
  unfold ext2WriteHead
  dsimp only
  split <;> rfl

/-- The loop of lines 436-441 keeps the record of the inode on the device equal
to the inode copy of the descriptor. -/
theorem assignRun_fold_current (num pib s free : Nat) (l : List Nat) :
    ∀ st : Ext2 × Ext2Inode × List Nat, ext2InodeFetch st.1 num = st.2.1 →
      ext2InodeFetch (l.foldl (assignRun num pib s free) st).1 num =
        (l.foldl (assignRun num pib s free) st).2.1 := by
  induction l with
  | nil => intro st h; exact h
  | cons i l ih =>
    intro st h
    apply ih
    unfold assignRun ext2BlockAssign ext2InodeModifyM
    unfold ext2InodeFetch at h ⊢
    dsimp only
    rw [if_pos rfl, h]

/-- The allocation step of `ext2Write` keeps the record of the inode on the
device equal to the inode copy of the descriptor. -/
theorem ext2WriteAlloc_current (ext2 : Ext2) (dir : Ext2OpenFd) (pib n : Nat)
    (h : ext2InodeFetch ext2 dir.inodeNum = dir.inode) :
    ext2InodeFetch (ext2WriteAlloc ext2 dir pib n).1 dir.inodeNum =
      (ext2WriteAlloc ext2 dir pib n).2.1 := by
  unfold ext2WriteAlloc
  dsimp only
  split
  · exact h
  · apply assignRun_fold_current
    dsimp only
    split
    · next r hr =>
      unfold ext2BlockFind at hr
      split at hr
      · cases hr
      · cases hr; exact h
    · exact h

/-- The aligned/tail step of `ext2Write` keeps the record of the inode on the
device equal to the inode copy of the descriptor. -/
theorem ext2WriteAligned_current (ext2 : Ext2) (dir : Ext2OpenFd) (buff : Mem)
    (left remainder p : Nat) (w : Ext2 × Ext2OpenFd)
    (hw : ext2WriteAligned ext2 dir buff left remainder p = .done w)
    (h : ext2InodeFetch ext2 dir.inodeNum = dir.inode) :
    ext2InodeFetch w.1 dir.inodeNum = w.2.inode ∧ w.2.inodeNum = dir.inodeNum := by
  unfold ext2WriteAligned at hw
  split at hw
  · dsimp only at hw
    obtain ⟨e, he, rfl⟩ := Run.map_eq_done _ _ _ hw
    refine ⟨?_, rfl⟩
    have h1 := ext2WriteEmit_inodes _ _ _ _ e he
    have h2 := ext2WriteAlloc_current ext2 dir p (DivRoundUp remainder ext2.blockSize) h
    unfold ext2InodeFetch at h2 ⊢
    dsimp only
    rw [h1]
    exact h2
  · rw [← Run.done.inj hw]; exact ⟨h, rfl⟩

/-- The size update of `ext2Write` keeps the record of the inode on the device
equal to the inode copy of the descriptor. -/
theorem ext2WriteSize_current (ext2 : Ext2) (dir : Ext2OpenFd)
    (h : ext2InodeFetch ext2 dir.inodeNum = dir.inode) :
    ext2InodeFetch (ext2WriteSize ext2 dir).1 dir.inodeNum = (ext2WriteSize ext2 dir).2.inode ∧
      (ext2WriteSize ext2 dir).2.inodeNum = dir.inodeNum := by
  unfold ext2WriteSize
  split
  · refine ⟨?_, rfl⟩
    unfold ext2InodeFetch ext2InodeModifyM
    dsimp only
    rw [if_pos rfl]
  · exact ⟨h, rfl⟩

/-- What a write persists: when the inode copy of the descriptor is the record
of the inode on the device before lines 391-523 of `ext2Write`, it is so
afterwards. -/
theorem ext2WriteBody_current (ext2 : Ext2) (dir : Ext2OpenFd) (buff : Mem) (limit : Nat)
    (w : Ext2 × Ext2OpenFd) (hw : ext2WriteBody ext2 dir buff limit = .done w)
    (h : ext2InodeFetch ext2 dir.inodeNum = dir.inode) :
    ext2InodeFetch w.1 dir.inodeNum = w.2.inode ∧ w.2.inodeNum = dir.inodeNum := by
  unfold ext2WriteBody at hw
  dsimp only at hw
  obtain ⟨a, ha, rfl⟩ := Run.map_eq_done _ _ _ hw
  have h0 : ext2InodeFetch (ext2WriteHead ext2 dir buff limit).1 dir.inodeNum = dir.inode := by
    unfold ext2InodeFetch at h ⊢
    rw [ext2WriteHead_inodes]
    exact h
  obtain ⟨h1, h2⟩ := ext2WriteAligned_current _ _ _ _ _ _ a ha h0
  dsimp only at h1 h2
  obtain ⟨h3, h4⟩ := ext2WriteSize_current a.1 a.2 (by rw [h2]; exact h1)
  rw [h2] at h3 h4
  exact ⟨h3, h4⟩

/-- Bringing a descriptor up to date whose inode copy is the record on the
device changes nothing. -/
theorem ext2CachePush_current (ext2 : Ext2) (dir : Ext2OpenFd)
    (h : ext2InodeFetch ext2 dir.inodeNum = dir.inode) : ext2CachePush ext2 dir = dir := by
  unfold ext2CachePush
  rw [h]

/-- Bringing a descriptor up to date twice is bringing it up to date once. -/
theorem ext2CachePush_idem (ext2 : Ext2) (dir : Ext2OpenFd) :
    ext2CachePush ext2 (ext2CachePush ext2 dir) = ext2CachePush ext2 dir := rfl

/-- Emptying a cache list does not change where a write is placed. -/
theorem wellPlaced_cacheInvalidate (ext2 : Ext2) (obj : Nat) (dir : Ext2OpenFd) (N : Nat)
    (h : WellPlaced ext2 dir N) : WellPlaced (cacheInvalidate ext2 obj) dir N := by
  have hchain : writeChain (cacheInvalidate ext2 obj) dir N = writeChain ext2 dir N := by
    unfold writeChain
    have := ext2WriteAlloc_congr ext2 (cacheInvalidate ext2 obj) rfl rfl rfl dir
      (alignedBlock ext2 dir) (alignedCount ext2 dir N)
    exact congrArg Prod.snd this
  have hcount : alignedCount (cacheInvalidate ext2 obj) dir N = alignedCount ext2 dir N := rfl
  have hbs : (cacheInvalidate ext2 obj).blockSize = ext2.blockSize := rfl
  unfold WellPlaced
  rw [hchain, hcount, hbs]
  exact h

/-- Write, then read: a write of `N > 0` bytes through a descriptor `dir0`
without `O_APPEND`, `dir` being the descriptor as `ext2CachePush` brings it up
to date, that is well placed and ends below 4 GiB returns `N` with the cursor
advanced by `N`, and a read of `N` bytes with the cursor put back returns `N`
and hands back exactly the bytes written, leaving the rest of the caller
buffer alone. -/
theorem ext2Write_then_read (ext2 : Ext2) (fd : OpenFile) (dir0 dir : Ext2OpenFd)
    (data buff : Mem) (N : Nat) (hd : fd.dir = some dir0)
    (hpush : dir = ext2CachePush ext2 dir0)
    (hp : dir.inode.permission &&& S_IFDIR = 0) (happ : fd.flags &&& O_APPEND = 0)
    (hbs : 0 < ext2.blockSize) (hs : SECTOR_SIZE ∣ ext2.blockSize) (hN : 0 < N)
    (h32 : dir.ptr + N < 2 ^ 32) (hwp : WellPlaced ext2 dir N) :
    ∃ e1 fd1, ext2Write ext2 fd data N = .done (N, e1, fd1) ∧ cursorOf fd1 = dir.ptr + N ∧
      ∃ e2 fd2 out, ext2Read e1 (setCursor fd1 dir.ptr) buff N = .done (N, e2, fd2, out) ∧
        cursorOf fd2 = dir.ptr + N ∧
        (∀ j, j < N → out j = data j) ∧ ∀ a, N ≤ a → out a = buff a := by
  obtain ⟨e1, d1, hbody, hsv, hptr, hobj, hperm, hsize, hres, hbytes⟩ :=
    ext2WriteBody_spec (cacheInvalidate ext2 dir.globalObject) dir data N hbs hs hN
      (wellPlaced_cacheInvalidate ext2 _ dir N hwp)
  have hwrite : ext2Write ext2 fd data N = .done (N, e1, { fd with dir := some d1 }) := by
    unfold ext2Write
    rw [hd]
    dsimp only
    rw [← hpush, if_neg (not_not.mpr hp), if_neg (not_not.mpr happ), hbody]
    simp only [Run.map]
    rw [if_neg (not_not.mpr happ)]
  have hobj0 : dir.globalObject = dir0.globalObject := by rw [hpush]; rfl
  have hcache : cacheOf e1 d1.globalObject = [] := by
    rw [hobj, hobj0]
    exact ext2Write_cache_empty ext2 fd dir0 data N _ hd hwrite
  have hcur : ext2InodeFetch e1 d1.inodeNum = d1.inode := by
    obtain ⟨h1, h2⟩ := ext2WriteBody_current _ _ _ _ _ hbody (by rw [hpush]; rfl)
    rw [h2]
    exact h1
  have hbs1 : e1.blockSize = ext2.blockSize := hsv.blockSize
  have hfs : ext2GetFilesize { d1 with ptr := dir.ptr } = ext2GetFilesize d1 := rfl
  have hge := hsize h32
  have hmin : min N (ext2GetFilesize { d1 with ptr := dir.ptr } - dir.ptr) = N := by
    rw [hfs]; omega
  obtain ⟨e2, out, hread, -, hout, hrest⟩ := ext2Read_uncached e1
    (setCursor { fd with dir := some d1 } dir.ptr) { d1 with ptr := dir.ptr }
    { d1 with ptr := dir.ptr } buff N rfl
    (ext2CachePush_current e1 { d1 with ptr := dir.ptr } hcur).symm
    (by rw [← hperm] at hp; exact hp) hcache (by rw [hbs1]; exact hbs) (by rw [hbs1]; exact hs)
    (by rw [hfs]; dsimp only; omega) hN
    (by
      dsimp only
      rw [hmin]
      exact sameVolume_resolved hsv _ _ _ hres)
  dsimp only at hread hout hrest
  rw [hmin] at hread hout hrest
  refine ⟨e1, _, hwrite, ?_, e2, _, out, hread, ?_, ?_, hrest⟩
  · exact hptr
  · rfl
  · intro j hj
    rw [hout j hj, sameVolume_fileByte hsv]
    exact hbytes j hj

/-- The write-then-read theorem at a concrete input: 8196 bytes written at
offset 3 of a 5-byte file whose first block is allocated (the rest of the head
block, one full block and 7 bytes of a third, the last two freshly allocated)
and read back from offset 3. -/
theorem ext2Write_then_read_example :
    ∃ e1 fd1, ext2Write (withInode demoVolume shortInode)
        (setCursor (demoFd O_RDWR shortInode) 3) helloBuf 8196 =
        .done (8196, e1, fd1) ∧ cursorOf fd1 = 3 + 8196 ∧
      ∃ e2 fd2 out, ext2Read e1 (setCursor fd1 3) (fun _ => 0) 8196 = .done (8196, e2, fd2, out) ∧
        cursorOf fd2 = 3 + 8196 ∧
        (∀ j, j < 8196 → out j = helloBuf j) ∧ ∀ a, 8196 ≤ a → out a = (fun _ => 0) a :=
  ext2Write_then_read (withInode demoVolume shortInode) (setCursor (demoFd O_RDWR shortInode) 3)
    { inodeNum := 12, inode := shortInode, ptr := 3, globalObject := 12 }
    { inodeNum := 12, inode := shortInode, ptr := 3, globalObject := 12 } helloBuf (fun _ => 0)
    8196 rfl (by rfl) (by decide) (by decide) (by decide) (by decide) (by decide) (by decide)
    (by unfold WellPlaced; decide!)

/-! ### Reads after a write -/

/-- Claim C5, the values of the witness: the second descriptor carries a copy
of 5 bytes with the same block slot, the read through it returns 13 bytes, and
the device bytes it delivers are the 13 bytes written, not the `0x58` bytes of
the cache entry made before the write. -/
theorem cachedOutcome_read_values :
    min 64 (ext2GetFilesize (ext2CachePush cachedOutcome.2.1 readerDir) - readerDir.ptr) = 13 ∧
    (List.range 13).map (fun j => cachedOutcome.2.1.dev.bytes
          (fileByte cachedOutcome.2.1 (ext2CachePush cachedOutcome.2.1 readerDir).inode
            (readerDir.ptr + j))) = helloBytes ∧
    (ext2Read cachedOutcome.2.1 readerFd (fun _ => 0) 64).map
        (fun x => (x.1, (List.range 13).map x.2.2.2)) = .done (13, helloBytes) := by
  decide!

/-! ### `ext2Read`, `ext2Seek`, round trip -/

/-- A seek past the end of the file through a descriptor that is not writable
returns `EINVAL` and leaves the volume and the descriptor as they were. -/
theorem ext2Seek_readonly (ext2 : Ext2) (fd : OpenFile) (dir : Ext2OpenFd) (target : Nat)
    (offset : Int) (hd : fd.dir = some dir)
    (hro : fd.flags &&& O_RDWR = 0 ∧ fd.flags &&& O_WRONLY = 0)
    (ht : ext2GetFilesize dir < target) :
    ext2Seek ext2 fd target offset SEEK_SET = .done (ERR EINVAL, ext2, fd) := by
  have hset : ¬ (SEEK_SET = SEEK_CURR) := by decide
  unfold ext2Seek
  rw [hd]
  simp only [hset, if_false]
  rw [if_pos ht, if_pos hro]

/-- A seek past the end of the file through a writable descriptor whose flags
hold `O_APPEND` never returns: the write that fills the gap puts the cursor
back, and the check of lines 561-564 halts the kernel. -/
theorem ext2Seek_append_never_returns (ext2 : Ext2) (fd : OpenFile) (dir : Ext2OpenFd)
    (target : Nat) (offset : Int) (hd : fd.dir = some dir)
    (hw : ¬ (fd.flags &&& O_RDWR = 0 ∧ fd.flags &&& O_WRONLY = 0))
    (ha : fd.flags &&& O_APPEND ≠ 0) (ht : ext2GetFilesize dir < target)
    (r : Nat × Ext2 × OpenFile) :
    ext2Seek ext2 fd target offset SEEK_SET ≠ .done r := by
  intro h
  have hset : ¬ (SEEK_SET = SEEK_CURR) := by decide
  unfold ext2Seek at h
  rw [hd] at h
  simp only [hset, if_false] at h
  rw [if_pos ht, if_neg hw] at h
  obtain ⟨w, hwr, hr⟩ := Run.bind_eq_done _ _ _ h
  obtain ⟨d, hd2, hptr⟩ := ext2Write_append_ptr ext2
    { fd with dir := some { dir with ptr := ext2GetFilesize dir } }
    { dir with ptr := ext2GetFilesize dir } _ _ w rfl ha hwr
  rw [hd2] at hr
  dsimp only at hr hptr
  split_ifs at hr with h1 h2
  omega


/-- Claim C2, failing input: the descriptor of a socket inode (type nibble
`0xC000`, not a directory) with 0 bytes: `ext2Read` returns `EISDIR`, not 0,
because line 226 tests the bit `S_IFDIR` of the mode instead of comparing the
type nibble. -/
theorem ext2Read_socket_is_EISDIR :
    0xC1A4 &&& 0xF000 ≠ EXT2_S_IFDIR ∧
    (ext2Read (withInode demoVolume (emptyInode 0xC1A4)) (demoFd 0 (emptyInode 0xC1A4))
        (fun _ => 0) 5).map (fun r => r.1)
      = .done (ERR EISDIR) := by
  decide!

/-- Claim C7, failing input: a seek to offset 1 of an empty file through a
descriptor opened `O_WRONLY|O_APPEND` halts the kernel in the check of lines
561-564, since the append write puts the cursor back; through a descriptor
opened `O_WRONLY` the same seek returns 1 with cursor and size 1. -/
theorem ext2Seek_append_halts :
    (ext2Seek demoVolume (demoFd (O_WRONLY ||| O_APPEND) (emptyInode 0x81A4)) 1 0 SEEK_SET).map
      (fun r => r.1) = .halt ∧
    (ext2Seek demoVolume (demoFd O_WRONLY (emptyInode 0x81A4)) 1 0 SEEK_SET).map
      (fun r => (r.1, cursorOf r.2.2, fileSizeOf r.2.2)) = .done (1, 1, 1) := by
  decide!

/-- Scenario 2 of §8: 13 bytes written to a new file and read back with limit
64 come back as exactly those 13 bytes. -/
theorem hello_roundTrip :
    (roundTrip demoVolume (demoFd O_RDWR (emptyInode 0x81A4)) 0 helloBuf 13 64).map
      (fun r => (r.1, (List.range 13).map r.2)) = .done (13, helloBytes) := by
  decide!

/-- Claim C1, failing input: one byte written at offset `2^32 - 1` of a file of
`2^32 - 1` bytes and read back from that offset: the read returns 0 bytes, since
the write stored the size `2^32` in the 32-bit field `size` alone. -/
theorem roundTrip_lost_at_4GiB :
    fileSizeOf (demoFd O_RDWR bigInode) = 2 ^ 32 - 1 ∧
    (roundTrip (withInode demoVolume bigInode) (demoFd O_RDWR bigInode) (2 ^ 32 - 1)
        (fun _ => 65) 1 1).map
      (fun r => r.1) = .done 0 := by
  decide!

/-! ### `ext2Open`: `O_DIRECTORY` and `O_NOFOLLOW` -/

/-- The `O_DIRECTORY` check of `ext2Open` (line 159) looks at the bit `S_IFDIR`
of the mode: an inode without the bit is refused with `ENOTDIR`, volume and
descriptor unchanged; an inode that has it passes, so every directory does. -/
theorem ext2OpenInode_O_DIRECTORY (ext2 : Ext2) (filename : String) (flags : Nat)
    (fd : OpenFile) (inode : Nat) (hf : flags &&& O_DIRECTORY ≠ 0) :
    ((ext2InodeFetch ext2 inode).permission &&& S_IFDIR = 0 →
      ext2OpenInode ext2 filename flags fd inode = (ERR ENOTDIR, ext2, fd)) ∧
    ((ext2InodeFetch ext2 inode).permission &&& S_IFDIR ≠ 0 →
      (ext2OpenInode ext2 filename flags fd inode).1 = 0) := by
  unfold ext2OpenInode
  dsimp only
  constructor
  · intro h
    rw [if_pos ⟨hf, not_not.mpr h⟩]
  · intro h
    rw [if_neg (fun hc => hc.2 h)]

/-- A mode whose type nibble is `0x4000` has the bit `S_IFDIR` and lacks the
bit `S_IFREG`. -/
theorem nibble_directory (perm : Nat) (h : perm &&& 0xF000 = 0x4000) :
    perm &&& S_IFDIR ≠ 0 ∧ perm &&& S_IFREG = 0 := by
  have h1 : perm &&& S_IFDIR = (perm &&& 0xF000) &&& 0x4000 := by
    rw [Nat.land_assoc]; rfl
  have h2 : perm &&& S_IFREG = (perm &&& 0xF000) &&& 0x8000 := by
    rw [Nat.land_assoc]; rfl
  rw [h1, h2, h]
  exact ⟨by decide, by decide⟩

/-- A mode whose type nibble is `0x8000` has the bit `S_IFREG` and lacks the
bit `S_IFDIR`. -/
theorem nibble_regular (perm : Nat) (h : perm &&& 0xF000 = 0x8000) :
    perm &&& S_IFREG ≠ 0 ∧ perm &&& S_IFDIR = 0 := by
  have h1 : perm &&& S_IFDIR = (perm &&& 0xF000) &&& 0x4000 := by
    rw [Nat.land_assoc]; rfl
  have h2 : perm &&& S_IFREG = (perm &&& 0xF000) &&& 0x8000 := by
    rw [Nat.land_assoc]; rfl
  rw [h1, h2, h]
  exact ⟨by decide, by decide⟩

/-- The `O_DIRECTORY` check of `ext2Open` passes for every inode whose type
nibble is `0x4000`. -/
theorem ext2OpenInode_directory_passes (ext2 : Ext2) (filename : String) (flags : Nat)
    (fd : OpenFile) (inode : Nat)
    (hdir : (ext2InodeFetch ext2 inode).permission &&& 0xF000 = 0x4000) :
    (ext2OpenInode ext2 filename flags fd inode).1 = 0 := by
  unfold ext2OpenInode
  dsimp only
  rw [if_neg (fun hc => hc.2 (nibble_directory _ hdir).1)]

/-- Claim C11, failing input: a socket inode (mode `0xC1A4`, type nibble
`0xC000`, not a directory) opened with `O_DIRECTORY`: `ext2Open` returns 0,
populates the descriptor and counts it on the shared object, since line 159
tests the bit `S_IFDIR` of the mode; a regular file is refused with
`ENOTDIR`. -/
theorem ext2Open_O_DIRECTORY_admits_socket :
    0xC1A4 &&& 0xF000 ≠ EXT2_S_IFDIR ∧
    (ext2Open resolvingLayer socketVolume "/sock" O_DIRECTORY 0 (freshFd O_DIRECTORY) none).1
      = 0 ∧
    refersTo
      (ext2Open resolvingLayer socketVolume "/sock" O_DIRECTORY 0 (freshFd O_DIRECTORY) none).2.2.1
      12 = true ∧
    openFdsOf
      (ext2Open resolvingLayer socketVolume "/sock" O_DIRECTORY 0 (freshFd O_DIRECTORY) none).2.1
      12 = some 1 ∧
    (ext2Open resolvingLayer demoMounted "/hello.txt" O_DIRECTORY 0 (freshFd O_DIRECTORY) none).1
      = ERR ENOTDIR := by
  decide!

/-- What `ext2OpenInode` returns is 0 or `ENOTDIR`. -/
theorem ext2OpenInode_ret (ext2 : Ext2) (filename : String) (flags : Nat) (fd : OpenFile)
    (inode : Nat) :
    (ext2OpenInode ext2 filename flags fd inode).1 = 0 ∨
      (ext2OpenInode ext2 filename flags fd inode).1 = ERR ENOTDIR := by
  unfold ext2OpenInode
  dsimp only
  split
  · exact Or.inr rfl
  · exact Or.inl rfl

/-- A path that the traversal of line 129 resolves, whatever path layer does
it: `ext2Open` passes `followFinal = true` whatever the flags hold and looks at
`O_NOFOLLOW` only when the traversal came back without an inode (line 131), so
it never returns `ELOOP`; it returns `EEXIST` under `O_CREAT|O_EXCL` and
otherwise opens the inode the traversal found. -/
theorem ext2Open_resolved_no_ELOOP (pl : PathLayer) (ext2 : Ext2) (filename : String)
    (flags mode : Nat) (fd : OpenFile) (symlinkResolve : Option String)
    (h : (pl.ext2TraversePath ext2 filename EXT2_ROOT_INODE true symlinkResolve).1 ≠ 0) :
    (ext2Open pl ext2 filename flags mode fd symlinkResolve).1 ≠ ERR ELOOP ∧
    (¬ (flags &&& O_EXCL ≠ 0 ∧ flags &&& O_CREAT ≠ 0) →
      (ext2Open pl ext2 filename flags mode fd symlinkResolve).1 =
        (ext2OpenInode ext2 filename flags fd
          (pl.ext2TraversePath ext2 filename EXT2_ROOT_INODE true symlinkResolve).1).1 ∧
      (ext2Open pl ext2 filename flags mode fd symlinkResolve).2.2.1 =
        (ext2OpenInode ext2 filename flags fd
          (pl.ext2TraversePath ext2 filename EXT2_ROOT_INODE true symlinkResolve).1).2.2) := by
  have h1 : ¬ ((pl.ext2TraversePath ext2 filename EXT2_ROOT_INODE true symlinkResolve).1 = 0 ∧
      (pl.ext2TraversePath ext2 filename EXT2_ROOT_INODE true symlinkResolve).2.isSome = true) :=
    fun hc => h hc.1
  unfold ext2Open
  dsimp only
  rw [if_neg h1]
  constructor
  · by_cases h2 : (pl.ext2TraversePath ext2 filename EXT2_ROOT_INODE true symlinkResolve).1 ≠ 0 ∧
        flags &&& O_EXCL ≠ 0 ∧ flags &&& O_CREAT ≠ 0
    · rw [if_pos h2]
      show ERR EEXIST ≠ ERR ELOOP
      decide
    · rw [if_neg h2, if_neg h]
      dsimp only
      rcases ext2OpenInode_ret ext2 filename flags fd
        (pl.ext2TraversePath ext2 filename EXT2_ROOT_INODE true symlinkResolve).1 with h3 | h3
      · rw [h3]; decide
      · rw [h3]; decide
  · intro hx
    have h2 : ¬ ((pl.ext2TraversePath ext2 filename EXT2_ROOT_INODE true symlinkResolve).1 ≠ 0 ∧
        flags &&& O_EXCL ≠ 0 ∧ flags &&& O_CREAT ≠ 0) := fun hc => hx hc.2
    rw [if_neg h2, if_neg h]
    exact ⟨rfl, rfl⟩

/-- `toInt` of a value below `2^31`. -/
theorem toInt_small (v : Nat) (h : v < 2 ^ 31) : toInt v = (v : Int) := by
  unfold toInt
  have h1 : v % 2 ^ 32 = v := Nat.mod_eq_of_lt (by omega)
  rw [h1, if_pos h]

/-- Claim C13: `ext2Readlink`. A negative size gives `EINVAL` and a size of 0
gives 0, both before the path is looked at. For a size `n > 0`: a path that does not resolve (final component not followed) gives
`ENOENT`; an inode whose type nibble is not `0xA000` gives `EINVAL`; and for a
symbolic link of target length `L`, stored inline (`L ≤ 60`) or in the first
data block (`60 < L < blockSize`), the call returns `min(L, n)`, the first
`min(L, n)` bytes of the buffer are the first bytes of the target and the rest
of the buffer is left alone. The block size is a multiple of the sector size
and at most `2^31`. -/
theorem ext2Readlink_returns_target (pl : PathLayer) (ext2 : Ext2) (path : String) (buf : Mem)
    (n : Int) (symlinkResolve : Option String) :
    (n < 0 → ext2Readlink pl ext2 path buf n symlinkResolve =
      .done (ERR EINVAL, buf, symlinkResolve)) ∧
    (n = 0 → ext2Readlink pl ext2 path buf n symlinkResolve = .done (0, buf, symlinkResolve)) ∧
    (0 < n → (pl.ext2TraversePath ext2 path EXT2_ROOT_INODE false symlinkResolve).1 = 0 →
      ext2Readlink pl ext2 path buf n symlinkResolve =
        .done (ERR ENOENT, buf,
          (pl.ext2TraversePath ext2 path EXT2_ROOT_INODE false symlinkResolve).2)) ∧
    (0 < n → (pl.ext2TraversePath ext2 path EXT2_ROOT_INODE false symlinkResolve).1 ≠ 0 →
      (ext2InodeFetch ext2
        (pl.ext2TraversePath ext2 path EXT2_ROOT_INODE false symlinkResolve).1).permission
          &&& 0xF000 ≠ 0xA000 →
      ext2Readlink pl ext2 path buf n symlinkResolve =
        .done (ERR EINVAL, buf,
          (pl.ext2TraversePath ext2 path EXT2_ROOT_INODE false symlinkResolve).2)) ∧
    (∀ inode : Ext2Inode, 0 < n →
      (pl.ext2TraversePath ext2 path EXT2_ROOT_INODE false symlinkResolve).1 ≠ 0 →
      inode = ext2InodeFetch ext2
        (pl.ext2TraversePath ext2 path EXT2_ROOT_INODE false symlinkResolve).1 →
      inode.permission &&& 0xF000 = 0xA000 →
      SECTOR_SIZE ∣ ext2.blockSize → ext2.blockSize ≤ 2 ^ 31 →
      inode.size ≤ 60 ∨ (60 < inode.size ∧ inode.size < ext2.blockSize) →
      ∃ out, ext2Readlink pl ext2 path buf n symlinkResolve =
          .done (min inode.size n.toNat, out,
            (pl.ext2TraversePath ext2 path EXT2_ROOT_INODE false symlinkResolve).2) ∧
        (∀ j, j < min inode.size n.toNat → out j = linkTarget ext2 inode j) ∧
        ∀ j, min inode.size n.toNat ≤ j → out j = buf j) := by
  unfold ext2Readlink
  generalize pl.ext2TraversePath ext2 path EXT2_ROOT_INODE false symlinkResolve = t
  dsimp only
  refine ⟨?_, ?_, ?_, ?_, ?_⟩
  · intro hn
    rw [if_pos hn]
  · intro hn
    rw [if_neg (by omega), if_pos hn]
  · intro hn ht
    rw [if_neg (by omega), if_neg (by omega), if_pos ht]
  · intro hn ht hp
    rw [if_neg (by omega), if_neg (by omega), if_neg ht, if_pos hp]
  · intro inode hn ht hinode hp hs hbs hL
    rw [← hinode]
    have hL31 : inode.size < 2 ^ 31 := by omega
    have hcopy : (if toInt inode.size > n then n else toInt inode.size) =
        ((min inode.size n.toNat : Nat) : Int) := by
      rw [toInt_small _ hL31]
      split <;> omega
    rw [if_neg (by omega), if_neg (by omega), if_neg ht, if_neg (not_not.mpr hp),
      if_neg (by omega), hcopy, if_neg (by omega), Int.toNat_ofNat]
    refine ⟨_, rfl, ?_, ?_⟩
    · intro j hj
      unfold memcpy linkTarget
      rw [if_pos (by omega), Nat.sub_zero, Nat.add_zero]
      by_cases h60 : inode.size ≤ 60
      · rw [if_neg (by omega), if_pos h60]
      · rw [if_pos (by omega), if_neg h60, getDiskBytes_apply, Nat.div_mul_cancel hs,
          if_pos (by omega)]
        unfold blockByte
        congr 1
        omega
    · intro j hj
      unfold memcpy
      rw [if_neg (by omega)]

/-- Claim C13, witness: `readlink("/link")` with a buffer of 64 bytes returns 6
and the bytes of `/a/b/c`; with a buffer of 4 bytes it returns 4 and the bytes
of `/a/b`. -/
theorem ext2Readlink_returns_target_witness :
    (∃ out, ext2Readlink treeLayer treeVolume "/link" (fun _ => 0) 64 none =
        .done (min linkInode.size (64 : Int).toNat, out, none) ∧
      (∀ j, j < min linkInode.size (64 : Int).toNat → out j = linkTarget treeVolume linkInode j) ∧
      ∀ j, min linkInode.size (64 : Int).toNat ≤ j → out j = (fun _ => 0) j) ∧
    min linkInode.size (64 : Int).toNat = 6 ∧
    (List.range 6).map (linkTarget treeVolume linkInode) = [47, 97, 47, 98, 47, 99] ∧
    (ext2Readlink treeLayer treeVolume "/link" (fun _ => 0) 4 none).map
      (fun r => (r.1, (List.range 6).map r.2.1)) = .done (4, [47, 97, 47, 98, 0, 0]) :=
  ⟨(ext2Readlink_returns_target treeLayer treeVolume "/link" (fun _ => 0) 64 none).2.2.2.2
      linkInode (by decide) (by decide!) (by rfl) (by decide!) ⟨8, by rfl⟩ (by decide!)
      (Or.inl (by decide!)),
    by decide!, by decide!, by decide!⟩

/-! ### `ext2Delete` -/

/-- What the loop of lines 876-885 of `ext2Delete` frees, for a chain whose
first `n ≥ 1` blocks are allocated and `num_sectors * 512 = n * blockSize`, a
product that fits the `uint32_t` it is computed in: it returns after clearing
the bits of the blocks `i .. n - 2` and no other bit. -/
theorem freeDataBlocks_from (inode : Ext2Inode) (n bs bpg : Nat)
    (hbs : 0 < bs) (hbpg : 0 < bpg) (hn : inode.num_sectors * 512 = n * bs)
    (h32 : inode.num_sectors * 512 < 2 ^ 32)
    (hnz : ∀ k, k < n → inode.blocks k ≠ 0) :
    ∀ (m i fuel : Nat) (e : Ext2), i + m + 1 = n → m < fuel →
      e.blockSize = bs → e.superblock.blocks_per_group = bpg →
      ∃ e1, freeDataBlocks inode fuel i e = .done e1 ∧
        e1.blockSize = bs ∧ e1.superblock.blocks_per_group = bpg ∧
        (∀ k, i ≤ k → k + 1 < n → e1.dev.blockBitmap (inode.blocks k) = false) ∧
        ∀ b, (∀ k, i ≤ k → k + 1 < n → inode.blocks k ≠ b) →
          e1.dev.blockBitmap b = e.dev.blockBitmap b := by
  intro m
  induction m with
  | zero =>
    intro i fuel e hi hf hb hg
    obtain ⟨f, rfl⟩ : ∃ f, fuel = f + 1 := ⟨fuel - 1, by omega⟩
    refine ⟨e, ?_, hb, hg, ?_, fun _ _ => rfl⟩
    · unfold freeDataBlocks
      dsimp only
      rw [Nat.mod_eq_of_lt h32]
      have : (i + 1) * e.blockSize ≥ inode.num_sectors * 512 := by
        rw [hn, hb]
        have : i + 1 = n := by omega
        rw [this]
      rw [if_pos (Or.inr this)]
    · intro k hk1 hk2
      omega
  | succ m ih =>
    intro i fuel e hi hf hb hg
    obtain ⟨f, rfl⟩ : ∃ f, fuel = f + 1 := ⟨fuel - 1, by omega⟩
    have hblock : ext2BlockFetch inode i ≠ 0 := hnz i (by omega)
    have hlt : ¬ ((i + 1) * e.blockSize ≥ inode.num_sectors * 512) := by
      rw [hn, hb]
      have h1 : (i + 2) * bs ≤ n * bs := Nat.mul_le_mul_right _ (by omega)
      have h2 : (i + 2) * bs = (i + 1) * bs + bs := by
        rw [show i + 2 = (i + 1) + 1 from rfl, Nat.add_mul, Nat.one_mul]
      omega
    obtain ⟨e1, hrun, hb1, hg1, hfreed, hkept⟩ := ih (i + 1) f
      (ext2BlockDelete e (ext2BlockFetch inode i / e.superblock.blocks_per_group)
        (ext2BlockFetch inode i % e.superblock.blocks_per_group))
      (by omega) (by omega) hb hg
    have hidx : ext2BlockFetch inode i / e.superblock.blocks_per_group *
        e.superblock.blocks_per_group + ext2BlockFetch inode i % e.superblock.blocks_per_group
        = inode.blocks i := by
      rw [Nat.mul_comm]
      exact Nat.div_add_mod _ _
    have hdel : ∀ b, (ext2BlockDelete e (ext2BlockFetch inode i / e.superblock.blocks_per_group)
        (ext2BlockFetch inode i % e.superblock.blocks_per_group)).dev.blockBitmap b =
        if b = inode.blocks i then false else e.dev.blockBitmap b := by
      intro b
      unfold ext2BlockDelete
      dsimp only
      rw [hidx]
    refine ⟨e1, ?_, hb1, hg1, ?_, ?_⟩
    · rw [← hrun]
      conv_lhs => unfold freeDataBlocks
      dsimp only
      rw [Nat.mod_eq_of_lt h32, if_neg (fun hc => hc.elim hblock hlt), if_neg (by omega)]
    · intro k hk1 hk2
      by_cases hki : k = i
      · subst hki
        by_cases hlater : ∃ k2, k + 1 ≤ k2 ∧ k2 + 1 < n ∧ inode.blocks k2 = inode.blocks k
        · obtain ⟨k2, h1, h2, h3⟩ := hlater
          rw [← h3]
          exact hfreed k2 h1 h2
        · rw [hkept _ (fun k2 h1 h2 h3 => hlater ⟨k2, h1, h2, h3⟩), hdel, if_pos rfl]
      · exact hfreed k (by omega) hk2
    · intro b hbk
      rw [hkept b (fun k h1 h2 => hbk k (by omega) h2), hdel,
        if_neg (fun h => hbk i (le_refl i) (by omega) h.symm)]

/-- The loop of lines 876-885 of `ext2Delete` on a file whose `n ≥ 1` data
blocks are all allocated (`num_sectors * 512 = n * blockSize`, below 4 GiB, so
that the product fits the `uint32_t` it is computed in): it returns with
the bits of the blocks `0 .. n - 2` cleared and every other bit as before; the
bit of the last block stays set unless an earlier slot holds the same
block. -/
theorem freeDataBlocks_spec (inode : Ext2Inode) (n : Nat) (ext2 : Ext2)
    (hbs : 0 < ext2.blockSize) (hbpg : 0 < ext2.superblock.blocks_per_group) (hn1 : 1 ≤ n)
    (hn : inode.num_sectors * 512 = n * ext2.blockSize)
    (h32 : inode.num_sectors * 512 < 2 ^ 32)
    (hnz : ∀ k, k < n → inode.blocks k ≠ 0) :
    ∃ e1, freeDataBlocks inode (inode.num_sectors * 512 + 1) 0 ext2 = .done e1 ∧
      (∀ k, k + 1 < n → e1.dev.blockBitmap (inode.blocks k) = false) ∧
      ((∀ k, k + 1 < n → inode.blocks k ≠ inode.blocks (n - 1)) →
        e1.dev.blockBitmap (inode.blocks (n - 1)) = ext2.dev.blockBitmap (inode.blocks (n - 1))) := by
  have hfuel : n - 1 < inode.num_sectors * 512 + 1 := by
    rw [hn]
    have := Nat.le_mul_of_pos_right n hbs
    omega
  obtain ⟨e1, hrun, -, -, hfreed, hkept⟩ := freeDataBlocks_from inode n ext2.blockSize
    ext2.superblock.blocks_per_group hbs hbpg hn h32 hnz (n - 1) 0 _ ext2 (by omega) hfuel rfl
    rfl
  exact ⟨e1, hrun, fun k hk => hfreed k (Nat.zero_le k) hk,
    fun h => hkept _ (fun k _ hk => h k hk)⟩

/-- Claim C14, failing inputs: deleting the last link of a regular file with
one data block (block 200) returns 0, wipes and frees the inode, and leaves
block 200 marked in use; with two data blocks (202 and 203) the first is
returned to the allocator and the last is not. The loop of lines 876-885 tests
its bound after `i++`, one block early. -/
theorem ext2Delete_keeps_last_block :
    (ext2Delete treeLayer noteDirs 1000 treeVolume "/f" false none).map
        (fun r => (r.1, r.2.1.dev.blockBitmap 200, (r.2.1.dev.inodes 12).dtime,
          (r.2.1.dev.inodes 12).blocks 0, r.2.1.dev.inodeBitmap 12))
      = .done (0, true, 1000, 0, false) ∧
    (ext2Delete treeLayer noteDirs 1000 treeVolume "/g" false none).map
        (fun r => (r.1, r.2.1.dev.blockBitmap 202, r.2.1.dev.blockBitmap 203,
          (r.2.1.dev.inodes 14).dtime, (r.2.1.dev.inodes 14).blocks 1, r.2.1.dev.inodeBitmap 14))
      = .done (0, false, true, 1000, 0, false) := by
  decide!

/-- Claim C15, failing input: the directory `/d` of two data blocks, whose
first block holds `.` and `..` and whose second block holds the live entry
`file`, deleted in directory mode: `ext2Delete` does not return `ENOTEMPTY`, it
returns 0 and takes the link count of the directory from 2 to 1. The check of
lines 828-846 reads the first data block only. -/
theorem ext2Delete_removes_nonempty_directory :
    dirRecInode (getDiskBytes treeVolume treeVolume.dev.heap 0 (BLOCK_TO_LBA treeVolume 301) 8) 0
      = 15 ∧
    dirRecNameLen (getDiskBytes treeVolume treeVolume.dev.heap 0 (BLOCK_TO_LBA treeVolume 301) 8) 0
      = 4 ∧
    (treeVolume.dev.inodes 20).hard_links = 2 ∧
    (ext2Delete treeLayer noteDirs 1000 treeVolume "/d" true none).map
        (fun r => (r.1, (r.2.1.dev.inodes 20).hard_links))
      = .done (0, 1) := by
  decide!

/-! ### `ext2Link` -/

/-- `ext2Link` refuses an inode whose mode has neither the bit `S_IFREG` nor the
bit `S_IFDIR` (FIFO, character device) with `EPERM` and leaves the volume
alone. -/
theorem ext2Link_rejects (pl : PathLayer) (dl : DirLayer) (ext2 : Ext2)
    (filename target : String) (sr srt : Option String)
    (ht : (pl.ext2TraversePath ext2 filename 2 false sr).1 ≠ 0)
    (hp : (ext2InodeFetch ext2 (pl.ext2TraversePath ext2 filename 2 false sr).1).permission
        &&& S_IFREG = 0 ∧
      (ext2InodeFetch ext2 (pl.ext2TraversePath ext2 filename 2 false sr).1).permission
        &&& S_IFDIR = 0) :
    ext2Link pl dl ext2 filename target sr srt =
      .done (ERR EPERM, ext2, (pl.ext2TraversePath ext2 filename 2 false sr).2, srt) := by
  unfold ext2Link
  dsimp only
  rw [if_neg ht, if_pos (fun hc => hc.elim (fun h => h hp.1) (fun h => h hp.2))]

/-- `ext2Link` on a regular file or a directory with a resolvable target
parent: the link count goes up by one and `ext2DirAllocate` is called for the
last component of the target with type byte 1 for a regular file and 2 for a
directory. -/
theorem ext2Link_regular_or_directory (pl : PathLayer) (dl : DirLayer) (ext2 : Ext2)
    (filename target : String) (sr srt : Option String) (k : Nat)
    (ht : (pl.ext2TraversePath ext2 filename 2 false sr).1 ≠ 0)
    (hp : (ext2InodeFetch ext2 (pl.ext2TraversePath ext2 filename 2 false sr).1).permission
        &&& 0xF000 = 0x8000 ∨
      (ext2InodeFetch ext2 (pl.ext2TraversePath ext2 filename 2 false sr).1).permission
        &&& 0xF000 = 0x4000)
    (hlinks : (ext2InodeFetch ext2 (pl.ext2TraversePath ext2 filename 2 false sr).1).hard_links
      < 65535)
    (hk : lastSlash target = some k)
    (htd : (pl.ext2TraversePath ext2 ⟨target.data.take k⟩ 2 false srt).1 ≠ 0)
    (hdir : (ext2InodeFetch ext2
      (pl.ext2TraversePath ext2 ⟨target.data.take k⟩ 2 false srt).1).permission &&& S_IFDIR ≠ 0) :
    ext2Link pl dl ext2 filename target sr srt =
      .done (0,
        dl.ext2DirAllocate
          (ext2InodeModifyM ext2 (pl.ext2TraversePath ext2 filename 2 false sr).1
            { ext2InodeFetch ext2 (pl.ext2TraversePath ext2 filename 2 false sr).1 with
              hard_links :=
                (ext2InodeFetch ext2 (pl.ext2TraversePath ext2 filename 2 false sr).1).hard_links
                  + 1 })
          (pl.ext2TraversePath ext2 ⟨target.data.take k⟩ 2 false srt).1
          (ext2InodeFetch ext2 (pl.ext2TraversePath ext2 ⟨target.data.take k⟩ 2 false srt).1)
          ⟨target.data.drop (k + 1)⟩ (strlength ⟨target.data.drop (k + 1)⟩)
          (if (ext2InodeFetch ext2 (pl.ext2TraversePath ext2 filename 2 false sr).1).permission
              &&& 0xF000 = 0x8000 then 1 else 2)
          (pl.ext2TraversePath ext2 filename 2 false sr).1,
        (pl.ext2TraversePath ext2 filename 2 false sr).2,
        (pl.ext2TraversePath ext2 ⟨target.data.take k⟩ 2 false srt).2) := by
  unfold ext2Link
  generalize pl.ext2TraversePath ext2 filename 2 false sr = t at *
  dsimp only
  have hbits : (ext2InodeFetch ext2 t.1).permission &&& S_IFREG ≠ 0 ∨
      (ext2InodeFetch ext2 t.1).permission &&& S_IFDIR ≠ 0 := by
    rcases hp with h | h
    · exact Or.inl (nibble_regular _ h).1
    · exact Or.inr (nibble_directory _ h).1
  rw [if_neg ht, if_neg (not_not.mpr hbits), hk]
  dsimp only
  rw [if_neg htd, if_neg hdir, Nat.mod_eq_of_lt (by omega)]
  have htype : (if (ext2InodeFetch ext2 t.1).permission &&& S_IFREG ≠ 0 then 1 else 2) =
      (if (ext2InodeFetch ext2 t.1).permission &&& 0xF000 = 0x8000 then 1 else 2) := by
    rcases hp with h | h
    · rw [if_pos (nibble_regular _ h).1, if_pos h]
    · rw [if_neg (not_not.mpr (nibble_directory _ h).2), if_neg (by rw [h]; decide)]
  rw [htype]

/-- Claim C16, failing input: a hard link to the symbolic link `/link` (mode
`0xA1FF`, type nibble `0xA000`): `ext2Link` returns 0, not `EPERM`, takes the
link count from 1 to 2 and adds an entry of type byte 1 for inode 13. Line 927
tests the bits `S_IFREG` and `S_IFDIR` of the mode; line 661 compares the type
nibble. -/
theorem ext2Link_links_symlink :
    0xA1FF &&& 0xF000 ≠ S_IFREG ∧ 0xA1FF &&& 0xF000 ≠ S_IFDIR ∧
    (treeVolume.dev.inodes 13).permission = 0xA1FF ∧
    (treeVolume.dev.inodes 13).hard_links = 1 ∧
    (ext2Link treeLayer noteDirs treeVolume "/link" "/d/new" none none).map
        (fun r => (r.1, (r.2.1.dev.inodes 13).hard_links, r.2.1.dev.bytes 0, r.2.1.dev.bytes 1))
      = .done (0, 2, 1, 13) := by
  decide!

/-! ### `ext2Mmap` -/

/-- `ext2Mmap` refuses a request without `MAP_PRIVATE` with `ENOSYS`, and a
private `MAP_FIXED` request whose address lies strictly inside the HHDM window
or strictly inside the kernel window with `EACCES`; paging state, volume and
descriptor are as before. -/
theorem ext2Mmap_refusals (boot : Bootloader) (physAllocate : Nat → Nat) (pg : Paging)
    (ext2 : Ext2) (addr length prot flags : Nat) (fd : OpenFile) (pgoffset : Nat) :
    (flags &&& MAP_PRIVATE = 0 →
      ext2Mmap boot physAllocate pg ext2 addr length prot flags fd pgoffset =
        .done (ERR ENOSYS, pg, ext2, fd, fun _ => 0)) ∧
    (flags &&& MAP_PRIVATE ≠ 0 → flags &&& MAP_FIXED ≠ 0 →
      (boot.hhdmOffset < addr ∧ addr < (boot.hhdmOffset + boot.mmTotal) % 2 ^ 64) ∨
        (boot.kernelVirtBase < addr ∧ addr < (boot.kernelVirtBase + 268435456) % 2 ^ 64) →
      ext2Mmap boot physAllocate pg ext2 addr length prot flags fd pgoffset =
        .done (ERR EACCES, pg, ext2, fd, fun _ => 0)) := by
  unfold ext2Mmap
  dsimp only
  constructor
  · intro h
    rw [if_pos h]
  · intro hp hf hw
    rw [if_neg hp]
    simp only [hf, ne_eq, not_false_eq_true, true_and, if_true]
    rcases hw with h | h
    · rw [if_pos ⟨h.1, h.2⟩]
    · by_cases h2 : addr > boot.hhdmOffset ∧ addr < (boot.hhdmOffset + boot.mmTotal) % 2 ^ 64
      · rw [if_pos h2]
      · rw [if_neg h2, if_pos ⟨h.1, h.2⟩]

/-- Claim C17, failing input: a private `MAP_FIXED` request for one page at the
first address of the HHDM window: `ext2Mmap` returns that address, not
`EACCES`, allocates a page and maps it there; one byte further on it returns
`EACCES` and changes nothing. Lines 755 and 758 compare with `>`. -/
theorem ext2Mmap_maps_first_HHDM_address :
    (ext2Mmap demoBoot (fun _ => 0x100000) freshPaging (withInode demoVolume shortInode)
        demoBoot.hhdmOffset 4096 0 (MAP_PRIVATE ||| MAP_FIXED) (demoFd 0 shortInode) 0).map
        (fun r => (r.1, r.2.1.mapped.map (fun m => m.1), r.2.1.allocated.length, r.2.1.mmap_end))
      = .done (demoBoot.hhdmOffset, [demoBoot.hhdmOffset], 1, demoBoot.hhdmOffset + 4096) ∧
    (ext2Mmap demoBoot (fun _ => 0x100000) freshPaging (withInode demoVolume shortInode)
        (demoBoot.hhdmOffset + 1) 4096 0 (MAP_PRIVATE ||| MAP_FIXED) (demoFd 0 shortInode) 0).map
        (fun r => (r.1, r.2.1.mapped.map (fun m => m.1), r.2.1.allocated.length, r.2.1.mmap_end))
      = .done (ERR EACCES, [], 0, freshPaging.mmap_end) := by
  decide!

/-! ### Open counts -/

/-- `ext2DuplicateNodeUnsafe` hands the orphan the driver state of the
original, shared object included, and leaves the volume, open counts included,
as it was. -/
theorem ext2DuplicateNodeUnsafe_volume (ext2 : Ext2) (original orphan : OpenFile)
    (r : Bool × Ext2 × OpenFile)
    (h : ext2DuplicateNodeUnsafe ext2 original orphan = .done r) :
    r.2.1 = ext2 ∧ r.2.2.dir = original.dir := by
  unfold ext2DuplicateNodeUnsafe at h
  split at h
  · cases h
  · next dir hd =>
    rw [← Run.done.inj h, hd]
    exact ⟨rfl, rfl⟩

/-- Open count after `ext2Open` has looked up or created the shared object of
`inode` and counted the new descriptor: one more than before, counting from 0
for a new object. -/
theorem openFdsOf_objectAcquire (ext2 : Ext2) (inode : Nat) :
    openFdsOf (objectAcquire ext2 inode) inode = some ((openFdsOf ext2 inode).getD 0 + 1) := by
  unfold openFdsOf objectAcquire
  dsimp only
  rw [findObject_updateObject _ inode (fun o => { o with openFds := o.openFds + 1 })
    (fun _ => rfl)]
  cases hfo : findObject ext2.firstObject inode with
  | some o =>
    dsimp only
    rw [hfo]
    rfl
  | none =>
    dsimp only
    unfold findObject
    simp

/-- Open count after `ext2Close`: one less than before. -/
theorem openFdsOf_ext2Close (ext2 : Ext2) (fd : OpenFile) (dir : Ext2OpenFd)
    (r : Bool × Ext2 × OpenFile) (hd : fd.dir = some dir)
    (h : ext2Close ext2 fd = .done r) :
    openFdsOf r.2.1 dir.globalObject =
      (openFdsOf ext2 dir.globalObject).map (fun n => n - 1) := by
  unfold ext2Close at h
  rw [hd] at h
  dsimp only at h
  rw [← Run.done.inj h]
  unfold openFdsOf
  dsimp only
  rw [findObject_updateObject _ dir.globalObject (fun o => { o with openFds := o.openFds - 1 })
    (fun _ => rfl)]
  cases findObject ext2.firstObject dir.globalObject <;> rfl

/-- Claim C19, failing input: after `ext2Open` and `ext2DuplicateNodeUnsafe` on
a fresh mount two live descriptors reference the object of inode 12 while its
open count is 1; after both are closed the open count is -1. The duplication
does not count the new descriptor. -/
theorem openFds_misses_duplicates :
    dupScenario = .done (some 1, true, true, some (-1)) := by
  decide!

/-! ### `ext2Write`: which slots get new blocks -/

/-- The assignment loop of lines 436-441 leaves the slots before the first
hole alone. -/
theorem assignRun_fold_before (num pib s free b : Nat) (hb : b < pib + s) :
    ∀ (m : Nat) (st : Ext2 × Ext2Inode × List Nat),
      ((List.range m).foldl (assignRun num pib s free) st).2.1.blocks b = st.2.1.blocks b := by
  intro m
  induction m with
  | zero => intro st; rfl
  | succ m ih =>
    intro st
    rw [List.range_succ, List.foldl_append]
    simp only [List.foldl_cons, List.foldl_nil]
    unfold assignRun ext2BlockAssign setSlot
    dsimp only
    rw [if_neg (by omega)]
    exact ih st

/-- The assignment loop of lines 436-441 gives every slot from the first hole
on a block of the new run, whatever the slot held before. -/
theorem assignRun_fold_assigned (num pib s free : Nat) :
    ∀ (m : Nat) (st : Ext2 × Ext2Inode × List Nat) (i : Nat), i < m →
      ((List.range m).foldl (assignRun num pib s free) st).2.1.blocks (pib + s + i) =
        (free + i) % 2 ^ 32 := by
  intro m
  induction m with
  | zero => intro st i hi; omega
  | succ m ih =>
    intro st i hi
    rw [List.range_succ, List.foldl_append]
    simp only [List.foldl_cons, List.foldl_nil]
    unfold assignRun ext2BlockAssign setSlot
    dsimp only
    by_cases him : i = m
    · subst him
      rw [if_pos rfl]
    · rw [if_neg (by omega)]
      exact ih st i (by omega)

/-- The allocation step of `ext2Write` when the chain of the region has a hole,
the first one at index `s`: the slots before it keep their blocks, and every
slot from it to the end of the region gets a block of one new run, whatever it
held before. -/
theorem ext2WriteAlloc_slots (ext2 : Ext2) (dir : Ext2OpenFd) (pib n s : Nat)
    (hs : firstHole (ext2BlockChain dir pib (n - 1)) n = some s) :
    (∀ b, b < pib + s → (ext2WriteAlloc ext2 dir pib n).2.1.blocks b = dir.inode.blocks b) ∧
    ∃ free, ∀ i, i < n - s →
      (ext2WriteAlloc ext2 dir pib n).2.1.blocks (pib + s + i) = (free + i) % 2 ^ 32 := by
  unfold ext2WriteAlloc
  dsimp only
  rw [hs]
  dsimp only
  exact ⟨fun b hb => assignRun_fold_before _ pib s _ b hb _ _,
    ⟨_, fun i hi => assignRun_fold_assigned _ pib s _ _ _ i hi⟩⟩

/-- The allocation step of `ext2Write` when the chain of the region has no
hole: nothing is allocated and the inode is as before. -/
theorem ext2WriteAlloc_no_hole (ext2 : Ext2) (dir : Ext2OpenFd) (pib n : Nat)
    (hs : firstHole (ext2BlockChain dir pib (n - 1)) n = none) :
    ext2WriteAlloc ext2 dir pib n = (ext2, dir.inode, ext2BlockChain dir pib (n - 1)) := by
  unfold ext2WriteAlloc
  dsimp only
  rw [hs]

/-- Claim C20, failing input: 8192 bytes written at offset 0 of a file whose
slot 0 is a hole and whose slot 1 holds block 201: the write returns 8192 and
assigns the new blocks 100 and 101 to both slots, in the descriptor and in the
inode record on the device; block 201 is left as it was, still marked in use,
and the payload of slot 1 is in block 101. Line 433 allocates for every slot
from the first hole on. -/
theorem ext2Write_reassigns_allocated_slot :
    (ext2Write holeVolume (demoFd O_RDWR holeInode) (fun _ => 65) 8192).map
        (fun r => (r.1, slotsOf r.2.2, r.2.1.dev.bytes (blockByte holeVolume 201 0),
          r.2.1.dev.bytes (blockByte holeVolume 101 0), r.2.1.dev.blockBitmap 201))
      = .done (8192, (100, 101), 0, 65, true) ∧
    (ext2Write holeVolume (demoFd O_RDWR holeInode) (fun _ => 65) 8192).map
        (fun r => ((ext2InodeFetch r.2.1 12).blocks 0, (ext2InodeFetch r.2.1 12).blocks 1))
      = .done (100, 101) := by
  decide!

/-! ## Run coalescing is block-by-block I/O -/

/-- Two adjacent copies out of one buffer are one copy. -/
theorem memcpy_append (dst src : Mem) (d s n1 n2 : Nat) :
    memcpy (memcpy dst d src s n1) (d + n1) src (s + n1) n2 = memcpy dst d src s (n1 + n2) := by
  funext a
  unfold memcpy
  by_cases ha : d + n1 ≤ a ∧ a < d + n1 + n2
  · rw [if_pos ha, if_pos (by omega)]
    congr 1
    omega
  · rw [if_neg ha]
    by_cases hb : d ≤ a ∧ a < d + n1
    · rw [if_pos hb, if_pos (by omega)]
    · rw [if_neg hb, if_neg (by omega)]

/-- Two adjacent sector writes out of one buffer are one sector write. -/
theorem setDiskBytes_append (e : Ext2) (src : Mem) (s lba c1 c2 : Nat) :
    setDiskBytes (setDiskBytes e src s lba c1) src (s + c1 * SECTOR_SIZE) (lba + c1) c2 =
      setDiskBytes e src s lba (c1 + c2) := by
  have hb : memcpy (memcpy e.dev.bytes (lba * SECTOR_SIZE) src s (c1 * SECTOR_SIZE))
      ((lba + c1) * SECTOR_SIZE) src (s + c1 * SECTOR_SIZE) (c2 * SECTOR_SIZE) =
      memcpy e.dev.bytes (lba * SECTOR_SIZE) src s ((c1 + c2) * SECTOR_SIZE) := by
    rw [Nat.add_mul lba, Nat.add_mul c1]
    exact memcpy_append _ _ _ _ _ _
  exact congrArg (fun b => ({ e with dev := { e.dev with bytes := b } } : Ext2)) hb

/-- Blocks are whole numbers of sectors. -/
theorem blocks_to_sectors (bs x : Nat) (hs : SECTOR_SIZE ∣ bs) :
    x * bs / SECTOR_SIZE = x * (bs / SECTOR_SIZE) := by
  obtain ⟨q, hq⟩ := hs
  rw [hq, Nat.mul_div_cancel_left _ (by decide : 0 < SECTOR_SIZE), Nat.mul_comm SECTOR_SIZE q,
    ← Nat.mul_assoc, Nat.mul_div_cancel _ (by decide : 0 < SECTOR_SIZE)]

/-- The sector of the block `L` blocks after `b`. -/
theorem BLOCK_TO_LBA_add (ext2 : Ext2) (hs : SECTOR_SIZE ∣ ext2.blockSize) (b L : Nat) :
    BLOCK_TO_LBA ext2 (b + L) = BLOCK_TO_LBA ext2 b + L * ext2.blockSize / SECTOR_SIZE := by
  unfold BLOCK_TO_LBA
  rw [blocks_to_sectors _ _ hs, blocks_to_sectors _ _ hs, blocks_to_sectors _ _ hs, Nat.add_mul]
  omega

/-- Block-by-block emission of one more block. -/
theorem emitBlockByBlock_succ (ext2 : Ext2) (blocks : List Nat) (m : Nat) (tmp : Mem) :
    emitBlockByBlock ext2 blocks (m + 1) tmp =
      setDiskBytes (emitBlockByBlock ext2 blocks m tmp) tmp (m * ext2.blockSize)
        (BLOCK_TO_LBA ext2 (blockAt blocks m)) (ext2.blockSize / SECTOR_SIZE) := by
  unfold emitBlockByBlock
  rw [List.range_succ, List.foldl_append]
  rfl

/-- Block-by-block emission of a run of `L ≥ 1` consecutive blocks is one write
of `L` blocks. -/
theorem emitBlockByBlock_run (ext2 : Ext2) (blocks : List Nat) (tmp : Mem) (s : Nat)
    (hs : SECTOR_SIZE ∣ ext2.blockSize) :
    ∀ L, (∀ j, j < L + 1 → blockAt blocks (s + j) = blockAt blocks s + j) →
      emitBlockByBlock ext2 blocks (s + (L + 1)) tmp =
        setDiskBytes (emitBlockByBlock ext2 blocks s tmp) tmp (s * ext2.blockSize)
          (BLOCK_TO_LBA ext2 (blockAt blocks s)) ((L + 1) * ext2.blockSize / SECTOR_SIZE) := by
  intro L
  induction L with
  | zero =>
    intro _
    rw [emitBlockByBlock_succ, Nat.zero_add, Nat.one_mul]
  | succ L ih =>
    intro hrun
    have h1 : (s + (L + 1)) * ext2.blockSize =
        s * ext2.blockSize + (L + 1) * ext2.blockSize / SECTOR_SIZE * SECTOR_SIZE := by
      rw [sectors_of_blocks ext2.blockSize (L + 1) hs, Nat.add_mul]
    have h2 : (L + 1 + 1) * ext2.blockSize / SECTOR_SIZE =
        (L + 1) * ext2.blockSize / SECTOR_SIZE + ext2.blockSize / SECTOR_SIZE := by
      rw [blocks_to_sectors _ (L + 1 + 1) hs, blocks_to_sectors _ (L + 1) hs, Nat.add_mul (L + 1) 1,
        Nat.one_mul]
    rw [← Nat.add_assoc s (L + 1) 1, emitBlockByBlock_succ, ih (fun j hj => hrun j (by omega)),
      hrun (L + 1) (by omega), BLOCK_TO_LBA_add ext2 hs, h1, setDiskBytes_append, h2]

/-- For 32-bit block numbers the comparison `blocks[i + 1] == blocks[i] + 1` of
the source, carried out in `uint32_t`, says that the next entry is the next
block, provided the next entry is not zero. -/
theorem consecutive_iff (x y : Nat) (hx32 : x < 2 ^ 32) (hy : y ≠ 0) (hy32 : y < 2 ^ 32) :
    y = (x + 1) % 2 ^ 32 ↔ y = x + 1 := by
  constructor
  · intro h
    by_cases hx : x + 1 < 2 ^ 32
    · rw [Nat.mod_eq_of_lt hx] at h; exact h
    · exfalso
      have hx2 : x + 1 = 2 ^ 32 := by omega
      rw [hx2, Nat.mod_self] at h; exact hy h
  · intro h
    rw [h, Nat.mod_eq_of_lt (by omega)]

/-- A log in maximal runs ends where the next run has to start. -/
theorem MaximalRuns.boundary {blocks : List Nat} {n c : Nat} {log : List BlockWrite}
    (h : MaximalRuns blocks n c log) :
    c = 0 ∨ c = n ∨ blockAt blocks c ≠ blockAt blocks (c - 1) + 1 := by
  cases h with
  | nil => exact Or.inl rfl
  | snoc s cnt log _ _ _ _ _ hr => exact Or.inr hr


/-- One iteration of the logged emission loop keeps the invariant. -/
theorem LogInv_step (ext2 : Ext2) (blocks : List Nat) (tmp : Mem) (n m : Nat)
    (hs : SECTOR_SIZE ∣ ext2.blockSize)
    (hnz : ∀ k, k < n → blockAt blocks k ≠ 0 ∧ blockAt blocks k < 2 ^ 32)
    (hm : m < n) (st : Run (Consec × Ext2) × List BlockWrite)
    (h : LogInv ext2 blocks tmp n m st) :
    LogInv ext2 blocks tmp n (m + 1) (ext2WriteLogStep blocks n tmp st m) := by
  obtain ⟨c, e, hst, hsv, hend, hlog, hcase⟩ := h
  have hb := hnz m hm
  have hcons : ¬ (m + 1 = n) →
      (blockAt blocks (m + 1) = (blockAt blocks m + 1) % 2 ^ 32 ↔
        blockAt blocks (m + 1) = blockAt blocks m + 1) := fun hne =>
    consecutive_iff _ _ hb.2 (hnz (m + 1) (by omega)).1 (hnz (m + 1) (by omega)).2
  have hbs : e.blockSize = ext2.blockSize := SameVolume.blockSize hsv
  have hlba : ∀ b, BLOCK_TO_LBA e b = BLOCK_TO_LBA ext2 b := fun b =>
    sameVolume_BLOCK_TO_LBA hsv b
  unfold ext2WriteLogStep
  rw [hst]
  unfold ext2WriteStep ext2WriteIssued
  dsimp only
  rw [if_neg hb.1, if_neg hb.1]
  rcases hcase with ⟨hcs, hcb, hem, hruns⟩ | ⟨s, hcs, hsm, hmn, hcb, hem, hruns, hrun⟩
  · have h0 : c.consecStart < 0 := by rw [hcs]; decide
    rw [if_pos h0, if_pos h0]
    by_cases hc : ¬ (m + 1 = n) ∧ blockAt blocks (m + 1) = (blockAt blocks m + 1) % 2 ^ 32
    · rw [if_pos hc, if_pos hc]
      have hc2 := (hcons hc.1).1 hc.2
      refine ⟨_, _, rfl, hsv, hend, hlog,
        Or.inr ⟨m, rfl, Nat.lt_succ_self m, by omega, hcb, hem, hruns, ?_⟩⟩
      intro k hk1 hk2
      have : k = m ∨ k = m + 1 := by omega
      rcases this with rfl | rfl
      · simp
      · rw [hc2]; simp
    · rw [if_neg hc, if_neg hc]
      unfold ext2WriteIo
      have h1 : ¬ c.consecEnd ≠ 0 := by rw [hend]; simp
      rw [if_neg h1]
      have hright : m + 1 = n ∨ blockAt blocks (m + 1) ≠ blockAt blocks (m + 1 - 1) + 1 := by
        by_cases hne : m + 1 = n
        · exact Or.inl hne
        · refine Or.inr (fun h2 => hc ⟨hne, (hcons hne).2 ?_⟩)
          rw [h2]; rfl
      have hleft : m = 0 ∨ blockAt blocks m ≠ blockAt blocks (m - 1) + 1 := by
        rcases hruns.boundary with h0 | h0 | h0
        · exact Or.inl h0
        · omega
        · exact Or.inr h0
      have hdev : setDiskBytes e tmp (c.currBlock * e.blockSize) (BLOCK_TO_LBA e (blockAt blocks m))
          (e.blockSize / SECTOR_SIZE) = emitBlockByBlock ext2 blocks (m + 1) tmp := by
        rw [emitBlockByBlock_succ, ← hem, hbs, hlba, hcb]
      refine ⟨_, _, rfl, ?_, rfl, ?_, Or.inl ⟨rfl, by simp [hcb], hdev, ?_⟩⟩
      · exact SameVolume.trans hsv rfl
      · dsimp only
        rw [List.foldl_append, ← hlog]
        unfold BlockWrite.perform
        simp only [List.foldl_cons, List.foldl_nil, Nat.one_mul]
      · dsimp only
        rw [hcb]
        exact MaximalRuns.snoc m 1 st.2 hruns (by decide) (by omega)
          (fun j hj => by
            have : j = 0 := by omega
            subst this
            rfl) hleft hright
  · have h0 : ¬ c.consecStart < 0 := by rw [hcs]; omega
    rw [if_neg h0, if_neg h0]
    by_cases hc : m + 1 = n ∨ blockAt blocks (m + 1) ≠ (blockAt blocks m + 1) % 2 ^ 32
    · rw [if_pos hc, if_pos hc]
      unfold ext2WriteIo
      dsimp only
      have h1 : m ≠ 0 := by omega
      rw [if_pos h1, if_pos h1]
      have hneed : ((m : Int) - c.consecStart + 1).toNat = m - s + 1 := by
        rw [hcs]; omega
      have hstart : c.consecStart.toNat = s := by
        rw [hcs]; simp
      have hright : s + (m - s + 1) = n ∨
          blockAt blocks (s + (m - s + 1)) ≠ blockAt blocks (s + (m - s + 1) - 1) + 1 := by
        have e1 : s + (m - s + 1) = m + 1 := by omega
        rw [e1]
        by_cases hne : m + 1 = n
        · exact Or.inl hne
        · refine Or.inr (fun h2 => ?_)
          rcases hc with hc | hc
          · exact hne hc
          · exact hc ((hcons hne).2 h2)
      have hleft : s = 0 ∨ blockAt blocks s ≠ blockAt blocks (s - 1) + 1 := by
        rcases hruns.boundary with h0 | h0 | h0
        · exact Or.inl h0
        · omega
        · exact Or.inr h0
      have hrun2 : ∀ j, j < m - s + 1 → blockAt blocks (s + j) = blockAt blocks s + j := by
        intro j hj
        rw [hrun (s + j) (by omega) (by omega)]
        omega
      have hdev : setDiskBytes e tmp (s * e.blockSize) (BLOCK_TO_LBA e (blockAt blocks s))
          ((m - s + 1) * e.blockSize / SECTOR_SIZE) = emitBlockByBlock ext2 blocks (m + 1) tmp := by
        have e1 : m + 1 = s + (m - s + 1) := by omega
        rw [e1, emitBlockByBlock_run ext2 blocks tmp s hs (m - s) hrun2, ← hem, hbs, hlba]
      rw [hneed, hstart, hcb]
      refine ⟨_, _, rfl, ?_, rfl, ?_, Or.inl ⟨rfl, by simp; omega, hdev, ?_⟩⟩
      · exact SameVolume.trans hsv rfl
      · dsimp only
        rw [List.foldl_append, ← hlog]
        unfold BlockWrite.perform
        simp only [List.foldl_cons, List.foldl_nil]
      · dsimp only
        have e1 : m + 1 = s + (m - s + 1) := by omega
        rw [e1]
        exact MaximalRuns.snoc s (m - s + 1) st.2 hruns (by omega) (by omega) hrun2 hleft hright
    · rw [if_neg hc, if_neg hc]
      have hc1 : ¬ (m + 1 = n) := fun h => hc (Or.inl h)
      have hc2 : blockAt blocks (m + 1) = blockAt blocks m + 1 := by
        refine (hcons hc1).1 ?_
        by_contra h; exact hc (Or.inr h)
      refine ⟨_, _, rfl, hsv, hend, hlog,
        Or.inr ⟨s, hcs, by omega, by omega, hcb, hem, hruns, ?_⟩⟩
      intro k hk1 hk2
      by_cases hkm : k ≤ m
      · exact hrun k hk1 hkm
      · have : k = m + 1 := by omega
        subst this
        rw [hc2, hrun m (by omega) (le_refl m)]
        omega

/-- The invariant holds before every index up to `n`. -/
theorem LogInv_fold (ext2 : Ext2) (blocks : List Nat) (tmp : Mem) (n : Nat)
    (hs : SECTOR_SIZE ∣ ext2.blockSize)
    (hnz : ∀ k, k < n → blockAt blocks k ≠ 0 ∧ blockAt blocks k < 2 ^ 32) :
    ∀ m, m ≤ n → LogInv ext2 blocks tmp n m
      ((List.range m).foldl (ext2WriteLogStep blocks n tmp) (.done (Consec.init, ext2), [])) := by
  intro m
  induction m with
  | zero =>
    intro _
    exact ⟨_, _, rfl, SameVolume.refl _, rfl, rfl, Or.inl ⟨rfl, rfl, rfl, MaximalRuns.nil⟩⟩
  | succ m ih =>
    intro hm
    rw [List.range_succ, List.foldl_append]
    exact LogInv_step ext2 blocks tmp n m hs hnz (by omega) _ (ih (by omega))

/-- The logged loop runs the emission loop: its first component is the state of
the emission loop. -/
theorem ext2WriteLog_fst (ext2 : Ext2) (blocks : List Nat) (tmp : Mem) (n : Nat) :
    ∀ m, ((List.range m).foldl (ext2WriteLogStep blocks n tmp) (.done (Consec.init, ext2), [])).1 =
      (List.range m).foldl (ext2WriteStep blocks n tmp) (.done (Consec.init, ext2)) := by
  intro m
  induction m with
  | zero => rfl
  | succ m ih =>
    rw [List.range_succ, List.foldl_append, List.foldl_append]
    simp only [List.foldl_cons, List.foldl_nil]
    rw [← ih]
    rfl


/-- One iteration of the loop of `ext2ReadInner` at a resolved entry keeps the
invariant, whatever the later entries are. -/
theorem ReadInv_step_at (ext2 : Ext2) (blocks : List Nat) (n m : Nat)
    (hs : SECTOR_SIZE ∣ ext2.blockSize)
    (hb : blockAt blocks m ≠ 0 ∧ blockAt blocks m + 1 < 2 ^ 32)
    (hm : m < n) (st : Consec × Mem) (h : ReadInv ext2 blocks n m st) :
    ReadInv ext2 blocks n (m + 1) (ext2ReadInnerStep ext2 blocks n st m) := by
  obtain ⟨hstop, hend, hcase⟩ := h
  have hmod : (blockAt blocks m + 1) % 2 ^ 32 = blockAt blocks m + 1 := Nat.mod_eq_of_lt hb.2
  unfold ext2ReadInnerStep
  rw [hstop, if_neg (by simp), if_neg hb.1, hmod]
  rcases hcase with ⟨hcs, hcb, hgood⟩ | ⟨s, hcs, hsm, hmn, hcb, hgood, hrun⟩
  · rw [if_pos (by rw [hcs]; decide)]
    by_cases hc : ¬ (m + 1 = n) ∧ blockAt blocks (m + 1) = blockAt blocks m + 1
    · rw [if_pos hc]
      refine ⟨hstop, hend, Or.inr ⟨m, rfl, Nat.lt_succ_self m, by omega, hcb, hgood, ?_⟩⟩
      intro k hk1 hk2
      have : k = m ∨ k = m + 1 := by omega
      rcases this with rfl | rfl
      · simp
      · rw [hc.2]; simp
    · rw [if_neg hc]
      unfold ext2ReadInnerIo
      rw [if_neg (by rw [hend]; simp)]
      refine ⟨rfl, rfl, Or.inl ⟨rfl, by simp [hcb], ?_⟩⟩
      dsimp only
      rw [hcb]
      exact staged_single ext2 blocks m st.2 hs hgood
  · rw [if_neg (by rw [hcs]; omega)]
    by_cases hc : m + 1 = n ∨ blockAt blocks (m + 1) ≠ blockAt blocks m + 1
    · rw [if_pos hc]
      unfold ext2ReadInnerIo
      dsimp only
      rw [if_pos (by omega)]
      have hneed : ((m : Int) - st.1.consecStart + 1).toNat = m - s + 1 := by
        rw [hcs]; omega
      rw [hneed, hcs, hcb]
      refine ⟨rfl, rfl, Or.inl ⟨rfl, by simp; omega, ?_⟩⟩
      simp only [Int.toNat_ofNat]
      exact staged_run ext2 blocks s m st.2 hs hsm hgood hrun
    · rw [if_neg hc]
      have hc1 : ¬ (m + 1 = n) := fun h => hc (Or.inl h)
      have hc2 : blockAt blocks (m + 1) = blockAt blocks m + 1 := by
        by_contra h; exact hc (Or.inr h)
      refine ⟨hstop, hend, Or.inr ⟨s, hcs, by omega, by omega, hcb, hgood, ?_⟩⟩
      intro k hk1 hk2
      by_cases hkm : k ≤ m
      · exact hrun k hk1 hkm
      · have : k = m + 1 := by omega
        subst this
        rw [hc2, hrun m (by omega) (le_refl m)]
        omega

/-- The invariant holds before every index up to the first hole. -/
theorem ReadInv_fold_to (ext2 : Ext2) (blocks : List Nat) (n h : Nat)
    (hs : SECTOR_SIZE ∣ ext2.blockSize) (hh : h ≤ n)
    (hnz : ∀ k, k < h → blockAt blocks k ≠ 0 ∧ blockAt blocks k + 1 < 2 ^ 32) :
    ∀ m, m ≤ h → ReadInv ext2 blocks n m
      ((List.range m).foldl (ext2ReadInnerStep ext2 blocks n) (Consec.init, ext2.dev.heap)) := by
  intro m
  induction m with
  | zero =>
    intro _
    refine ⟨rfl, rfl, Or.inl ⟨rfl, rfl, ?_⟩⟩
    intro k hk
    omega
  | succ m ih =>
    intro hm
    rw [List.range_succ, List.foldl_append]
    exact ReadInv_step_at ext2 blocks n m hs (hnz m (by omega)) (by omega) _ (ih (by omega))

/-- The iteration at a hole takes the `break` and leaves the staging buffer. -/
theorem ext2ReadInnerStep_break (ext2 : Ext2) (blocks : List Nat) (n h : Nat) (st : Consec × Mem)
    (hstop : st.1.stop = false) (hz : blockAt blocks h = 0) :
    (ext2ReadInnerStep ext2 blocks n st h).1.stop = true ∧
      (ext2ReadInnerStep ext2 blocks n st h).2 = st.2 := by
  unfold ext2ReadInnerStep
  rw [hstop, if_neg (by simp), if_pos hz]
  exact ⟨rfl, rfl⟩

/-- No iteration runs after the `break`. -/
theorem ext2ReadInnerStep_stopped (ext2 : Ext2) (blocks : List Nat) (n i : Nat) (st : Consec × Mem)
    (hstop : st.1.stop = true) : ext2ReadInnerStep ext2 blocks n st i = st := by
  unfold ext2ReadInnerStep
  rw [hstop, if_pos rfl]

/-- After the `break` at the hole `h` the staging buffer does not change. -/
theorem ext2ReadInnerStep_after_break (ext2 : Ext2) (blocks : List Nat) (n h : Nat)
    (hz : blockAt blocks h = 0)
    (hstop : ((List.range h).foldl (ext2ReadInnerStep ext2 blocks n)
      (Consec.init, ext2.dev.heap)).1.stop = false) :
    ∀ d, ((List.range (h + 1 + d)).foldl (ext2ReadInnerStep ext2 blocks n)
        (Consec.init, ext2.dev.heap)).1.stop = true ∧
      ((List.range (h + 1 + d)).foldl (ext2ReadInnerStep ext2 blocks n)
        (Consec.init, ext2.dev.heap)).2 =
      ((List.range h).foldl (ext2ReadInnerStep ext2 blocks n) (Consec.init, ext2.dev.heap)).2 := by
  intro d
  induction d with
  | zero =>
    rw [Nat.add_zero, List.range_succ, List.foldl_append]
    simp only [List.foldl_cons, List.foldl_nil]
    exact ext2ReadInnerStep_break ext2 blocks n h _ hstop hz
  | succ d ih =>
    rw [← Nat.add_assoc, List.range_succ, List.foldl_append]
    simp only [List.foldl_cons, List.foldl_nil]
    rw [ext2ReadInnerStep_stopped ext2 blocks n _ _ ih.1]
    exact ih

/-- The loop of `ext2ReadInner` stages every block before the first hole of the
chain. -/
theorem ext2ReadInnerLoop_staged_to_hole (ext2 : Ext2) (blocks : List Nat) (n h : Nat)
    (hs : SECTOR_SIZE ∣ ext2.blockSize) (hh : h ≤ n)
    (hnz : ∀ k, k < h → blockAt blocks k ≠ 0 ∧ blockAt blocks k + 1 < 2 ^ 32)
    (hz : h < n → blockAt blocks h = 0) :
    Staged ext2 blocks h (ext2ReadInnerLoop ext2 blocks n) := by
  by_cases hlt : h < n
  · obtain ⟨hstop, _, hcase⟩ := ReadInv_fold_to ext2 blocks n h hs hh hnz h (le_refl h)
    have hafter := ext2ReadInnerStep_after_break ext2 blocks n h (hz hlt) hstop (n - h)
    have e1 : h + 1 + (n - h) = n + 1 := by omega
    rw [e1] at hafter
    unfold ext2ReadInnerLoop
    rw [hafter.2]
    rcases hcase with ⟨_, _, hgood⟩ | ⟨s, _, hsh, _, _, _, hrun⟩
    · exact hgood
    · have := hrun h (by omega) (le_refl h)
      rw [hz hlt] at this
      have hs0 := (hnz s hsh).1
      omega
  · have hn : h = n := by omega
    subst hn
    exact ext2ReadInnerLoop_staged ext2 blocks h hs hnz


/-- The extra iteration `i = blocksRequired` of the loop of `ext2ReadInner`
stages block `blocks[blocksRequired]` as well when the chain is resolved up to
it and the word after it is not its successor. -/
theorem ext2ReadInnerLoop_staged_extra (ext2 : Ext2) (blocks : List Nat) (n : Nat)
    (hs : SECTOR_SIZE ∣ ext2.blockSize)
    (hnz : ∀ k, k < n + 1 → blockAt blocks k ≠ 0 ∧ blockAt blocks k + 1 < 2 ^ 32)
    (hnext : blockAt blocks (n + 1) ≠ blockAt blocks n + 1) :
    Staged ext2 blocks (n + 1) (ext2ReadInnerLoop ext2 blocks n) := by
  unfold ext2ReadInnerLoop
  rw [List.range_succ, List.foldl_append]
  obtain ⟨hstop, hend, hcase⟩ :=
    ReadInv_fold ext2 blocks n hs (fun k hk => hnz k (by omega)) n (le_refl n)
  generalize (List.range n).foldl (ext2ReadInnerStep ext2 blocks n) (Consec.init, ext2.dev.heap)
    = st at hstop hend hcase
  have hb := hnz n (Nat.lt_succ_self n)
  rcases hcase with ⟨hcs, hcb, hgood⟩ | ⟨s, -, -, hlt, -⟩
  · simp only [List.foldl_cons, List.foldl_nil]
    unfold ext2ReadInnerStep
    have h0 : st.1.consecStart < 0 := by rw [hcs]; decide
    have h1 : ¬ (¬ (n + 1 = n) ∧ blockAt blocks (n + 1) = (blockAt blocks n + 1) % 2 ^ 32) := by
      rw [Nat.mod_eq_of_lt hb.2]
      exact fun h => hnext h.2
    rw [hstop, if_neg (by simp), if_neg hb.1, if_pos h0, if_neg h1]
    unfold ext2ReadInnerIo
    rw [if_neg (by rw [hend]; simp)]
    dsimp only
    rw [hcb]
    exact staged_single ext2 blocks n st.2 hs hgood
  · omega

/-- Claim C22: run coalescing is block-by-block I/O. On a volume whose blocks
are whole sectors, for every list of `n` non-zero 32-bit block numbers and
every staging buffer, the emission loop of `ext2Write` returns; the device it
leaves is the one its block-device writes make, and this is the device that
writing staging block `k` to block `blocks[k]` for `k = 0, .., n - 1`, one block
at a time, makes; the writes issued go through the staging blocks in increasing
order, each block in one write, and each write covers a maximal run of
consecutive block numbers. The loop of `ext2ReadInner` leaves block `blocks[k]`
of the device in staging block `k` for every `k` before the first hole `h` of
the chain, the entries before the hole being block numbers below
`0xFFFFFFFF`; and its extra iteration `i = n` stages `blocks[n]` too when the
chain is resolved up to it and the word after it is not its successor. -/
theorem run_coalescing_is_block_by_block (ext2 : Ext2) (n : Nat)
    (hs : SECTOR_SIZE ∣ ext2.blockSize) :
    (∀ (blocks : List Nat) (tmp : Mem),
      (∀ k, k < n → blockAt blocks k ≠ 0 ∧ blockAt blocks k < 2 ^ 32) →
      ext2WriteEmit ext2 blocks n tmp =
        .done ((ext2WriteLog ext2 blocks n tmp).foldl (BlockWrite.perform tmp) ext2) ∧
      (ext2WriteLog ext2 blocks n tmp).foldl (BlockWrite.perform tmp) ext2 =
        emitBlockByBlock ext2 blocks n tmp ∧
      MaximalRuns blocks n n (ext2WriteLog ext2 blocks n tmp)) ∧
    (∀ (blocks : List Nat) (h : Nat), h ≤ n →
      (∀ k, k < h → blockAt blocks k ≠ 0 ∧ blockAt blocks k + 1 < 2 ^ 32) →
      (h < n → blockAt blocks h = 0) →
      Staged ext2 blocks h (ext2ReadInnerLoop ext2 blocks n)) ∧
    (∀ (blocks : List Nat),
      (∀ k, k < n + 1 → blockAt blocks k ≠ 0 ∧ blockAt blocks k + 1 < 2 ^ 32) →
      blockAt blocks (n + 1) ≠ blockAt blocks n + 1 →
      Staged ext2 blocks (n + 1) (ext2ReadInnerLoop ext2 blocks n)) := by
  refine ⟨fun blocks tmp hnz => ?_, fun blocks h hh hnz hz =>
    ext2ReadInnerLoop_staged_to_hole ext2 blocks n h hs hh hnz hz, fun blocks hnz hnext =>
    ext2ReadInnerLoop_staged_extra ext2 blocks n hs hnz hnext⟩
  obtain ⟨c, e, hst, _, _, hlog, hcase⟩ := LogInv_fold ext2 blocks tmp n hs hnz n (le_refl n)
  have hfst := ext2WriteLog_fst ext2 blocks tmp n n
  rw [hst] at hfst
  have hemit : ext2WriteEmit ext2 blocks n tmp = .done e := by
    unfold ext2WriteEmit
    rw [← hfst]
    rfl
  rcases hcase with ⟨_, _, hem, hruns⟩ | ⟨s, _, _, hmn, _⟩
  · refine ⟨?_, ?_, hruns⟩
    · rw [hemit, hlog]
      rfl
    · rw [← hem, hlog]
      rfl
  · omega

/-- Claim C22 at a concrete input: the chain `7, 8, 9, 20` goes out in the two
writes "3 blocks from staging block 0 to block 7" and "1 block from staging
block 3 to block 20"; the chain `7, 8, 0, 9` with its hole at index 2 has its
blocks 7 and 8 staged; and the chain `7, 8, 9, 20, 21` of `4 + 1` entries has
all five blocks staged. -/
theorem run_coalescing_is_block_by_block_witness :
    SECTOR_SIZE ∣ demoVolume.blockSize ∧
    (ext2WriteEmit demoVolume [7, 8, 9, 20] 4 helloBuf =
        .done ((ext2WriteLog demoVolume [7, 8, 9, 20] 4 helloBuf).foldl
          (BlockWrite.perform helloBuf) demoVolume) ∧
      (ext2WriteLog demoVolume [7, 8, 9, 20] 4 helloBuf).foldl
          (BlockWrite.perform helloBuf) demoVolume =
        emitBlockByBlock demoVolume [7, 8, 9, 20] 4 helloBuf ∧
      MaximalRuns [7, 8, 9, 20] 4 4 (ext2WriteLog demoVolume [7, 8, 9, 20] 4 helloBuf)) ∧
    Staged demoVolume [7, 8, 0, 9, 0] 2 (ext2ReadInnerLoop demoVolume [7, 8, 0, 9, 0] 4) ∧
    Staged demoVolume [7, 8, 9, 20, 21] 5 (ext2ReadInnerLoop demoVolume [7, 8, 9, 20, 21] 4) :=
  ⟨⟨8, by rfl⟩,
    (run_coalescing_is_block_by_block demoVolume 4 ⟨8, by rfl⟩).1 [7, 8, 9, 20] helloBuf
      (by decide),
    (run_coalescing_is_block_by_block demoVolume 4 ⟨8, by rfl⟩).2.1 [7, 8, 0, 9, 0] 2
      (by decide) (by decide) (by decide),
    (run_coalescing_is_block_by_block demoVolume 4 ⟨8, by rfl⟩).2.2 [7, 8, 9, 20, 21]
      (by decide) (by decide)⟩

/-- Claim C22, the values of the witness: the writes that the emission loop
issues for the chain `7, 8, 9, 20`, as (staging block, first block, blocks). -/
theorem ext2WriteLog_example :
    (ext2WriteLog demoVolume [7, 8, 9, 20] 4 helloBuf).map
      (fun w => (w.index, w.block, w.count)) = [(0, 7, 3), (3, 20, 1)] := by
  decide!

/-- A block number `0xFFFFFFFF` right before a hole is outside the read-side
statement: `blocks[i] + 1` wraps to the zero of the hole, the loop opens a run
at it and takes the `break` at the hole with the run pending, and the staging
buffer is left as it was allocated. -/
theorem ext2ReadInnerLoop_wrapping_entry :
    ext2ReadInnerLoop demoVolume [4294967295, 0, 0] 2 = demoVolume.dev.heap := by
  rfl

/-! ## `ext2Write` preserves the bytes around the written range -/

/-- The staging buffer of `ext2Write` holds, behind the payload, the bytes that
the device holds there: the rest of the last block of the region was read in
(lines 448-457). -/
theorem ext2WriteStage_tail (ext2 : Ext2) (blocks : List Nat) (buff : Mem)
    (left remainder k j : Nat) (hbs : 0 < ext2.blockSize) (hs : SECTOR_SIZE ∣ ext2.blockSize)
    (hrem : 0 < remainder) (hk : k < DivRoundUp remainder ext2.blockSize)
    (hj : j < ext2.blockSize) (hq : remainder ≤ k * ext2.blockSize + j) :
    ext2WriteStage ext2 blocks (DivRoundUp remainder ext2.blockSize) buff left remainder
        (k * ext2.blockSize + j) =
      ext2.dev.bytes (blockByte ext2 (blockAt blocks k) j) := by
  obtain ⟨n, hn⟩ : ∃ n, n = DivRoundUp remainder ext2.blockSize := ⟨_, rfl⟩
  have hlt := DivRoundUp_mul_lt remainder ext2.blockSize hrem hbs
  rw [← hn] at hk hlt ⊢
  have hkn : k = n - 1 := by
    by_contra hc
    have h1 : (k + 1 + 1) * ext2.blockSize ≤ n * ext2.blockSize :=
      Nat.mul_le_mul_right _ (by omega)
    rw [Nat.add_mul, Nat.add_mul, Nat.one_mul] at h1
    omega
  unfold ext2WriteStage memcpy
  rw [if_neg (by omega), ← hkn]
  by_cases hk0 : k > 0
  · rw [if_pos hk0, getDiskBytes_apply, Nat.div_mul_cancel hs, if_pos (by omega)]
    congr 1
    unfold blockByte
    omega
  · have hk00 : k = 0 := by omega
    subst hk00
    rw [if_neg hk0, getDiskBytes_apply, Nat.div_mul_cancel hs, if_pos (by omega)]
    congr 1
    unfold blockByte
    omega

/-- Frame of the head step of `ext2Write`: the read-modify-write of the head
block changes no device byte other than the `headBytes` bytes from the cursor
position on. -/
theorem ext2WriteHead_frame (ext2 : Ext2) (dir : Ext2OpenFd) (buff : Mem) (limit : Nat)
    (hs : SECTOR_SIZE ∣ ext2.blockSize) (a : Nat)
    (ha : ∀ j, j < headBytes ext2 dir limit →
      a ≠ blockByte ext2 (dir.inode.blocks (dir.ptr / ext2.blockSize))
        (dir.ptr % ext2.blockSize + j)) :
    (ext2WriteHead ext2 dir buff limit).1.dev.bytes a = ext2.dev.bytes a := by
  unfold headBytes at ha
  unfold ext2WriteHead
  dsimp only
  by_cases hpos : dir.ptr % ext2.blockSize > 0
  · rw [if_pos hpos] at ha ⊢
    dsimp only
    rw [setDiskBytes_apply, Nat.div_mul_cancel hs]
    unfold ext2BlockFetch
    by_cases hin : BLOCK_TO_LBA ext2 (dir.inode.blocks (dir.ptr / ext2.blockSize)) * SECTOR_SIZE ≤ a ∧
        a < BLOCK_TO_LBA ext2 (dir.inode.blocks (dir.ptr / ext2.blockSize)) * SECTOR_SIZE +
          ext2.blockSize
    · rw [if_pos hin]
      unfold memcpy
      by_cases hw : dir.ptr % ext2.blockSize ≤
            a - BLOCK_TO_LBA ext2 (dir.inode.blocks (dir.ptr / ext2.blockSize)) * SECTOR_SIZE + 0 ∧
          a - BLOCK_TO_LBA ext2 (dir.inode.blocks (dir.ptr / ext2.blockSize)) * SECTOR_SIZE + 0 <
            dir.ptr % ext2.blockSize +
              MIN (ext2.blockSize - dir.ptr % ext2.blockSize) limit
      · exfalso
        refine ha (a - BLOCK_TO_LBA ext2 (dir.inode.blocks (dir.ptr / ext2.blockSize)) *
          SECTOR_SIZE - dir.ptr % ext2.blockSize) (by omega) ?_
        unfold blockByte
        omega
      · rw [if_neg hw, getDiskBytes_apply, Nat.div_mul_cancel hs, if_pos (by omega)]
        congr 1
        omega
    · rw [if_neg hin]
  · rw [if_neg hpos]

/-- What the aligned/tail step of `ext2Write` leaves on the device when the
entries of the array `blocks` after allocation are resolved and pairwise
different: byte `j` of block `k` of the region is the payload byte
`buff[left + k*blockSize + j]` when that lies within the `remainder` bytes, and
is as before otherwise; outside the blocks of the region the device is as
before. -/
theorem ext2WriteAligned_frame (ext2 : Ext2) (dir : Ext2OpenFd) (buff : Mem)
    (left remainder pib : Nat)
    (hbs : 0 < ext2.blockSize) (hs : SECTOR_SIZE ∣ ext2.blockSize) (hrem : 0 < remainder)
    (hnz : ∀ k, k < DivRoundUp remainder ext2.blockSize →
      blockAt (ext2WriteAlloc ext2 dir pib (DivRoundUp remainder ext2.blockSize)).2.2 k ≠ 0 ∧
      blockAt (ext2WriteAlloc ext2 dir pib (DivRoundUp remainder ext2.blockSize)).2.2 k + 1
        < 2 ^ 32)
    (hd : ∀ k k2, k < k2 → k2 < DivRoundUp remainder ext2.blockSize →
      blockAt (ext2WriteAlloc ext2 dir pib (DivRoundUp remainder ext2.blockSize)).2.2 k ≠
      blockAt (ext2WriteAlloc ext2 dir pib (DivRoundUp remainder ext2.blockSize)).2.2 k2)
    (e1 : Ext2) (d1 : Ext2OpenFd)
    (hrun : ext2WriteAligned ext2 dir buff left remainder pib = .done (e1, d1)) :
    d1.inode = (ext2WriteAlloc ext2 dir pib (DivRoundUp remainder ext2.blockSize)).2.1 ∧
    (∀ k, k < DivRoundUp remainder ext2.blockSize → ∀ j, j < ext2.blockSize →
      e1.dev.bytes (blockByte ext2
        (blockAt (ext2WriteAlloc ext2 dir pib (DivRoundUp remainder ext2.blockSize)).2.2 k) j) =
        if k * ext2.blockSize + j < remainder then buff (left + (k * ext2.blockSize + j))
        else ext2.dev.bytes (blockByte ext2
          (blockAt (ext2WriteAlloc ext2 dir pib (DivRoundUp remainder ext2.blockSize)).2.2 k) j)) ∧
    (∀ a, (∀ k, k < DivRoundUp remainder ext2.blockSize →
        a < blockByte ext2
          (blockAt (ext2WriteAlloc ext2 dir pib (DivRoundUp remainder ext2.blockSize)).2.2 k) 0 ∨
        blockByte ext2
          (blockAt (ext2WriteAlloc ext2 dir pib (DivRoundUp remainder ext2.blockSize)).2.2 k) 0
            + ext2.blockSize ≤ a) →
      e1.dev.bytes a = ext2.dev.bytes a) := by
  obtain ⟨A, hA⟩ : ∃ A, A = ext2WriteAlloc ext2 dir pib (DivRoundUp remainder ext2.blockSize) :=
    ⟨_, rfl⟩
  rw [← hA] at hnz hd ⊢
  have hsvA : SameVolume ext2 A.1 := by rw [hA]; exact ext2WriteAlloc_same _ _ _ _
  have hbsA : A.1.blockSize = ext2.blockSize := hsvA.blockSize
  have hbytesA : A.1.dev.bytes = ext2.dev.bytes := by rw [hA]; exact ext2WriteAlloc_bytes _ _ _ _
  obtain ⟨e, hemit, hsv1, hem, hun⟩ := ext2WriteEmit_spec A.1 A.2.2
    (ext2WriteStage A.1 A.2.2 (DivRoundUp remainder ext2.blockSize) buff left remainder)
    (DivRoundUp remainder ext2.blockSize) (by rw [hbsA]; exact hs) hnz hd
  unfold ext2WriteAligned at hrun
  rw [if_pos hrem] at hrun
  dsimp only at hrun
  rw [← hA, hemit] at hrun
  have hpair := Run.done.inj hrun
  have he : e = e1 := congrArg Prod.fst hpair
  have hdir : d1 = { dir with inode := A.2.1, ptr := dir.ptr + remainder } :=
    (congrArg Prod.snd hpair).symm
  subst he
  refine ⟨by rw [hdir], ?_, ?_⟩
  · intro k hk j hj
    have h := hem k hk j (by rw [hbsA]; exact hj)
    rw [sameVolume_blockByte hsvA, hbsA] at h
    rw [h]
    by_cases hq : k * ext2.blockSize + j < remainder
    · rw [if_pos hq]
      exact ext2WriteStage_payload _ _ _ _ _ _ _ hq
    · rw [if_neg hq]
      have ht := ext2WriteStage_tail A.1 A.2.2 buff left remainder k j (by rw [hbsA]; exact hbs)
        (by rw [hbsA]; exact hs) hrem (by rw [hbsA]; exact hk) (by rw [hbsA]; exact hj)
        (by rw [hbsA]; omega)
      rw [hbsA, sameVolume_blockByte hsvA, hbytesA] at ht
      exact ht
  · intro a ha
    have h := hun a (by
      intro k hk
      rw [sameVolume_blockByte hsvA, hbsA]
      exact ha k hk)
    rw [h, hbytesA]

/-- Frame of head step and aligned/tail step of `ext2Write` together, for a
write of `N` bytes that is well placed: a device byte that is none of the bytes
at the file offsets `ptr .. ptr + N` is as before; and without a hole in the
region the inode is as before. -/
theorem ext2Write_placed_frame (ext2 : Ext2) (dir : Ext2OpenFd) (buff : Mem) (N : Nat)
    (hbs : 0 < ext2.blockSize) (hs : SECTOR_SIZE ∣ ext2.blockSize)
    (hwp : WellPlaced ext2 dir N) (ea : Ext2) (da : Ext2OpenFd)
    (hrun : ext2WriteAligned (ext2WriteHead ext2 dir buff N).1
        { dir with ptr := dir.ptr + headBytes ext2 dir N } buff (headBytes ext2 dir N)
        (N - headBytes ext2 dir N) (alignedBlock ext2 dir) = .done (ea, da)) :
    (firstHole (ext2BlockChain dir (alignedBlock ext2 dir) (alignedCount ext2 dir N - 1))
        (alignedCount ext2 dir N) = none → da.inode = dir.inode) ∧
    ∀ a, (∀ j, j < N → a ≠ fileByte ext2 da.inode (dir.ptr + j)) →
      ea.dev.bytes a = ext2.dev.bytes a := by
  obtain ⟨hnz, hd, hhead⟩ := hwp
  have hsvH : SameVolume ext2 (ext2WriteHead ext2 dir buff N).1 := ext2WriteHead_same _ _ _ _
  have hbsH : (ext2WriteHead ext2 dir buff N).1.blockSize = ext2.blockSize := hsvH.blockSize
  have hLle : headBytes ext2 dir N ≤ N := by
    unfold headBytes
    split
    · exact MIN_le_right _ _
    · omega
  have hLbs : dir.ptr % ext2.blockSize + headBytes ext2 dir N ≤ ext2.blockSize := by
    have := Nat.mod_lt dir.ptr hbs
    unfold headBytes
    split
    · have := MIN_le_left (ext2.blockSize - dir.ptr % ext2.blockSize) N
      omega
    · omega
  have hLpos : 0 < headBytes ext2 dir N → dir.ptr % ext2.blockSize > 0 := by
    intro h
    by_contra hc
    unfold headBytes at h
    rw [if_neg hc] at h
    omega
  have hpib2 : dir.ptr % ext2.blockSize > 0 → dir.ptr / ext2.blockSize < alignedBlock ext2 dir := by
    intro h; unfold alignedBlock; rw [if_pos h]; omega
  by_cases hrem : N - headBytes ext2 dir N > 0
  · -- an aligned region follows
    have hstart := aligned_start ext2 dir N hbs (by omega)
    obtain ⟨hm1, hm2, hm3⟩ := ext2WriteHead_meta ext2 dir buff N
    have hA2 : (ext2WriteAlloc (ext2WriteHead ext2 dir buff N).1
          { dir with ptr := dir.ptr + headBytes ext2 dir N } (alignedBlock ext2 dir)
          (DivRoundUp (N - headBytes ext2 dir N) (ext2WriteHead ext2 dir buff N).1.blockSize)).2 =
        (ext2WriteAlloc ext2 dir (alignedBlock ext2 dir) (alignedCount ext2 dir N)).2 := by
      rw [hbsH, ext2WriteAlloc_ptr]
      exact ext2WriteAlloc_congr ext2 _ hm1 hm2 hm3 dir _ _
    have hnpos : 0 < alignedCount ext2 dir N := DivRoundUp_pos _ _ hrem hbs
    obtain ⟨hlen, hreg, hbefore, hmeta⟩ :=
      ext2WriteAlloc_spec ext2 dir (alignedBlock ext2 dir) (alignedCount ext2 dir N) hnpos
    have hcnt : DivRoundUp (N - headBytes ext2 dir N) (ext2WriteHead ext2 dir buff N).1.blockSize =
        alignedCount ext2 dir N := by rw [hbsH]; rfl
    obtain ⟨hino, hin, hout⟩ := ext2WriteAligned_frame (ext2WriteHead ext2 dir buff N).1
      { dir with ptr := dir.ptr + headBytes ext2 dir N } buff (headBytes ext2 dir N)
      (N - headBytes ext2 dir N) (alignedBlock ext2 dir) (by rw [hbsH]; exact hbs)
      (by rw [hbsH]; exact hs) hrem
      (by rw [hA2, hcnt]; exact hnz)
      (by rw [hA2, hcnt]; exact fun k k2 hk hk2 => hd k2 hk2 k hk) ea da hrun
    rw [hA2] at hino hin hout
    rw [hcnt] at hin hout
    simp only [sameVolume_blockByte hsvH, hbsH] at hin hout
    refine ⟨?_, ?_⟩
    · intro hnone
      rw [hino, ext2WriteAlloc_no_hole ext2 dir _ _ hnone]
    · intro a ha
      rw [hino] at ha
      -- the head step left the byte alone
      have hheadframe : (ext2WriteHead ext2 dir buff N).1.dev.bytes a = ext2.dev.bytes a := by
        apply ext2WriteHead_frame ext2 dir buff N hs a
        intro j hj
        have hpos := hLpos (by omega)
        have h := ha j (by omega)
        unfold fileByte at h
        obtain ⟨hi1, hi2⟩ := head_index dir.ptr ext2.blockSize j hbs (by omega)
        rw [hi1, hi2, hbefore _ (hpib2 hpos)] at h
        exact h
      rw [← hheadframe]
      by_cases hall : ∀ k, k < alignedCount ext2 dir N →
          a < blockByte ext2 (blockAt (ext2WriteAlloc ext2 dir (alignedBlock ext2 dir)
            (alignedCount ext2 dir N)).2.2 k) 0 ∨
          blockByte ext2 (blockAt (ext2WriteAlloc ext2 dir (alignedBlock ext2 dir)
            (alignedCount ext2 dir N)).2.2 k) 0 + ext2.blockSize ≤ a
      · exact hout a hall
      · push_neg at hall
        obtain ⟨k, hk, hlo, hhi⟩ := hall
        obtain ⟨j, hj⟩ : ∃ j, j = a - blockByte ext2 (blockAt (ext2WriteAlloc ext2 dir
            (alignedBlock ext2 dir) (alignedCount ext2 dir N)).2.2 k) 0 := ⟨_, rfl⟩
        have haj : a = blockByte ext2 (blockAt (ext2WriteAlloc ext2 dir
            (alignedBlock ext2 dir) (alignedCount ext2 dir N)).2.2 k) j := by
          unfold blockByte at hlo hhi hj ⊢
          omega
        have hjbs : j < ext2.blockSize := by omega
        have hnot : ¬ k * ext2.blockSize + j < N - headBytes ext2 dir N := by
          intro hq
          refine ha (headBytes ext2 dir N + (k * ext2.blockSize + j)) (by omega) ?_
          have hpj : dir.ptr + (headBytes ext2 dir N + (k * ext2.blockSize + j)) =
              alignedBlock ext2 dir * ext2.blockSize + (k * ext2.blockSize + j) := by omega
          obtain ⟨hi1, hi2⟩ := aligned_index (alignedBlock ext2 dir) ext2.blockSize
            (k * ext2.blockSize + j) hbs
          have hdiv : (k * ext2.blockSize + j) / ext2.blockSize = k := by
            rw [Nat.add_comm, Nat.add_mul_div_right _ _ hbs, Nat.div_eq_of_lt hjbs, Nat.zero_add]
          have hmod : (k * ext2.blockSize + j) % ext2.blockSize = j := by
            rw [Nat.add_comm, Nat.add_mul_mod_self_right, Nat.mod_eq_of_lt hjbs]
          unfold fileByte
          rw [hpj, hi1, hi2, hdiv, hmod, hreg k hk]
          exact haj
        have := hin k hk j hjbs
        rw [if_neg hnot, ← haj] at this
        exact this
  · -- the write ends inside the head block
    unfold ext2WriteAligned at hrun
    rw [if_neg hrem] at hrun
    have hpair := Run.done.inj hrun
    have he : (ext2WriteHead ext2 dir buff N).1 = ea := congrArg Prod.fst hpair
    have hdir : da = { dir with ptr := dir.ptr + headBytes ext2 dir N } :=
      (congrArg Prod.snd hpair).symm
    refine ⟨fun _ => by rw [hdir], ?_⟩
    intro a ha
    rw [← he]
    apply ext2WriteHead_frame ext2 dir buff N hs a
    intro j hj
    have h := ha j (by omega)
    unfold fileByte at h
    obtain ⟨hi1, hi2⟩ := head_index dir.ptr ext2.blockSize j hbs (by omega)
    rw [hi1, hi2, hdir] at h
    exact h

/-- No bytes need no block. -/
theorem DivRoundUp_zero (b : Nat) (hb : 0 < b) : DivRoundUp 0 b = 0 := by
  unfold DivRoundUp
  exact Nat.div_eq_of_lt (by omega)

/-- A chain without a zero entry has no hole. -/
theorem firstHole_none (blocks : List Nat) (n : Nat) (h : ∀ k, k < n → blockAt blocks k ≠ 0) :
    firstHole blocks n = none := by
  unfold firstHole
  rw [List.find?_eq_none]
  intro x hx
  have := h x (List.mem_range.mp hx)
  simpa using this

/-- A write into blocks that are allocated already finds no hole and is well
placed. -/
theorem wellPlaced_of_allocated (ext2 : Ext2) (dir : Ext2OpenFd) (N : Nat)
    (hbs : 0 < ext2.blockSize) (hal : Allocated ext2 dir.inode dir.ptr N) :
    firstHole (ext2BlockChain dir (alignedBlock ext2 dir) (alignedCount ext2 dir N - 1))
        (alignedCount ext2 dir N) = none ∧ WellPlaced ext2 dir N := by
  obtain ⟨hres, hdist⟩ := hal
  have hdm := Nat.div_add_mod dir.ptr ext2.blockSize
  rw [Nat.mul_comm] at hdm
  have hpib : dir.ptr / ext2.blockSize ≤ alignedBlock ext2 dir := by
    unfold alignedBlock; split <;> omega
  have hpib2 : dir.ptr % ext2.blockSize > 0 → dir.ptr / ext2.blockSize < alignedBlock ext2 dir := by
    intro h; unfold alignedBlock; rw [if_pos h]; omega
  have hF : ∀ k, k < alignedCount ext2 dir N →
      (alignedBlock ext2 dir + k) * ext2.blockSize < dir.ptr + N := by
    intro k hk
    have hrem : 0 < N - headBytes ext2 dir N := by
      by_contra hc
      have h0 : N - headBytes ext2 dir N = 0 := by omega
      unfold alignedCount at hk
      rw [h0, DivRoundUp_zero _ hbs] at hk
      omega
    have hstart := aligned_start ext2 dir N hbs (by omega)
    have hlt := DivRoundUp_mul_lt (N - headBytes ext2 dir N) ext2.blockSize hrem hbs
    have h1 : (k + 1) * ext2.blockSize ≤ alignedCount ext2 dir N * ext2.blockSize :=
      Nat.mul_le_mul_right _ hk
    unfold alignedCount at h1
    rw [Nat.add_mul, Nat.one_mul] at h1
    rw [Nat.add_mul]
    omega
  have hchain : ∀ k, k < alignedCount ext2 dir N →
      blockAt (ext2BlockChain dir (alignedBlock ext2 dir) (alignedCount ext2 dir N - 1)) k =
        dir.inode.blocks (alignedBlock ext2 dir + k) :=
    fun k hk => blockAt_chain dir _ _ k (by omega)
  have hnone : firstHole (ext2BlockChain dir (alignedBlock ext2 dir)
      (alignedCount ext2 dir N - 1)) (alignedCount ext2 dir N) = none := by
    apply firstHole_none
    intro k hk
    rw [hchain k hk]
    exact (hres _ (by omega) (hF k hk)).1
  have hwc : writeChain ext2 dir N =
      ext2BlockChain dir (alignedBlock ext2 dir) (alignedCount ext2 dir N - 1) := by
    unfold writeChain
    rw [ext2WriteAlloc_no_hole ext2 dir _ _ hnone]
  refine ⟨hnone, ?_, ?_, ?_⟩
  · intro k hk
    rw [hwc, hchain k hk]
    exact hres _ (by omega) (hF k hk)
  · intro k2 hk2 k hk
    rw [hwc, hchain k (by omega), hchain k2 hk2]
    exact hdist _ _ (by omega) (by omega) (hF k2 hk2)
  · intro hpos
    have hh := hres (dir.ptr / ext2.blockSize) (le_refl _) (by omega)
    refine ⟨hh.1, hh.2, ?_⟩
    intro k hk
    rw [hwc, hchain k hk]
    exact Ne.symm (hdist _ _ (le_refl _) (by have := hpib2 hpos; omega) (hF k hk))

/-- Frame of the body of `ext2Write` for a write of `N` bytes into blocks that
are allocated already: it returns, the block slots of the inode are as before,
the device holds the payload at the file offsets `ptr .. ptr + N`, and every
other device byte is as before. -/
theorem ext2WriteBody_frame (ext2 : Ext2) (dir : Ext2OpenFd) (buff : Mem) (N : Nat)
    (hbs : 0 < ext2.blockSize) (hs : SECTOR_SIZE ∣ ext2.blockSize)
    (hal : Allocated ext2 dir.inode dir.ptr N) :
    ∃ e1 d1, ext2WriteBody ext2 dir buff N = .done (e1, d1) ∧
      d1.inode.blocks = dir.inode.blocks ∧
      (∀ j, j < N → e1.dev.bytes (fileByte ext2 dir.inode (dir.ptr + j)) = buff j) ∧
      ∀ a, (∀ j, j < N → a ≠ fileByte ext2 dir.inode (dir.ptr + j)) →
        e1.dev.bytes a = ext2.dev.bytes a := by
  obtain ⟨hnone, hwp⟩ := wellPlaced_of_allocated ext2 dir N hbs hal
  have hA : ∃ ea da, ext2WriteAligned (ext2WriteHead ext2 dir buff N).1
        { dir with ptr := dir.ptr + headBytes ext2 dir N } buff (headBytes ext2 dir N)
        (N - headBytes ext2 dir N) (alignedBlock ext2 dir) = .done (ea, da) ∧
      ∀ j, j < N → ea.dev.bytes (fileByte ext2 da.inode (dir.ptr + j)) = buff j := by
    by_cases hN : 0 < N
    · obtain ⟨ea, ia, hrun, _, _, _, hbytes⟩ := ext2Write_placed ext2 dir buff N hbs hs hN hwp
      exact ⟨ea, _, hrun, hbytes⟩
    · refine ⟨(ext2WriteHead ext2 dir buff N).1,
        { dir with ptr := dir.ptr + headBytes ext2 dir N }, ?_, fun j hj => by omega⟩
      unfold ext2WriteAligned
      rw [if_neg (by omega)]
  obtain ⟨ea, da, hrun, hbytes⟩ := hA
  obtain ⟨hino, hframe⟩ := ext2Write_placed_frame ext2 dir buff N hbs hs hwp ea da hrun
  have hda := hino hnone
  rw [hda] at hbytes hframe
  have hbody : ext2WriteBody ext2 dir buff N =
      .done ((ext2WriteSize ea da).1, (ext2WriteSize ea da).2) := by
    unfold ext2WriteBody
    dsimp only
    rw [ext2WriteHead_left]
    have hpib : (if dir.ptr % ext2.blockSize > 0 then dir.ptr / ext2.blockSize + 1
        else dir.ptr / ext2.blockSize) = alignedBlock ext2 dir := rfl
    rw [hpib, hrun]
    rfl
  have hdir := ext2WriteSize_dir ea da
  refine ⟨_, _, hbody, ?_, ?_, ?_⟩
  · rw [hdir]
    dsimp only
    rw [hda]
  · intro j hj
    rw [ext2WriteSize_bytes]
    exact hbytes j hj
  · intro a ha
    rw [ext2WriteSize_bytes]
    exact hframe a ha

/-- Two file offsets in different blocks of an allocated range lie at different
device addresses, and so do two different offsets of one block. -/
theorem fileByte_injective (ext2 : Ext2) (inode : Ext2Inode) (p n : Nat)
    (hbs : 0 < ext2.blockSize) (hs : SECTOR_SIZE ∣ ext2.blockSize)
    (hal : Allocated ext2 inode p n) (b o j : Nat)
    (hb1 : p / ext2.blockSize ≤ b) (hb2 : b * ext2.blockSize < p + n) (ho : o < ext2.blockSize)
    (hj : j < n) (heq : blockByte ext2 (inode.blocks b) o = fileByte ext2 inode (p + j)) :
    b * ext2.blockSize + o = p + j := by
  have hdm := Nat.div_add_mod (p + j) ext2.blockSize
  rw [Nat.mul_comm] at hdm
  have hmod := Nat.mod_lt (p + j) hbs
  unfold fileByte at heq
  have hlo : p / ext2.blockSize ≤ (p + j) / ext2.blockSize :=
    Nat.div_le_div_right (Nat.le_add_right p j)
  by_cases hbb : b = (p + j) / ext2.blockSize
  · rw [← hbb] at heq hdm
    unfold blockByte at heq
    omega
  · exfalso
    have hne : inode.blocks b ≠ inode.blocks ((p + j) / ext2.blockSize) := by
      rcases Nat.lt_or_gt_of_ne hbb with h | h
      · exact hal.2 _ _ hb1 h (by omega)
      · exact Ne.symm (hal.2 _ _ hlo h hb2)
    have hdis := block_disjoint ext2 hs _ _ o ho hne
    rw [heq] at hdis
    unfold blockByte at hdis
    omega

/-- Claim C21: write preserves the bytes around the written range. A write of
`limit` bytes through a descriptor of a file that passes the directory guard,
at the cursor `p` (the file size under `O_APPEND`), ending below 4 GiB, into
blocks that are allocated already (slots resolved and pairwise different), on a
volume whose blocks are whole sectors, returns `limit`, leaves the block slots
of the inode as they were, and on the device: every byte at a file offset in
`[p, p + limit)` is the corresponding byte of the caller's buffer; every byte
of a touched block at a file offset outside `[p, p + limit)` is as before; and
so is every device byte that is not at a file offset of the range. The inode
is the one the write works on: the copy of the descriptor as `ext2CachePush`
brings it up to date in line 373. -/
theorem ext2Write_preserves_surroundings (ext2 : Ext2) (fd : OpenFile) (dir : Ext2OpenFd)
    (buff : Mem) (limit : Nat) (hd : fd.dir = some dir)
    (hp : (ext2CachePush ext2 dir).inode.permission &&& S_IFDIR = 0)
    (hbs : 0 < ext2.blockSize) (hs : SECTOR_SIZE ∣ ext2.blockSize)
    (h32 : writeCursor fd (ext2CachePush ext2 dir) + limit < 2 ^ 32)
    (hal : Allocated ext2 (ext2CachePush ext2 dir).inode
      (writeCursor fd (ext2CachePush ext2 dir)) limit) :
    ∃ e1 fd1 d1, ext2Write ext2 fd buff limit = .done (limit, e1, fd1) ∧
      fd1.dir = some d1 ∧ d1.inode.blocks = (ext2CachePush ext2 dir).inode.blocks ∧
      (∀ j, j < limit →
        e1.dev.bytes (fileByte ext2 (ext2CachePush ext2 dir).inode
          (writeCursor fd (ext2CachePush ext2 dir) + j)) = buff j) ∧
      (∀ b o, writeCursor fd (ext2CachePush ext2 dir) / ext2.blockSize ≤ b →
        b * ext2.blockSize < writeCursor fd (ext2CachePush ext2 dir) + limit →
        o < ext2.blockSize →
        (b * ext2.blockSize + o < writeCursor fd (ext2CachePush ext2 dir) ∨
          writeCursor fd (ext2CachePush ext2 dir) + limit ≤ b * ext2.blockSize + o) →
        e1.dev.bytes (blockByte ext2 ((ext2CachePush ext2 dir).inode.blocks b) o) =
          ext2.dev.bytes (blockByte ext2 ((ext2CachePush ext2 dir).inode.blocks b) o)) ∧
      ∀ a, (∀ j, j < limit → a ≠ fileByte ext2 (ext2CachePush ext2 dir).inode
          (writeCursor fd (ext2CachePush ext2 dir) + j)) →
        e1.dev.bytes a = ext2.dev.bytes a := by
  have _ := h32
  obtain ⟨pd, hpd⟩ : ∃ pd, pd = ext2CachePush ext2 dir := ⟨_, rfl⟩
  rw [← hpd] at hp hal ⊢
  obtain ⟨e1, d1, hbody, hblocks, hin, hframe⟩ := ext2WriteBody_frame
    (cacheInvalidate ext2 pd.globalObject) { pd with ptr := writeCursor fd pd } buff limit
    hbs hs hal
  have hin2 : ∀ j, j < limit →
      e1.dev.bytes (fileByte ext2 pd.inode (writeCursor fd pd + j)) = buff j := hin
  have hframe2 : ∀ a, (∀ j, j < limit → a ≠ fileByte ext2 pd.inode (writeCursor fd pd + j)) →
      e1.dev.bytes a = ext2.dev.bytes a := hframe
  have hwrite : ∃ dr : Ext2OpenFd, dr.inode = d1.inode ∧
      ext2Write ext2 fd buff limit = .done (limit, e1, { fd with dir := some dr }) := by
    unfold ext2Write
    rw [hd]
    dsimp only
    rw [← hpd, if_neg (not_not.mpr hp)]
    by_cases happ : fd.flags &&& O_APPEND ≠ 0
    · have hcur : writeCursor fd pd = COMBINE_64 pd.inode.size_high pd.inode.size := by
        unfold writeCursor; rw [if_pos happ]
      rw [hcur] at hbody
      rw [if_pos happ, hbody]
      simp only [Run.map]
      rw [if_pos happ]
      exact ⟨{ d1 with ptr := pd.ptr }, rfl, rfl⟩
    · have hcur : writeCursor fd pd = pd.ptr := by
        unfold writeCursor; rw [if_neg happ]
      rw [hcur] at hbody
      rw [if_neg happ, hbody]
      simp only [Run.map]
      rw [if_neg happ]
      exact ⟨_, rfl, rfl⟩
  obtain ⟨dr, hdr, hw⟩ := hwrite
  refine ⟨e1, _, dr, hw, rfl, by rw [hdr]; exact hblocks, hin2, ?_, hframe2⟩
  intro b o hb1 hb2 ho hout
  apply hframe2
  intro j hj heq
  have := fileByte_injective ext2 pd.inode (writeCursor fd pd) limit hbs hs hal b o j
    hb1 hb2 ho hj heq
  omega

/-- Claim C21 at a concrete input: 5000 bytes written at offset 100 of a file
of the two blocks 202 and 203 on a device with a byte pattern: the write ends
1004 bytes into the second block. The descriptor carries the inode as the
device has it. -/
theorem ext2Write_preserves_surroundings_witness :
    ∃ e1 fd1 d1, ext2Write patternVolume twoBlockFd helloBuf 5000 = .done (5000, e1, fd1) ∧
      fd1.dir = some d1 ∧ d1.inode.blocks = twoBlockDir.inode.blocks ∧
      (∀ j, j < 5000 →
        e1.dev.bytes (fileByte patternVolume twoBlockDir.inode
          (writeCursor twoBlockFd twoBlockDir + j)) = helloBuf j) ∧
      (∀ b o, writeCursor twoBlockFd twoBlockDir / patternVolume.blockSize ≤ b →
        b * patternVolume.blockSize < writeCursor twoBlockFd twoBlockDir + 5000 →
        o < patternVolume.blockSize →
        (b * patternVolume.blockSize + o < writeCursor twoBlockFd twoBlockDir ∨
          writeCursor twoBlockFd twoBlockDir + 5000 ≤ b * patternVolume.blockSize + o) →
        e1.dev.bytes (blockByte patternVolume (twoBlockDir.inode.blocks b) o) =
          patternVolume.dev.bytes (blockByte patternVolume (twoBlockDir.inode.blocks b) o)) ∧
      ∀ a, (∀ j, j < 5000 → a ≠ fileByte patternVolume twoBlockDir.inode
          (writeCursor twoBlockFd twoBlockDir + j)) →
        e1.dev.bytes a = patternVolume.dev.bytes a :=
  ext2Write_preserves_surroundings patternVolume twoBlockFd twoBlockDir helloBuf 5000
    (by rfl) (by decide!) (by decide) ⟨8, by rfl⟩ (by decide!)
    ⟨by
      intro b _ hb
      have hbs : patternVolume.blockSize = 4096 := by rfl
      have hc : writeCursor twoBlockFd (ext2CachePush patternVolume twoBlockDir) = 100 := by
        rfl
      rw [hbs, hc] at hb
      have : b = 0 ∨ b = 1 := by omega
      rcases this with rfl | rfl <;> decide!,
     by
      intro b b2 _ hlt hb
      have hbs : patternVolume.blockSize = 4096 := by rfl
      have hc : writeCursor twoBlockFd (ext2CachePush patternVolume twoBlockDir) = 100 := by
        rfl
      rw [hbs, hc] at hb
      have h0 : b = 0 := by omega
      have h1 : b2 = 1 := by omega
      subst h0 h1
      decide!⟩

/-- Claim C21, the values of the witness: of the head block the byte before
the cursor keeps its pattern value and the byte at the cursor is the first
payload byte; of the last block the last payload byte is a zero of the caller's
buffer and the byte behind it keeps its pattern value. -/
theorem ext2Write_frame_example :
    (ext2Write patternVolume twoBlockFd helloBuf 5000).map (fun r =>
      [r.1, r.2.1.dev.bytes (blockByte patternVolume 202 99),
        patternVolume.dev.bytes (blockByte patternVolume 202 99),
        r.2.1.dev.bytes (blockByte patternVolume 202 100),
        r.2.1.dev.bytes (blockByte patternVolume 203 1003),
        r.2.1.dev.bytes (blockByte patternVolume 203 1004),
        patternVolume.dev.bytes (blockByte patternVolume 203 1004)]) =
      .done [5000, 93, 93, 72, 0, 74, 74] := by
  decide!

end CavOS
